import Mathlib

/-!
# GoModbusServer: a shallow embedding of the function handlers and dispatcher

Bytes are natural numbers; a conversion `byte(x)` of the source is `x % 256`.
Go slices are lists. A run-time panic of the source (slice bounds or index out
of range) is the value `none` of an `Option` result, so every handler returns
`Option (response × exception × server after the call)`.

A Go slice expression `xs[lo:hi]` is bounded by the capacity of `xs`, not by
its length. The data of a request frame is cut out of the larger buffer of its
transport (512 bytes in `servetcp.go`, 259 bytes in `servertu.go`), so a frame
carries, next to its data, the bytes of the backing array between the length
and the capacity of the data (`Spare`), and `frame.GetData()[0:4]` reads into
them when the data is shorter than four bytes.

The source files `functions.go`, `server.go` and the sizing and reading part
of `servertu.go` are embedded function by function. An `io.Reader` is the
sequence of chunks and errors it will deliver, and a loop that need not end
takes a bound on the number of its turns. The frame model (`Framer`, `RegisterAddressAndNumber`,
`RegisterAddressAndValue`) and the `Exception` type live in files that are not
part of the sources at hand; they are modelled from the specification and
marked as such.
-/

namespace mbserver

/-! ## Slices -/

/-- Go slice expression `xs[lo:hi]` on a slice `xs` whose backing array goes on
with the bytes `spare` after the length of `xs`, so that `cap xs = len xs +
len spare`: panics unless `lo ≤ hi ≤ cap xs`, and the result reads into the
spare bytes when `hi > len xs`. -/
def sliceCap (xs spare : List Nat) (lo hi : Nat) : Option (List Nat) :=
  if lo ≤ hi ∧ hi ≤ xs.length + spare.length then some (((xs ++ spare).take hi).drop lo)
  else none

/-- Go slice expression `xs[lo:hi]` where the capacity plays no part: on a
buffer that `make` has just returned (capacity equal to length), and after a
guard of the source that has put `hi` within the length (every slice of a
memory table). Panics unless `lo ≤ hi ≤ len xs`; within the length it is
`sliceCap` for every spare capacity (`sliceCap_within`). -/
def sliceRange (xs : List Nat) (lo hi : Nat) : Option (List Nat) :=
  if lo ≤ hi ∧ hi ≤ xs.length then some ((xs.take hi).drop lo) else none

/-- Go slice expression `xs[lo:]`: panics unless `lo ≤ len xs`. -/
def sliceFrom (xs : List Nat) (lo : Nat) : Option (List Nat) :=
  if lo ≤ xs.length then some (xs.drop lo) else none

/-- Go index assignment `xs[i] = v`: panics unless `i < len xs`. -/
def setIndex (xs : List Nat) (i v : Nat) : Option (List Nat) :=
  if i < xs.length then some (xs.set i v) else none

/-- Go index expression `xs[i]`: panics unless `i < len xs`. -/
def getIndex (xs : List Nat) (i : Nat) : Option Nat := xs.get? i

/-- Go builtin `copy(table[off:hi], src)` seen from the table that the
destination slice aliases: the first `min (hi - off) (len src)` bytes of `src`
overwrite `table[off ..]`; the number of bytes copied is returned with the
updated table. -/
def copyInto (table : List Nat) (off hi : Nat) (src : List Nat) : Option (Nat × List Nat) :=
  if off ≤ hi ∧ hi ≤ table.length then
    let n := min (hi - off) src.length
    some (n, table.take off ++ src.take n ++ table.drop (off + n))
  else none

/-! ## Frame model and exceptions (not among the sources at hand) -/

/-- Modelled from the spec: the `Exception` type is declared in a file that is
missing; the spec gives a fixed sum with the Modbus numeric codes. -/
inductive Exception where
  | Success
  | IllegalFunction
  | IllegalDataAddress
  | IllegalDataValue
  | SlaveDeviceFailure
  deriving DecidableEq, Repr

/-- Modelled from the spec: numeric code carried by an exception
(Success=0, IllegalFunction=1, IllegalDataAddress=2, IllegalDataValue=3). -/
def Exception.code : Exception → Nat
  | .Success => 0
  | .IllegalFunction => 1
  | .IllegalDataAddress => 2
  | .IllegalDataValue => 3
  | .SlaveDeviceFailure => 4

/-- Modelled from the spec: the `Framer` interface and its TCP and RTU
implementations are in files that are missing; the spec gives the abstract
attributes device, function and data. `Data` is a Go slice: `Spare` holds the
bytes of its backing array between its length and its capacity, which a slice
expression on the data can reach. A frame built from a literal has no spare
bytes; a frame cut from the 512-byte packet of `servetcp.go` or from the
259-byte buffer of `readRequests` has the rest of that buffer. -/
structure Framer where
  Device : Nat
  Function : Nat
  Data : List Nat
  Spare : List Nat
  deriving DecidableEq, Repr

/-- Modelled from the spec: `data()` is the bytes after the function code. -/
def Framer.GetData (frame : Framer) : List Nat := frame.Data

/-- Modelled from the spec: `function()` accessor of a frame. -/
def Framer.GetFunction (frame : Framer) : Nat := frame.Function

/-- Modelled from the spec: `copy()` is a deep clone of the frame. -/
def Framer.Copy (frame : Framer) : Framer := frame

/-- Modelled from the spec: `set_data(bytes)` replaces the data of a frame.
The spare capacity of the bytes a handler returns is not tracked (a handler
result is its bytes), and nothing reads a response beyond its length. -/
def Framer.SetData (frame : Framer) (data : List Nat) : Framer :=
  { frame with Data := data, Spare := [] }

/-- Modelled from the spec: `set_exception(e)` sets the function byte to
`function | 0x80` and replaces data with the single byte `e.code()`, a fresh
slice of one byte. -/
def Framer.SetException (frame : Framer) (e : Exception) : Framer :=
  { frame with Function := frame.Function ||| 0x80, Data := [e.code], Spare := [] }

/-- Big-endian decoding of the two bytes `hi, lo` (`binary.BigEndian.Uint16`). -/
def bigEndianUint16 (hi lo : Nat) : Nat := (lo % 256) ||| ((hi % 256) <<< 8)

/-- Modelled from the spec: `RegisterAddressAndNumber` is in a file that is
missing. The starting register address is decoded big-endian from
`data[0:2]`, the quantity from `data[2:4]`, and `end = start + count`. Both
slice expressions are bounded by the capacity of the data: data of fewer than
four bytes is read on into its spare bytes, and the call panics only when
fewer than four bytes lie within the capacity. -/
def RegisterAddressAndNumber (frame : Framer) : Option (Nat × Nat × Nat) :=
  match frame.GetData ++ frame.Spare with
  | a :: b :: c :: d :: _ =>
    let register := bigEndianUint16 a b
    let numRegs := bigEndianUint16 c d
    some (register, numRegs, register + numRegs)
  | _ => none

/-- Modelled from the spec: `RegisterAddressAndValue` is in a file that is
missing. The address is decoded big-endian from `data[0:2]` and the value
from `data[2:4]`, both bounded by the capacity of the data as in
`RegisterAddressAndNumber`. -/
def RegisterAddressAndValue (frame : Framer) : Option (Nat × Nat) :=
  match frame.GetData ++ frame.Spare with
  | a :: b :: c :: d :: _ => some (bigEndianUint16 a b, bigEndianUint16 c d)
  | _ => none

/-! ## server.go: the server and its memory tables -/

/-- The fields of `Server` that the handlers and the RTU reader use. The
handler registry is the separate type `Registry`, as its entries take the
server as an argument. -/
structure Server where
  slaveId : Nat
  DiscreteInputs : List Nat
  Coils : List Nat
  HoldingRegisters : List Nat
  InputRegisters : List Nat
  last : List Nat
  deriving DecidableEq, Repr

/-- Result of running a handler: `none` is a run-time panic, otherwise the
response bytes, the exception and the server after the call. -/
abbrev HandlerResult := Option (List Nat × Exception × Server)

/-- A function handler, `func(*Server, Framer) ([]byte, *Exception)`. -/
abbrev Handler := Server → Framer → HandlerResult

/-- The field `function` of `Server`: a map from function code to handler. -/
abbrev Registry := Nat → Option Handler

/-! ## functions.go -/

def ReadCoils_fc : Nat := 1
def ReadDiscreteInput_fc : Nat := 2
def ReadHoldingRegisters_fc : Nat := 3
def ReadInputRegisters_fc : Nat := 4
def WriteSingleCoil_fc : Nat := 5
def WriteHoldingRegister_fc : Nat := 6
def WriteMultipleCoils_fc : Nat := 15
def WriteHoldingRegisters_fc : Nat := 16

/-- Function `bitAtPosition`: `(value >> pos) & 0x01`. -/
def bitAtPosition (value pos : Nat) : Nat := (value >>> pos) &&& 0x01

/-- Function `Uint16ToBytes`: every value as two bytes, high byte first. -/
def Uint16ToBytes (values : List Nat) : List Nat :=
  values.flatMap fun value => [(value >>> 8) % 256, value % 256]

/-- The loop `for i, value := range table[register:endRegister]` of
`ReadCoils` and `ReadDiscreteInputs`, from index `i` on: a non-zero value
ORs `byte(1 << (i % 8))` into `data[1+i/8]`. -/
def packBits : List Nat → Nat → List Nat → Option (List Nat)
  | [], _, data => some data
  | value :: rest, i, data =>
    if value ≠ 0 then
      match getIndex data (1 + i / 8) with
      | none => none
      | some b =>
        match setIndex data (1 + i / 8) (b ||| ((1 <<< (i % 8)) % 256)) with
        | none => none
        | some data1 => packBits rest (i + 1) data1
    else packBits rest (i + 1) data

/-- The common body of `ReadCoils` and `ReadDiscreteInputs` after the bounds
check, over the table the handler reads. -/
def readBits (table : List Nat) (register numRegs endRegister : Nat) : Option (List Nat) :=
  let dataSize := if numRegs % 8 ≠ 0 then numRegs / 8 + 1 else numRegs / 8
  let data := List.replicate (1 + dataSize) 0
  match setIndex data 0 (dataSize % 256) with
  | none => none
  | some data0 =>
    match sliceRange table register endRegister with
    | none => none
    | some values => packBits values 0 data0

/-- Function `ReadCoils`, function 1. -/
def ReadCoils (s : Server) (frame : Framer) : HandlerResult :=
  match RegisterAddressAndNumber frame with
  | none => none
  | some (register, numRegs, endRegister) =>
    if endRegister > s.Coils.length then some ([], .IllegalDataAddress, s)
    else
      match readBits s.Coils register numRegs endRegister with
      | none => none
      | some data => some (data, .Success, s)

/-- Function `ReadDiscreteInputs`, function 2. -/
def ReadDiscreteInputs (s : Server) (frame : Framer) : HandlerResult :=
  match RegisterAddressAndNumber frame with
  | none => none
  | some (register, numRegs, endRegister) =>
    if endRegister > s.DiscreteInputs.length then some ([], .IllegalDataAddress, s)
    else
      match readBits s.DiscreteInputs register numRegs endRegister with
      | none => none
      | some data => some (data, .Success, s)

/-- Function `ReadHoldingRegisters`, function 3. -/
def ReadHoldingRegisters (s : Server) (frame : Framer) : HandlerResult :=
  match RegisterAddressAndNumber frame with
  | none => none
  | some (register, numRegs, endRegister) =>
    if endRegister * 2 > s.HoldingRegisters.length then some ([], .IllegalDataAddress, s)
    else
      match sliceRange s.HoldingRegisters (register * 2) (endRegister * 2) with
      | none => none
      | some regs => some ((numRegs * 2) % 256 :: regs, .Success, s)

/-- Function `ReadInputRegisters`, function 4. -/
def ReadInputRegisters (s : Server) (frame : Framer) : HandlerResult :=
  match RegisterAddressAndNumber frame with
  | none => none
  | some (register, numRegs, endRegister) =>
    if endRegister * 2 > s.InputRegisters.length then some ([], .IllegalDataAddress, s)
    else
      match sliceRange s.InputRegisters (register * 2) (endRegister * 2) with
      | none => none
      | some regs => some ((numRegs * 2) % 256 :: regs, .Success, s)

/-- Function `WriteSingleCoil`, function 5. -/
def WriteSingleCoil (s : Server) (frame : Framer) : HandlerResult :=
  match RegisterAddressAndValue frame with
  | none => none
  | some (register, value) =>
    if ¬ (s.Coils.length > register) then some ([], .IllegalDataAddress, s)
    else if value = 0 ∨ value = 65535 then
      match setIndex s.Coils register (if value = 0 then 0 else 1) with
      | none => none
      | some coils =>
        match sliceCap frame.GetData frame.Spare 0 4 with
        | none => none
        | some echo => some (echo, .Success, { s with Coils := coils })
    else some ([], .IllegalDataValue, s)

/-- Function `WriteHoldingRegister`, function 6. -/
def WriteHoldingRegister (s : Server) (frame : Framer) : HandlerResult :=
  match RegisterAddressAndValue frame with
  | none => none
  | some (register, value) =>
    if (register + 1) * 2 > s.HoldingRegisters.length then some ([], .IllegalDataAddress, s)
    else
      match copyInto s.HoldingRegisters (register * 2) ((register + 1) * 2) (Uint16ToBytes [value]) with
      | none => none
      | some (_, regs) =>
        match sliceCap frame.GetData frame.Spare 0 4 with
        | none => none
        | some echo => some (echo, .Success, { s with HoldingRegisters := regs })

/-- The inner loop `for bitPos := uint(0); bitPos < 8; bitPos++` of
`WriteMultipleCoils` for payload byte `value` at index `i`; `remaining` is
`8 - bitPos`. Returns the coil table and `bitCount` on leaving the loop. -/
def writeBits (register numRegs i value : Nat) :
    Nat → Nat → List Nat → Nat → Option (List Nat × Nat)
  | 0, _, coils, bitCount => some (coils, bitCount)
  | remaining + 1, bitPos, coils, bitCount =>
    match setIndex coils (register + i * 8 + bitPos) (bitAtPosition value bitPos) with
    | none => none
    | some coils1 =>
      if bitCount + 1 ≥ numRegs then some (coils1, bitCount + 1)
      else writeBits register numRegs i value remaining (bitPos + 1) coils1 (bitCount + 1)

/-- The outer loop `for i, value := range valueBytes` of `WriteMultipleCoils`,
from index `i` on. -/
def writeCoils (register numRegs : Nat) : List Nat → Nat → List Nat → Nat → Option (List Nat)
  | [], _, coils, _ => some coils
  | value :: rest, i, coils, bitCount =>
    match writeBits register numRegs i value 8 0 coils bitCount with
    | none => none
    | some (coils1, bitCount1) =>
      if bitCount1 ≥ numRegs then some coils1
      else writeCoils register numRegs rest (i + 1) coils1 bitCount1

/-- Function `WriteMultipleCoils`, function 15. -/
def WriteMultipleCoils (s : Server) (frame : Framer) : HandlerResult :=
  match RegisterAddressAndNumber frame with
  | none => none
  | some (register, numRegs, endRegister) =>
    match sliceFrom frame.GetData 5 with
    | none => none
    | some valueBytes =>
      if endRegister > s.Coils.length then some ([], .IllegalDataAddress, s)
      else
        match writeCoils register numRegs valueBytes 0 s.Coils 0 with
        | none => none
        | some coils =>
          match sliceCap frame.GetData frame.Spare 0 4 with
          | none => none
          | some echo => some (echo, .Success, { s with Coils := coils })

/-- Function `WriteHoldingRegisters`, function 16. -/
def WriteHoldingRegisters (s : Server) (frame : Framer) : HandlerResult :=
  match RegisterAddressAndNumber frame with
  | none => none
  | some (register, numRegs, endRegister) =>
    match sliceFrom frame.GetData 5 with
    | none => none
    | some valueBytes =>
      if valueBytes.length / 2 ≠ numRegs then some ([], .IllegalDataAddress, s)
      else if endRegister * 2 > s.HoldingRegisters.length then some ([], .IllegalDataAddress, s)
      else
        match copyInto s.HoldingRegisters (2 * register) s.HoldingRegisters.length valueBytes with
        | none => none
        | some (valuesUpdated, regs) =>
          if valuesUpdated = numRegs * 2 then
            match sliceCap frame.GetData frame.Spare 0 4 with
            | none => none
            | some echo => some (echo, .Success, { s with HoldingRegisters := regs })
          else some ([], .IllegalDataAddress, { s with HoldingRegisters := regs })

/-! ## server.go: construction and dispatch -/

/-- The default registry that `NewServer` fills in. -/
def defaultFunction : Registry := fun fc =>
  if fc = ReadCoils_fc then some ReadCoils
  else if fc = ReadDiscreteInput_fc then some ReadDiscreteInputs
  else if fc = ReadHoldingRegisters_fc then some ReadHoldingRegisters
  else if fc = ReadInputRegisters_fc then some ReadInputRegisters
  else if fc = WriteSingleCoil_fc then some WriteSingleCoil
  else if fc = WriteHoldingRegister_fc then some WriteHoldingRegister
  else if fc = WriteMultipleCoils_fc then some WriteMultipleCoils
  else if fc = WriteHoldingRegisters_fc then some WriteHoldingRegisters
  else none

/-- Function `NewServer`: an error for slave id 0, otherwise a server with empty tables
and the eight default handlers. -/
def NewServer (id : Nat) : Except String (Server × Registry) :=
  if id = 0 then .error "Modbus Slave Id must not be set to 0"
  else .ok ({ slaveId := id, DiscreteInputs := [], Coils := [], HoldingRegisters := [],
              InputRegisters := [], last := [] }, defaultFunction)

/-- Function `RegisterFunctionHandler`: override the handler of a function code. -/
def RegisterFunctionHandler (function : Registry) (funcCode : Nat) (h : Handler) : Registry :=
  fun fc => if fc = funcCode then some h else function fc

/-- Function `Server.handle`: the response frame and the server after the request, or
`none` when the handler panics. -/
def handle (function : Registry) (s : Server) (request : Framer) : Option (Framer × Server) :=
  let response := request.Copy
  match function request.GetFunction with
  | some h =>
    match h s request with
    | none => none
    | some (data, exception, s1) =>
      let response := response.SetData data
      if exception ≠ .Success then some (response.SetException exception, s1)
      else some (response, s1)
  | none => some (response.SetException .IllegalFunction, s)

/-- Function `BytesToUint16`: `len(bytes)/2` values, value `i` decoded big-endian
from the slice `bytes[i*2 : (i+1)*2]`. -/
def BytesToUint16 (bytes : List Nat) : Option (List Nat) :=
  (List.range (bytes.length / 2)).mapM fun i =>
    match sliceRange bytes (i * 2) ((i + 1) * 2) with
    | some [hi, lo] => some (bigEndianUint16 hi lo)
    | _ => none

def ReadExceptionStatus_fc : Nat := 7
def GetCommEventCounter_fc : Nat := 11
def GetCommEventLog_fc : Nat := 12
def ReportSlaveId_fc : Nat := 17
def ReadFileRecord_fc : Nat := 20
def WriteFileRecord_fc : Nat := 21
def MaskWriteRegister_fc : Nat := 22
def ReadWriteMultipleRegisters_fc : Nat := 23
def ReadFifoQueue_fc : Nat := 24
def ReadDeviceIdentification_fc : Nat := 43

/-! ## servertu.go: sizing and reading RTU requests -/

def max_PDU : Nat := 253
def max_ADU_RTU : Nat := 256
def min_ADU_RTU : Nat := 4

/-- The error values of `servertu.go` (created there with `errors.New`) and the
errors an `io.Reader` hands back. -/
inductive Error where
  /-- Value of `errors.New("Unsupported Function in this Modbus-Library")`. -/
  | unsupportedFunction
  /-- Value of `errors.New("Empty Byte-Slice")`. -/
  | emptyByteSlice
  /-- Value of `errors.New("Slave Id not found in Server.last")`. -/
  | slaveIdNotFound
  /-- The reader error with the text `serial: timeout`. -/
  | timeout
  /-- The reader error `io.EOF`. -/
  | eof
  /-- Any other reader error. -/
  | other (code : Nat)
  deriving DecidableEq, Repr

/-- Function `getPDUSizeFromHeader`: the size and the error it returns; `none`
when `header[0]` is out of range. -/
def getPDUSizeFromHeader (header : List Nat) : Option (Nat × Option Error) :=
  match getIndex header 0 with
  | none => none
  | some fc =>
    if fc = ReadCoils_fc ∨ fc = ReadDiscreteInput_fc ∨ fc = ReadHoldingRegisters_fc ∨
        fc = ReadInputRegisters_fc ∨ fc = WriteSingleCoil_fc ∨ fc = WriteHoldingRegister_fc then
      some (5, none)
    else if fc = WriteMultipleCoils_fc ∨ fc = WriteHoldingRegisters_fc then
      if header.length > 5 then
        match getIndex header 5 with
        | none => none
        | some b => some (b + 6, none)
      else some (max_PDU, none)
    else if fc = ReadExceptionStatus_fc ∨ fc = GetCommEventCounter_fc ∨
        fc = GetCommEventLog_fc ∨ fc = ReportSlaveId_fc then
      some (1, none)
    else if fc = ReadFifoQueue_fc then some (3, none)
    else if fc = ReadDeviceIdentification_fc then some (4, none)
    else if fc = MaskWriteRegister_fc then some (7, none)
    else if fc = WriteFileRecord_fc then
      if header.length < 2 then some (max_PDU, none)
      else
        match getIndex header 1 with
        | none => none
        | some b => some (b + 2, none)
    else if fc = ReadWriteMultipleRegisters_fc then
      if header.length < 10 then some (max_PDU, none)
      else
        match getIndex header 9 with
        | none => none
        | some b => some (b + 10, none)
    else some (0, some .unsupportedFunction)

/-- Function `getRTUSizeFromHeader`: `max_PDU` for fewer than two bytes,
otherwise the PDU size of `header[1:]` plus 3, with the error of the PDU
sizer. -/
def getRTUSizeFromHeader (header : List Nat) : Option (Nat × Option Error) :=
  if header.length < 2 then some (max_PDU, none)
  else
    match sliceFrom header 1 with
    | none => none
    | some pdu =>
      match getPDUSizeFromHeader pdu with
      | none => none
      | some (x, err) => some (x + 3, err)

/-- The loop `for n < uint(len(data))` of `find` over `data[n:]`. -/
def findLoop (x : Nat) : List Nat → Nat → Nat × Option Error
  | [], _ => (0, some .slaveIdNotFound)
  | d :: rest, n => if d = x then (n, none) else findLoop x rest (n + 1)

/-- Function `find`: index of the first occurrence of `x` in `data`. -/
def find (x : Nat) (data : List Nat) : Nat × Option Error :=
  if data.length = 0 then (0, some .emptyByteSlice) else findLoop x data 0

/-- One answer of an `io.Reader`: some bytes, or an error. -/
inductive ReadEvent where
  | data (chunk : List Nat)
  | error (err : Error)
  deriving DecidableEq, Repr

/-- An `io.Reader` as the sequence of what it will deliver; when nothing is
left it answers `io.EOF`. -/
abbrev Reader := List ReadEvent

/-- Call `reader.Read(p)` with `len(p) = space`: the bytes stored in `p`, the
error, and the reader afterwards. A chunk longer than `p` is delivered in
part and the remainder stays in the reader. -/
def Reader.Read (reader : Reader) (space : Nat) : List Nat × Option Error × Reader :=
  match reader with
  | [] => ([], some .eof, [])
  | .error e :: rest => ([], some e, rest)
  | .data chunk :: rest =>
    if chunk.length ≤ space then (chunk, none, rest)
    else (chunk.take space, none, .data (chunk.drop space) :: rest)

/-- What a run of `readRequests` ends in: its three results with the server
and the reader afterwards, a run-time panic, or no result within the given
number of loop tests. -/
inductive Outcome where
  | returned (frame : List Nat) (n : Nat) (err : Option Error) (s : Server) (reader : Reader)
  | panic
  | outOfFuel
  deriving DecidableEq, Repr

/-- The loop `for read < expected` of `readRequests` and the code after it.
`fuel` bounds the number of times the loop condition is tested. -/
def readLoop : Nat → Server → Reader → List Nat → Nat → Nat → Outcome
  | 0, _, _, _, _, _ => .outOfFuel
  | fuel + 1, s, reader, req, read, expected =>
    if read < expected then
      match sliceFrom req read with
      | none => .panic
      | some p =>
        match reader.Read p.length with
        | (chunk, err, reader1) =>
          match copyInto req read req.length chunk with
          | none => .panic
          | some (n, req1) =>
            match sliceRange req1 0 (read + n) with
            | none => .panic
            | some filled =>
              match err with
              | some e => .returned [] (read + n) (some e) { s with last := s.last ++ filled } reader1
              | none =>
                match getRTUSizeFromHeader filled with
                | none => .panic
                | some (expected1, _) => readLoop fuel s reader1 req1 (read + n) expected1
    else if read > expected then
      match sliceRange req expected read, sliceRange req 0 expected with
      | some tail, some frame => .returned frame expected none { s with last := tail } reader
      | _, _ => .panic
    else
      match sliceRange req 0 read with
      | none => .panic
      | some frame => .returned frame read none s reader

/-- The first part of `readRequests`: the bytes of `last` from the first
occurrence of the slave id on are copied into `req`, and `last` is cleared.
Returns `req`, `read` and the server. -/
def seedRequest (s : Server) (req : List Nat) : Option (List Nat × Nat × Server) :=
  if s.last.length ≠ 0 then
    match find s.slaveId s.last with
    | (n, none) =>
      match sliceFrom s.last n with
      | none => none
      | some src =>
        match copyInto req 0 req.length src with
        | none => none
        | some (k, req1) => some (req1, k, { s with last := [] })
    | (_, some _) => some (req, 0, { s with last := [] })
  else some (req, 0, s)

/-- Function `Server.readRequests` on a reader, with `fuel` bounding the number
of loop tests. -/
def readRequests (fuel : Nat) (s : Server) (reader : Reader) : Outcome :=
  match seedRequest s (List.replicate (max_ADU_RTU + 3) 0) with
  | none => .panic
  | some (req, read, s1) =>
    match sliceRange req 0 read with
    | none => .panic
    | some header =>
      match getRTUSizeFromHeader header with
      | none => .panic
      | some (_, some err) =>
        match sliceRange req 1 read with
        | none => .panic
        | some tail =>
          match find s1.slaveId tail with
          | (n, none) =>
            match sliceRange req n read with
            | none => .panic
            | some rest => .returned [] read (some err) { s1 with last := rest } reader
          | (_, some _) => .returned [] read (some err) s1 reader
      | some (expected, none) => readLoop fuel s1 reader req read expected

/-! ## Vocabulary for the statements about `readRequests` -/

/-- The function codes that have a case in the switch of
`getPDUSizeFromHeader`. -/
abbrev knownFunction (fc : Nat) : Prop :=
  fc ∈ [1, 2, 3, 4, 5, 6, 15, 16, 7, 11, 12, 17, 24, 43, 22, 21, 23]

/-- Whether an answer of the reader is bytes rather than an error. -/
def ReadEvent.isData : ReadEvent → Bool
  | .data _ => true
  | .error _ => false

/-- The bytes a reader delivers, in order. -/
def streamOf : Reader → List Nat
  | [] => []
  | .data chunk :: rest => chunk ++ streamOf rest
  | .error _ :: rest => streamOf rest

/-- The suffix of `last` that starts at the first occurrence of the slave id,
empty when `last` does not contain the slave id. -/
def seedOf (s : Server) : List Nat := s.last.dropWhile fun b => b != s.slaveId

/-- Reference sizing function, written after the words of the specification
and not after the code: 253 for fewer than two bytes, otherwise `3 + P` with
`P` read off the function byte `header[1]` and the PDU `header[1..]`, and the
unsupported-function error for every other function byte. -/
def referenceRTUSize (header : List Nat) : Except Error Nat :=
  if header.length < 2 then .ok 253
  else
    let pdu := header.drop 1
    let fc := header.getD 1 0
    if fc = 1 ∨ fc = 2 ∨ fc = 3 ∨ fc = 4 ∨ fc = 5 ∨ fc = 6 then .ok (3 + 5)
    else if fc = 7 ∨ fc = 11 ∨ fc = 12 ∨ fc = 17 then .ok (3 + 1)
    else if fc = 24 then .ok (3 + 3)
    else if fc = 43 then .ok (3 + 4)
    else if fc = 22 then .ok (3 + 7)
    else if fc = 15 ∨ fc = 16 then
      .ok (3 + if pdu.length > 5 then pdu.getD 5 0 + 6 else 253)
    else if fc = 21 then
      .ok (3 + if pdu.length ≥ 2 then pdu.getD 1 0 + 2 else 253)
    else if fc = 23 then
      .ok (3 + if pdu.length ≥ 10 then pdu.getD 9 0 + 10 else 253)
    else .error .unsupportedFunction

/-! ## Request encoding -/

theorem bigEndianUint16_bytes (n : Nat) (h : n < 65536) :
    bigEndianUint16 ((n >>> 8) % 256) (n % 256) = n := by
  unfold bigEndianUint16
  have h1 : n >>> 8 = n / 256 := by rw [Nat.shiftRight_eq_div_pow]
  have h2 : n / 256 < 256 := by omega
  rw [h1, Nat.mod_mod, Nat.mod_mod, Nat.mod_eq_of_lt h2, Nat.shiftLeft_eq, Nat.lor_comm]
  have h3 := Nat.mul_add_lt_is_or (show n % 256 < 2 ^ 8 by omega) (n / 256)
  rw [Nat.mul_comm (n / 256) (2 ^ 8), ← h3]
  omega

theorem registerAddressAndNumber_request (spare : List Nat)
    (dev fc start count : Nat) (rest : List Nat)
    (hs : start < 65536) (hc : count < 65536) :
    RegisterAddressAndNumber
      { Device := dev, Function := fc, Data := Uint16ToBytes [start, count] ++ rest,
        Spare := spare }
      = some (start, count, start + count) := by
  simp [RegisterAddressAndNumber, Framer.GetData, Uint16ToBytes,
    bigEndianUint16_bytes start hs, bigEndianUint16_bytes count hc]

theorem registerAddressAndValue_request (spare : List Nat)
    (dev fc addr value : Nat) (rest : List Nat)
    (hs : addr < 65536) (hc : value < 65536) :
    RegisterAddressAndValue
      { Device := dev, Function := fc, Data := Uint16ToBytes [addr, value] ++ rest, Spare := spare }
      = some (addr, value) := by
  simp [RegisterAddressAndValue, Framer.GetData, Uint16ToBytes,
    bigEndianUint16_bytes addr hs, bigEndianUint16_bytes value hc]

/-- C1, evaluated on the code: the dispatcher of a freshly constructed server
does not return a response frame for a function-15 request whose data has only
the four header bytes (the slice `GetData()[5:]` is out of range), nor for a
function-15 request with quantity 0 at address `len(Coils)` and a non-empty
payload (the index `Coils[register]` is out of range), whatever bytes lie
within the capacity of the data after its length. -/
theorem handle_write_multiple_coils_panics (spare : List Nat) :
    handle defaultFunction
        { slaveId := 255, DiscreteInputs := [], Coils := [], HoldingRegisters := [],
          InputRegisters := [], last := [] }
        { Device := 255, Function := 15, Data := [0, 0, 0, 0], Spare := spare } = none ∧
    handle defaultFunction
        { slaveId := 255, DiscreteInputs := [], Coils := [], HoldingRegisters := [],
          InputRegisters := [], last := [] }
        { Device := 255, Function := 15, Data := [0, 0, 0, 0, 1, 1], Spare := spare } = none :=
  ⟨rfl, rfl⟩

/-- C2, evaluated on the code: `WriteHoldingRegisters` with quantity 1 and a
payload of three bytes on a four-byte table returns `IllegalDataAddress` after
it has copied the three payload bytes into the table, whatever bytes lie
within the capacity of the data after its length. -/
theorem writeHoldingRegisters_illegal_address_after_copy (spare : List Nat) :
    WriteHoldingRegisters
        { slaveId := 255, DiscreteInputs := [], Coils := [], HoldingRegisters := [0, 0, 0, 0],
          InputRegisters := [], last := [] }
        { Device := 255, Function := 16, Data := [0, 0, 0, 1, 3, 1, 2, 3], Spare := spare }
      = some ([], .IllegalDataAddress,
          { slaveId := 255, DiscreteInputs := [], Coils := [], HoldingRegisters := [1, 2, 3, 0],
            InputRegisters := [], last := [] }) := by
  simp [WriteHoldingRegisters, RegisterAddressAndNumber, Framer.GetData, bigEndianUint16,
    sliceFrom, copyInto]

theorem newServer_tables (id : Nat) (s0 : Server) (function : Registry)
    (h : NewServer id = .ok (s0, function)) : s0 = ⟨id, [], [], [], [], []⟩ := by
  unfold NewServer at h
  split at h
  · cases h
  · cases h; rfl

/-- C3: a well-formed request whose addressed range extends beyond the target
table returns `IllegalDataAddress` with an empty response and the server
unchanged, for each of the eight default handlers; in particular so does every
request with address 65535 and quantity (or value) 2 on the server that
`NewServer` returns. -/
theorem out_of_range_returns_illegal_data_address (spare : List Nat)
    (s : Server) (dev fc start count bc : Nat) (rest : List Nat)
    (hs : start < 65536) (hc : count < 65536) :
    (start + count > s.Coils.length →
      ReadCoils s { Device := dev, Function := fc, Data := Uint16ToBytes [start, count] ++ rest,
                    Spare := spare }
        = some ([], .IllegalDataAddress, s)) ∧
    (start + count > s.DiscreteInputs.length →
      ReadDiscreteInputs s
          { Device := dev, Function := fc, Data := Uint16ToBytes [start, count] ++ rest,
            Spare := spare }
        = some ([], .IllegalDataAddress, s)) ∧
    (2 * (start + count) > s.HoldingRegisters.length →
      ReadHoldingRegisters s
          { Device := dev, Function := fc, Data := Uint16ToBytes [start, count] ++ rest,
            Spare := spare }
        = some ([], .IllegalDataAddress, s)) ∧
    (2 * (start + count) > s.InputRegisters.length →
      ReadInputRegisters s
          { Device := dev, Function := fc, Data := Uint16ToBytes [start, count] ++ rest,
            Spare := spare }
        = some ([], .IllegalDataAddress, s)) ∧
    (start ≥ s.Coils.length →
      WriteSingleCoil s
          { Device := dev, Function := fc, Data := Uint16ToBytes [start, count] ++ rest,
            Spare := spare }
        = some ([], .IllegalDataAddress, s)) ∧
    (2 * (start + 1) > s.HoldingRegisters.length →
      WriteHoldingRegister s
          { Device := dev, Function := fc, Data := Uint16ToBytes [start, count] ++ rest,
            Spare := spare }
        = some ([], .IllegalDataAddress, s)) ∧
    (start + count > s.Coils.length →
      WriteMultipleCoils s
          { Device := dev, Function := fc, Data := Uint16ToBytes [start, count] ++ bc :: rest,
            Spare := spare }
        = some ([], .IllegalDataAddress, s)) ∧
    (2 * (start + count) > s.HoldingRegisters.length →
      WriteHoldingRegisters s
          { Device := dev, Function := fc, Data := Uint16ToBytes [start, count] ++ bc :: rest,
            Spare := spare }
        = some ([], .IllegalDataAddress, s)) ∧
    (∀ id s0 function, NewServer id = .ok (s0, function) →
      ∀ h ∈ [ReadCoils, ReadDiscreteInputs, ReadHoldingRegisters, ReadInputRegisters,
              WriteSingleCoil, WriteHoldingRegister],
        h s0 { Device := dev, Function := fc, Data := Uint16ToBytes [65535, 2] ++ rest,
               Spare := spare }
          = some ([], .IllegalDataAddress, s0)) ∧
    (∀ id s0 function, NewServer id = .ok (s0, function) →
      ∀ h ∈ [WriteMultipleCoils, WriteHoldingRegisters],
        h s0 { Device := dev, Function := fc, Data := Uint16ToBytes [65535, 2] ++ bc :: rest,
               Spare := spare }
          = some ([], .IllegalDataAddress, s0)) := by
  have hn := fun r => registerAddressAndNumber_request spare dev fc start count r hs hc
  have hv := fun r => registerAddressAndValue_request spare dev fc start count r hs hc
  have hn2 := fun r => registerAddressAndNumber_request spare dev fc 65535 2 r (by decide)
    (by decide)
  have hv2 := fun r => registerAddressAndValue_request spare dev fc 65535 2 r (by decide)
    (by decide)
  have hsl : ∀ a b r, sliceFrom (Framer.GetData
      { Device := dev, Function := fc, Data := Uint16ToBytes [a, b] ++ bc :: r,
        Spare := spare }) 5 = some r := by
    intro a b r
    simp [sliceFrom, Framer.GetData, Uint16ToBytes]
  refine ⟨?_, ?_, ?_, ?_, ?_, ?_, ?_, ?_, ?_, ?_⟩
  · intro h; simp [ReadCoils, hn, h]
  · intro h; simp [ReadDiscreteInputs, hn, h]
  · intro h
    have : s.HoldingRegisters.length < (start + count) * 2 := by omega
    simp [ReadHoldingRegisters, hn, this]
  · intro h
    have : s.InputRegisters.length < (start + count) * 2 := by omega
    simp [ReadInputRegisters, hn, this]
  · intro h
    have : ¬ start < s.Coils.length := by omega
    simp [WriteSingleCoil, hv, this]
  · intro h
    have : s.HoldingRegisters.length < (start + 1) * 2 := by omega
    simp [WriteHoldingRegister, hv, this]
  · intro h; simp [WriteMultipleCoils, hn, hsl, h]
  · intro h
    have : s.HoldingRegisters.length < (start + count) * 2 := by omega
    simp [WriteHoldingRegisters, hn, hsl, this]
  · intro id s0 function hnew h hmem
    obtain rfl := newServer_tables id s0 function hnew
    simp only [List.mem_cons, List.mem_singleton, List.not_mem_nil, or_false] at hmem
    rcases hmem with rfl | rfl | rfl | rfl | rfl | rfl <;>
      simp [ReadCoils, ReadDiscreteInputs, ReadHoldingRegisters, ReadInputRegisters,
        WriteSingleCoil, WriteHoldingRegister, hn2, hv2]
  · intro id s0 function hnew h hmem
    obtain rfl := newServer_tables id s0 function hnew
    simp only [List.mem_cons, List.mem_singleton, List.not_mem_nil, or_false] at hmem
    rcases hmem with rfl | rfl <;>
      simp [WriteMultipleCoils, WriteHoldingRegisters, hn2, hsl]

/-- Witness for C3: the requests with address 65535 and quantity 2 of the
out-of-bounds test, against the empty tables of a new server with slave id 255. -/
theorem out_of_range_returns_illegal_data_address_witness :
    (65535 < 65536 ∧ 2 < 65536 ∧ 65535 + 2 > 0 ∧ 2 * (65535 + 2) > 0 ∧ 65535 ≥ 0 ∧
      2 * (65535 + 1) > 0) ∧
    ReadCoils ⟨255, [], [], [], [], []⟩ ⟨255, 1, Uint16ToBytes [65535, 2] ++ [], []⟩
      = some ([], .IllegalDataAddress, ⟨255, [], [], [], [], []⟩) ∧
    ReadDiscreteInputs ⟨255, [], [], [], [], []⟩ ⟨255, 1, Uint16ToBytes [65535, 2] ++ [], []⟩
      = some ([], .IllegalDataAddress, ⟨255, [], [], [], [], []⟩) ∧
    ReadHoldingRegisters ⟨255, [], [], [], [], []⟩ ⟨255, 1, Uint16ToBytes [65535, 2] ++ [], []⟩
      = some ([], .IllegalDataAddress, ⟨255, [], [], [], [], []⟩) ∧
    ReadInputRegisters ⟨255, [], [], [], [], []⟩ ⟨255, 1, Uint16ToBytes [65535, 2] ++ [], []⟩
      = some ([], .IllegalDataAddress, ⟨255, [], [], [], [], []⟩) ∧
    WriteSingleCoil ⟨255, [], [], [], [], []⟩ ⟨255, 1, Uint16ToBytes [65535, 2] ++ [], []⟩
      = some ([], .IllegalDataAddress, ⟨255, [], [], [], [], []⟩) ∧
    WriteHoldingRegister ⟨255, [], [], [], [], []⟩ ⟨255, 1, Uint16ToBytes [65535, 2] ++ [], []⟩
      = some ([], .IllegalDataAddress, ⟨255, [], [], [], [], []⟩) ∧
    WriteMultipleCoils ⟨255, [], [], [], [], []⟩ ⟨255, 1, Uint16ToBytes [65535, 2] ++ 1 :: [], []⟩
      = some ([], .IllegalDataAddress, ⟨255, [], [], [], [], []⟩) ∧
    WriteHoldingRegisters ⟨255, [], [], [], [], []⟩
      ⟨255, 1, Uint16ToBytes [65535, 2] ++ 1 :: [], []⟩
      = some ([], .IllegalDataAddress, ⟨255, [], [], [], [], []⟩) :=
  have h := out_of_range_returns_illegal_data_address [] ⟨255, [], [], [], [], []⟩ 255 1 65535 2 1
    []
    (by decide) (by decide)
  ⟨by decide, h.1 (by decide), h.2.1 (by decide), h.2.2.1 (by decide), h.2.2.2.1 (by decide),
    h.2.2.2.2.1 (by decide), h.2.2.2.2.2.1 (by decide), h.2.2.2.2.2.2.1 (by decide),
    h.2.2.2.2.2.2.2.1 (by decide)⟩

theorem getD_set_eq (xs : List Nat) (i v k : Nat) :
    (xs.set i v).getD k 0 = if i = k ∧ i < xs.length then v else xs.getD k 0 := by
  simp only [List.getD_eq_getElem?_getD, List.getElem?_set]
  by_cases hik : i = k
  · subst hik
    by_cases hlt : i < xs.length
    · simp [hlt]
    · simp [hlt, List.getElem?_eq_none (Nat.le_of_not_lt hlt)]
  · simp [hik]

theorem testBit_one_shiftLeft_mod (m j : Nat) (hm : m < 8) :
    ((1 <<< m) % 256).testBit j = decide (m = j) := by
  have h : (1 <<< m) % 256 = 2 ^ m := by
    rw [Nat.one_shiftLeft]
    apply Nat.mod_eq_of_lt
    calc 2 ^ m < 2 ^ 8 := Nat.pow_lt_pow_right (by decide) hm
      _ = 256 := by norm_num
  rw [h, Nat.testBit_two_pow]

theorem one_shiftLeft_mod_lt (m : Nat) : (1 <<< m) % 256 < 2 ^ 8 :=
  Nat.mod_lt _ (by decide)

/-- Effect of the bit-packing loop: it does not panic when `data` has a byte
for every index it visits, keeps the length and the header byte, and ORs into
bit `j` of body byte `k` exactly the test `vals[8k+j-i] ≠ 0` for the visited
positions. -/
theorem packBits_spec (vals : List Nat) : ∀ (i : Nat) (data : List Nat),
    1 + (i + vals.length + 7) / 8 ≤ data.length →
    ∃ r, packBits vals i data = some r ∧ r.length = data.length ∧
      r.getD 0 0 = data.getD 0 0 ∧
      (∀ k j, j < 8 → (r.getD (1 + k) 0).testBit j =
        ((data.getD (1 + k) 0).testBit j ||
          decide (i ≤ 8 * k + j ∧ 8 * k + j < i + vals.length ∧ vals.getD (8 * k + j - i) 0 ≠ 0))) ∧
      ((∀ b ∈ data, b < 256) → ∀ b ∈ r, b < 256) := by
  induction vals with
  | nil =>
    intro i data _
    refine ⟨data, rfl, rfl, rfl, ?_, fun h => h⟩
    intro k j _
    have : ¬ (i ≤ 8 * k + j ∧ 8 * k + j < i + 0) := by omega
    simp [this]
  | cons value rest ih =>
    intro i data hlen
    simp only [List.length_cons] at hlen
    by_cases hv : value = 0
    · obtain ⟨r, hr, hrl, hr0, hbits, hlt⟩ := ih (i + 1) data (by omega)
      refine ⟨r, ?_, hrl, hr0, ?_, hlt⟩
      · simp [packBits, hv, hr]
      · intro k j hj
        rw [hbits k j hj]
        congr 1
        by_cases hp : 8 * k + j = i
        · have h1 : ¬ (i + 1 ≤ 8 * k + j) := by omega
          simp [hp, hv, h1]
        · by_cases hle : i + 1 ≤ 8 * k + j
          · have h2 : 8 * k + j - i = (8 * k + j - (i + 1)) + 1 := by omega
            have h3 : i ≤ 8 * k + j := by omega
            have h4 : (8 * k + j < i + 1 + rest.length) = (8 * k + j < i + (rest.length + 1)) := by
              simp only [eq_iff_iff]; omega
            simp only [List.length_cons, h2, List.getD_cons_succ, hle, h3, h4]
          · have h3 : ¬ (i ≤ 8 * k + j) := by omega
            simp [hle, h3]
    · have hidx : 1 + i / 8 < data.length := by omega
      obtain ⟨r, hr, hrl, hr0, hbits, hlt⟩ := ih (i + 1)
        (data.set (1 + i / 8) (data.getD (1 + i / 8) 0 ||| ((1 <<< (i % 8)) % 256)))
        (by simp only [List.length_set]; omega)
      refine ⟨r, ?_, ?_, ?_, ?_, ?_⟩
      · have hg : getIndex data (1 + i / 8) = some (data.getD (1 + i / 8) 0) := by
          simp [getIndex, List.getD_eq_getElem?_getD, List.getElem?_eq_getElem hidx]
        unfold packBits
        rw [if_pos hv, hg]
        simp only [setIndex, hidx, if_true]
        exact hr
      · simpa using hrl
      · rw [hr0, getD_set_eq]
        simp
      · intro k j hj
        rw [hbits k j hj, getD_set_eq]
        by_cases hk : i / 8 = k
        · have hk1 : 1 + i / 8 = 1 + k := by omega
          simp only [hk1, true_and, hidx, hk1 ▸ hidx, if_true, Nat.testBit_or,
            testBit_one_shiftLeft_mod (i % 8) j (Nat.mod_lt _ (by decide)), Bool.or_assoc]
          congr 1
          by_cases hp : 8 * k + j = i
          · have h1 : ¬ (i + 1 ≤ 8 * k + j) := by omega
            have h2 : i % 8 = j := by omega
            simp [hp, hv, h1, h2]
          · have h2 : ¬ (i % 8 = j) := by omega
            by_cases hle : i + 1 ≤ 8 * k + j
            · have h5 : 8 * k + j - i = (8 * k + j - (i + 1)) + 1 := by omega
              have h3 : i ≤ 8 * k + j := by omega
              have h4 : (8 * k + j < i + 1 + rest.length) = (8 * k + j < i + (rest.length + 1)) := by
                simp only [eq_iff_iff]; omega
              simp only [List.length_cons, h5, List.getD_cons_succ, hle, h3, h4, h2,
                decide_False, Bool.false_or]
            · have h3 : ¬ (i ≤ 8 * k + j) := by omega
              simp [hle, h3, h2]
        · have hk1 : ¬ (1 + i / 8 = 1 + k) := by omega
          simp only [hk1, false_and, if_false]
          congr 1
          have hp : 8 * k + j ≠ i := by omega
          by_cases hle : i + 1 ≤ 8 * k + j
          · have h5 : 8 * k + j - i = (8 * k + j - (i + 1)) + 1 := by omega
            have h3 : i ≤ 8 * k + j := by omega
            have h4 : (8 * k + j < i + 1 + rest.length) = (8 * k + j < i + (rest.length + 1)) := by
              simp only [eq_iff_iff]; omega
            simp only [List.length_cons, h5, List.getD_cons_succ, hle, h3, h4]
          · have h3 : ¬ (i ≤ 8 * k + j) := by omega
            simp [hle, h3]
      · intro hdata
        apply hlt
        intro b hb
        rcases List.mem_or_eq_of_mem_set hb with hb | hb
        · exact hdata b hb
        · subst hb
          have hd : data.getD (1 + i / 8) 0 < 2 ^ 8 := by
            have : data.getD (1 + i / 8) 0 ∈ data := by
              rw [List.getD_eq_getElem?_getD, List.getElem?_eq_getElem hidx]
              exact List.getElem_mem hidx
            exact hdata _ this
          exact Nat.or_lt_two_pow hd (one_shiftLeft_mod_lt _)

theorem sliceRange_getD (table : List Nat) (lo n p : Nat) (h : lo + n ≤ table.length) :
    ∃ vals, sliceRange table lo (lo + n) = some vals ∧ vals.length = n ∧
      (p < n → vals.getD p 0 = table.getD (lo + p) 0) := by
  refine ⟨(table.take (lo + n)).drop lo, ?_, ?_, ?_⟩
  · simp [sliceRange, h]
  · simp [List.length_drop, List.length_take, Nat.min_eq_left h]
  · intro hp
    simp only [List.getD_eq_getElem?_getD, List.getElem?_drop, List.getElem?_take]
    simp [show lo + p < lo + n by omega]

/-- The body of `ReadCoils` and `ReadDiscreteInputs` on an in-range request:
header byte `byte(dataSize)`, then `dataSize = ceil(count/8)` body bytes whose
bit `j` of byte `k` is set exactly when `8k+j < count` and
`table[start+8k+j] ≠ 0`. -/
theorem readBits_spec (table : List Nat) (start count : Nat)
    (h : start + count ≤ table.length) :
    ∃ body, readBits table start count (start + count)
        = some (((count + 7) / 8) % 256 :: body) ∧
      body.length = (count + 7) / 8 ∧
      (∀ k j, j < 8 → (body.getD k 0).testBit j =
        decide (8 * k + j < count ∧ table.getD (start + (8 * k + j)) 0 ≠ 0)) ∧
      ∀ b ∈ body, b < 256 := by
  have hsize : (if count % 8 ≠ 0 then count / 8 + 1 else count / 8) = (count + 7) / 8 := by
    split <;> omega
  obtain ⟨vals, hvals, hvl, -⟩ := sliceRange_getD table start count 0 h
  have hget : ∀ p, p < count → vals.getD p 0 = table.getD (start + p) 0 := by
    intro p hp
    obtain ⟨vals1, hvals1, -, hg⟩ := sliceRange_getD table start count p h
    rw [hvals] at hvals1
    cases hvals1
    exact hg hp
  obtain ⟨r, hr, hrl, hr0, hbits, hlt⟩ :=
    packBits_spec vals 0 (((count + 7) / 8) % 256 :: List.replicate ((count + 7) / 8) 0)
      (by simp only [List.length_cons, List.length_replicate]; omega)
  cases r with
  | nil => simp at hrl
  | cons hd body =>
    refine ⟨body, ?_, ?_, ?_, ?_⟩
    · simp only [List.getD_cons_zero] at hr0
      subst hr0
      unfold readBits
      simp only [hsize, setIndex, List.length_replicate, hvals]
      rw [if_pos (by omega)]
      have hrep : (List.replicate (1 + (count + 7) / 8) 0).set 0 ((count + 7) / 8 % 256)
          = ((count + 7) / 8) % 256 :: List.replicate ((count + 7) / 8) 0 := by
        rw [Nat.add_comm 1, List.replicate_succ, List.set_cons_zero]
      simp only [hrep]
      exact hr
    · simpa using hrl
    · intro k j hj
      have hb := hbits k j hj
      rw [Nat.add_comm 1 k, List.getD_cons_succ, List.getD_cons_succ] at hb
      rw [hb]
      have hz : (List.replicate ((count + 7) / 8) 0).getD k 0 = 0 := by
        simp only [List.getD_eq_getElem?_getD, List.getElem?_replicate]
        split <;> rfl
      rw [hz, Nat.zero_testBit, Bool.false_or, hvl]
      by_cases hp : 8 * k + j < count
      · have hg := hget _ hp
        simp only [Nat.zero_le, true_and, Nat.zero_add, Nat.sub_zero, hp, hg]
      · simp [hp]
    · intro b hb
      refine hlt ?_ b (List.mem_cons_of_mem _ hb)
      intro c hc
      rcases List.mem_cons.mp hc with rfl | hc
      · exact Nat.mod_lt _ (by decide)
      · rw [List.eq_of_mem_replicate hc]; decide

/-- C4: on an in-range request `ReadCoils` returns `Success` with a response of
exactly `1 + ceil(count/8)` bytes; for every `i < count`, bit `i mod 8` of body
byte `i div 8` (LSB-first) is set if and only if `table[start+i] ≠ 0`, and every
padding bit at a position `≥ count` is clear. `ReadDiscreteInputs` does the
same over the discrete-input table. -/
theorem read_bits_response (spare : List Nat) (s : Server)
    (dev fc start count : Nat) (rest : List Nat)
    (hs : start < 65536) (hc : count < 65536) :
    (start + count ≤ s.Coils.length →
      ∃ resp, ReadCoils s
            { Device := dev, Function := fc, Data := Uint16ToBytes [start, count] ++ rest,
              Spare := spare }
          = some (resp, .Success, s) ∧
        resp.length = 1 + (count + 7) / 8 ∧
        (∀ i, i < count →
          ((resp.getD (1 + i / 8) 0).testBit (i % 8) = true ↔ s.Coils.getD (start + i) 0 ≠ 0)) ∧
        (∀ p, count ≤ p → p < 8 * ((count + 7) / 8) →
          (resp.getD (1 + p / 8) 0).testBit (p % 8) = false) ∧
        ∀ b ∈ resp, b < 256) ∧
    (start + count ≤ s.DiscreteInputs.length →
      ∃ resp, ReadDiscreteInputs s
            { Device := dev, Function := fc, Data := Uint16ToBytes [start, count] ++ rest,
              Spare := spare }
          = some (resp, .Success, s) ∧
        resp.length = 1 + (count + 7) / 8 ∧
        (∀ i, i < count →
          ((resp.getD (1 + i / 8) 0).testBit (i % 8) = true ↔
            s.DiscreteInputs.getD (start + i) 0 ≠ 0)) ∧
        (∀ p, count ≤ p → p < 8 * ((count + 7) / 8) →
          (resp.getD (1 + p / 8) 0).testBit (p % 8) = false) ∧
        ∀ b ∈ resp, b < 256) := by
  have hn := registerAddressAndNumber_request spare dev fc start count rest hs hc
  have key : ∀ table : List Nat, start + count ≤ table.length →
      ∃ resp, readBits table start count (start + count) = some resp ∧
        resp.length = 1 + (count + 7) / 8 ∧
        (∀ i, i < count →
          ((resp.getD (1 + i / 8) 0).testBit (i % 8) = true ↔ table.getD (start + i) 0 ≠ 0)) ∧
        (∀ p, count ≤ p → p < 8 * ((count + 7) / 8) →
          (resp.getD (1 + p / 8) 0).testBit (p % 8) = false) ∧
        ∀ b ∈ resp, b < 256 := by
    intro table h
    obtain ⟨body, hb, hbl, hbits, hlt⟩ := readBits_spec table start count h
    refine ⟨_, hb, ?_, ?_, ?_, ?_⟩
    · simp [hbl, Nat.add_comm]
    · intro i hi
      rw [Nat.add_comm 1, List.getD_cons_succ, hbits _ _ (Nat.mod_lt _ (by decide))]
      have : 8 * (i / 8) + i % 8 = i := Nat.div_add_mod i 8
      simp [this, hi]
    · intro p hp _
      rw [Nat.add_comm 1, List.getD_cons_succ, hbits _ _ (Nat.mod_lt _ (by decide))]
      have : 8 * (p / 8) + p % 8 = p := Nat.div_add_mod p 8
      have hnp : ¬ p < count := by omega
      simp [this, hnp]
    · intro b hb
      rcases List.mem_cons.mp hb with rfl | hb
      · exact Nat.mod_lt _ (by decide)
      · exact hlt b hb
  constructor
  · intro h
    obtain ⟨resp, hr, hrest⟩ := key s.Coils h
    refine ⟨resp, ?_, hrest⟩
    simp [ReadCoils, hn, Nat.not_lt.mpr h, hr]
  · intro h
    obtain ⟨resp, hr, hrest⟩ := key s.DiscreteInputs h
    refine ⟨resp, ?_, hrest⟩
    simp [ReadDiscreteInputs, hn, Nat.not_lt.mpr h, hr]

/-- Witness for C4: ten bits from address 0 of a coil table and of the
discrete-input table of the second read scenario. -/
theorem read_bits_response_witness :
    (0 < 65536 ∧ 10 < 65536 ∧ 0 + 10 ≤ 12 ∧ 0 + 10 ≤ 10) ∧
    (∃ resp, ReadCoils ⟨255, [1, 0, 0, 0, 0, 0, 0, 1, 1, 1], [0, 1, 1, 0, 0, 0, 0, 0, 0, 1, 1, 1],
          [], [], []⟩ ⟨255, 1, Uint16ToBytes [0, 10] ++ [], []⟩
        = some (resp, .Success, ⟨255, [1, 0, 0, 0, 0, 0, 0, 1, 1, 1],
            [0, 1, 1, 0, 0, 0, 0, 0, 0, 1, 1, 1], [], [], []⟩) ∧
      resp.length = 1 + (10 + 7) / 8 ∧
      (∀ i, i < 10 →
        ((resp.getD (1 + i / 8) 0).testBit (i % 8) = true ↔
          ([0, 1, 1, 0, 0, 0, 0, 0, 0, 1, 1, 1] : List Nat).getD (0 + i) 0 ≠ 0)) ∧
      (∀ p, 10 ≤ p → p < 8 * ((10 + 7) / 8) →
        (resp.getD (1 + p / 8) 0).testBit (p % 8) = false) ∧
      ∀ b ∈ resp, b < 256) ∧
    (∃ resp, ReadDiscreteInputs ⟨255, [1, 0, 0, 0, 0, 0, 0, 1, 1, 1],
          [0, 1, 1, 0, 0, 0, 0, 0, 0, 1, 1, 1], [], [], []⟩ ⟨255, 1, Uint16ToBytes [0, 10] ++ [],
            []⟩
        = some (resp, .Success, ⟨255, [1, 0, 0, 0, 0, 0, 0, 1, 1, 1],
            [0, 1, 1, 0, 0, 0, 0, 0, 0, 1, 1, 1], [], [], []⟩) ∧
      resp.length = 1 + (10 + 7) / 8 ∧
      (∀ i, i < 10 →
        ((resp.getD (1 + i / 8) 0).testBit (i % 8) = true ↔
          ([1, 0, 0, 0, 0, 0, 0, 1, 1, 1] : List Nat).getD (0 + i) 0 ≠ 0)) ∧
      (∀ p, 10 ≤ p → p < 8 * ((10 + 7) / 8) →
        (resp.getD (1 + p / 8) 0).testBit (p % 8) = false) ∧
      ∀ b ∈ resp, b < 256) :=
  have h := read_bits_response [] ⟨255, [1, 0, 0, 0, 0, 0, 0, 1, 1, 1],
    [0, 1, 1, 0, 0, 0, 0, 0, 0, 1, 1, 1], [], [], []⟩ 255 1 0 10 [] (by decide) (by decide)
  ⟨by decide, h.1 (by decide), h.2 (by decide)⟩

/-- In-range `ReadCoils`: header byte `byte(ceil(count/8))` and `ceil(count/8)`
body bytes. -/
theorem readCoils_in_range (spare : List Nat) (s : Server)
    (dev fc start count : Nat) (rest : List Nat)
    (hs : start < 65536) (hc : count < 65536) (h : start + count ≤ s.Coils.length) :
    ∃ body, ReadCoils s
          { Device := dev, Function := fc, Data := Uint16ToBytes [start, count] ++ rest,
            Spare := spare }
        = some (((count + 7) / 8) % 256 :: body, .Success, s) ∧
      body.length = (count + 7) / 8 := by
  have hn := registerAddressAndNumber_request spare dev fc start count rest hs hc
  obtain ⟨body, hb, hbl, -, -⟩ := readBits_spec s.Coils start count h
  refine ⟨body, ?_, hbl⟩
  simp [ReadCoils, hn, Nat.not_lt.mpr h, hb]

/-- In-range `ReadDiscreteInputs`: header byte `byte(ceil(count/8))` and
`ceil(count/8)` body bytes. -/
theorem readDiscreteInputs_in_range (spare : List Nat) (s : Server)
    (dev fc start count : Nat) (rest : List Nat)
    (hs : start < 65536) (hc : count < 65536) (h : start + count ≤ s.DiscreteInputs.length) :
    ∃ body, ReadDiscreteInputs s
          { Device := dev, Function := fc, Data := Uint16ToBytes [start, count] ++ rest,
            Spare := spare }
        = some (((count + 7) / 8) % 256 :: body, .Success, s) ∧
      body.length = (count + 7) / 8 := by
  have hn := registerAddressAndNumber_request spare dev fc start count rest hs hc
  obtain ⟨body, hb, hbl, -, -⟩ := readBits_spec s.DiscreteInputs start count h
  refine ⟨body, ?_, hbl⟩
  simp [ReadDiscreteInputs, hn, Nat.not_lt.mpr h, hb]

/-- C5 fails as stated: for quantity 2048 on a table of 2048 coils the request
is in range and the response has `ceil(2048/8) = 256` body bytes, but its header
byte is 0. -/
theorem read_coils_header_byte_wraps :
    ∃ body, ReadCoils ⟨255, [], List.replicate 2048 0, [], [], []⟩
          ⟨255, 1, Uint16ToBytes [0, 2048] ++ [], []⟩
        = some (0 :: body, .Success, ⟨255, [], List.replicate 2048 0, [], [], []⟩) ∧
      body.length = 256 ∧ (2048 + 7) / 8 = 256 ∧ 0 + 2048 ≤ (List.replicate 2048 0).length := by
  have hlen : 0 + 2048 ≤ (List.replicate 2048 0).length := by
    rw [List.length_replicate]
  obtain ⟨body, hb, hbl⟩ := readCoils_in_range [] ⟨255, [], List.replicate 2048 0, [], [], []⟩
    255 1 0 2048 [] (by decide) (by decide) hlen
  have e1 : (2048 + 7) / 8 = 256 := by norm_num
  have e2 : (2048 + 7) / 8 % 256 = 0 := by norm_num
  rw [e2] at hb
  rw [e1] at hbl
  exact ⟨body, hb, hbl, e1, hlen⟩

/-- C5 as amended: on an in-range request the header byte of the `ReadCoils` and
`ReadDiscreteInputs` response is `ceil(count/8) mod 256` and is followed by
exactly `ceil(count/8)` body bytes; the header equals the number of body bytes
whenever `count ≤ 2040`. -/
theorem read_bits_header_byte (spare : List Nat) (s : Server)
    (dev fc start count : Nat) (rest : List Nat)
    (hs : start < 65536) (hc : count < 65536) :
    (start + count ≤ s.Coils.length →
      ∃ body, ReadCoils s
            { Device := dev, Function := fc, Data := Uint16ToBytes [start, count] ++ rest,
              Spare := spare }
          = some (((count + 7) / 8) % 256 :: body, .Success, s) ∧
        body.length = (count + 7) / 8 ∧
        (count ≤ 2040 → ((count + 7) / 8) % 256 = body.length)) ∧
    (start + count ≤ s.DiscreteInputs.length →
      ∃ body, ReadDiscreteInputs s
            { Device := dev, Function := fc, Data := Uint16ToBytes [start, count] ++ rest,
              Spare := spare }
          = some (((count + 7) / 8) % 256 :: body, .Success, s) ∧
        body.length = (count + 7) / 8 ∧
        (count ≤ 2040 → ((count + 7) / 8) % 256 = body.length)) := by
  constructor
  · intro h
    obtain ⟨body, hb, hbl⟩ := readCoils_in_range spare s dev fc start count rest hs hc h
    exact ⟨body, hb, hbl, fun hle => by rw [hbl]; omega⟩
  · intro h
    obtain ⟨body, hb, hbl⟩ := readDiscreteInputs_in_range spare s dev fc start count rest hs hc h
    exact ⟨body, hb, hbl, fun hle => by rw [hbl]; omega⟩

/-- Witness for C5 as amended: nine coils from address 10 of a 20-coil table
and of a 20-input table. -/
theorem read_bits_header_byte_witness :
    (10 < 65536 ∧ 9 < 65536 ∧ 10 + 9 ≤ 20) ∧
    (∃ body, ReadCoils ⟨255, List.replicate 20 1, List.replicate 20 0, [], [], []⟩
          ⟨255, 1, Uint16ToBytes [10, 9] ++ [], []⟩
        = some (((9 + 7) / 8) % 256 :: body, .Success,
            ⟨255, List.replicate 20 1, List.replicate 20 0, [], [], []⟩) ∧
      body.length = (9 + 7) / 8 ∧ (9 ≤ 2040 → ((9 + 7) / 8) % 256 = body.length)) ∧
    (∃ body, ReadDiscreteInputs ⟨255, List.replicate 20 1, List.replicate 20 0, [], [], []⟩
          ⟨255, 1, Uint16ToBytes [10, 9] ++ [], []⟩
        = some (((9 + 7) / 8) % 256 :: body, .Success,
            ⟨255, List.replicate 20 1, List.replicate 20 0, [], [], []⟩) ∧
      body.length = (9 + 7) / 8 ∧ (9 ≤ 2040 → ((9 + 7) / 8) % 256 = body.length)) :=
  have h := read_bits_header_byte [] ⟨255, List.replicate 20 1, List.replicate 20 0, [], [], []⟩
    255 1 10 9 [] (by decide) (by decide)
  ⟨by decide, h.1 (by decide), h.2 (by decide)⟩

theorem sliceRange_eq (table : List Nat) (lo hi : Nat) (h1 : lo ≤ hi) (h2 : hi ≤ table.length) :
    sliceRange table lo hi = some ((table.drop lo).take (hi - lo)) := by
  simp [sliceRange, h1, h2, List.drop_take]

/-- C6: on a request with `2*(start+count) ≤ len(table)`, `ReadHoldingRegisters`
returns `Success` and the byte `2*count mod 256` followed by exactly the
`2*count` bytes `table[2*start .. 2*(start+count))`, unmodified and in table
order; `ReadInputRegisters` does the same over the input-register table. -/
theorem read_registers_response (spare : List Nat) (s : Server)
    (dev fc start count : Nat) (rest : List Nat)
    (hs : start < 65536) (hc : count < 65536) :
    (2 * (start + count) ≤ s.HoldingRegisters.length →
      ReadHoldingRegisters s
          { Device := dev, Function := fc, Data := Uint16ToBytes [start, count] ++ rest,
            Spare := spare }
        = some ((2 * count) % 256 :: (s.HoldingRegisters.drop (2 * start)).take (2 * count),
            .Success, s) ∧
      ((s.HoldingRegisters.drop (2 * start)).take (2 * count)).length = 2 * count ∧
      ∀ i, i < 2 * count →
        ((s.HoldingRegisters.drop (2 * start)).take (2 * count))[i]?
          = s.HoldingRegisters[2 * start + i]?) ∧
    (2 * (start + count) ≤ s.InputRegisters.length →
      ReadInputRegisters s
          { Device := dev, Function := fc, Data := Uint16ToBytes [start, count] ++ rest,
            Spare := spare }
        = some ((2 * count) % 256 :: (s.InputRegisters.drop (2 * start)).take (2 * count),
            .Success, s) ∧
      ((s.InputRegisters.drop (2 * start)).take (2 * count)).length = 2 * count ∧
      ∀ i, i < 2 * count →
        ((s.InputRegisters.drop (2 * start)).take (2 * count))[i]?
          = s.InputRegisters[2 * start + i]?) := by
  have hn := registerAddressAndNumber_request spare dev fc start count rest hs hc
  have key : ∀ table : List Nat, 2 * (start + count) ≤ table.length →
      sliceRange table (start * 2) ((start + count) * 2)
          = some ((table.drop (2 * start)).take (2 * count)) ∧
      ((table.drop (2 * start)).take (2 * count)).length = 2 * count ∧
      ∀ i, i < 2 * count →
        ((table.drop (2 * start)).take (2 * count))[i]? = table[2 * start + i]? := by
    intro table h
    refine ⟨?_, ?_, ?_⟩
    · have e1 : start * 2 = 2 * start := by omega
      have e2 : (start + count) * 2 - 2 * start = 2 * count := by omega
      rw [sliceRange_eq table _ _ (by omega) (by omega), e1, e2]
    · rw [List.length_take, List.length_drop]; omega
    · intro i hi
      rw [List.getElem?_take_of_lt hi, List.getElem?_drop]
  constructor
  · intro h
    obtain ⟨h1, h2, h3⟩ := key s.HoldingRegisters h
    refine ⟨?_, h2, h3⟩
    have hlt : ¬ s.HoldingRegisters.length < (start + count) * 2 := by omega
    simp [ReadHoldingRegisters, hn, hlt, h1, Nat.mul_comm]
  · intro h
    obtain ⟨h1, h2, h3⟩ := key s.InputRegisters h
    refine ⟨?_, h2, h3⟩
    have hlt : ¬ s.InputRegisters.length < (start + count) * 2 := by omega
    simp [ReadInputRegisters, hn, hlt, h1, Nat.mul_comm]

/-- Witness for C6: two registers from address 1 of an eight-byte holding
table and of an eight-byte input table. -/
theorem read_registers_response_witness :
    (1 < 65536 ∧ 2 < 65536 ∧ 2 * (1 + 2) ≤ 8) ∧
    (ReadHoldingRegisters ⟨255, [], [], [9, 9, 0, 3, 0, 4, 9, 9], [7, 7, 0, 255, 0, 1, 7, 7], []⟩
          ⟨255, 3, Uint16ToBytes [1, 2] ++ [], []⟩
        = some ((2 * 2) % 256 ::
              (([9, 9, 0, 3, 0, 4, 9, 9] : List Nat).drop (2 * 1)).take (2 * 2), .Success,
            ⟨255, [], [], [9, 9, 0, 3, 0, 4, 9, 9], [7, 7, 0, 255, 0, 1, 7, 7], []⟩) ∧
      ((([9, 9, 0, 3, 0, 4, 9, 9] : List Nat).drop (2 * 1)).take (2 * 2)).length = 2 * 2 ∧
      ∀ i, i < 2 * 2 →
        ((([9, 9, 0, 3, 0, 4, 9, 9] : List Nat).drop (2 * 1)).take (2 * 2))[i]?
          = ([9, 9, 0, 3, 0, 4, 9, 9] : List Nat)[2 * 1 + i]?) ∧
    (ReadInputRegisters ⟨255, [], [], [9, 9, 0, 3, 0, 4, 9, 9], [7, 7, 0, 255, 0, 1, 7, 7], []⟩
          ⟨255, 3, Uint16ToBytes [1, 2] ++ [], []⟩
        = some ((2 * 2) % 256 ::
              (([7, 7, 0, 255, 0, 1, 7, 7] : List Nat).drop (2 * 1)).take (2 * 2), .Success,
            ⟨255, [], [], [9, 9, 0, 3, 0, 4, 9, 9], [7, 7, 0, 255, 0, 1, 7, 7], []⟩) ∧
      ((([7, 7, 0, 255, 0, 1, 7, 7] : List Nat).drop (2 * 1)).take (2 * 2)).length = 2 * 2 ∧
      ∀ i, i < 2 * 2 →
        ((([7, 7, 0, 255, 0, 1, 7, 7] : List Nat).drop (2 * 1)).take (2 * 2))[i]?
          = ([7, 7, 0, 255, 0, 1, 7, 7] : List Nat)[2 * 1 + i]?) :=
  have h := read_registers_response []
    ⟨255, [], [], [9, 9, 0, 3, 0, 4, 9, 9], [7, 7, 0, 255, 0, 1, 7, 7], []⟩ 255 3 1 2 []
    (by decide) (by decide)
  ⟨by decide, h.1 (by decide), h.2 (by decide)⟩

theorem uint16ToBytes_length (values : List Nat) :
    (Uint16ToBytes values).length = 2 * values.length := by
  induction values with
  | nil => rfl
  | cons v vs ih =>
    have : Uint16ToBytes (v :: vs) = (v >>> 8) % 256 :: v % 256 :: Uint16ToBytes vs := by
      simp [Uint16ToBytes]
    rw [this, List.length_cons, List.length_cons, ih, List.length_cons]
    omega

theorem request_echo (spare : List Nat) (dev fc start count : Nat) (rest : List Nat) :
    sliceCap (Framer.GetData
        { Device := dev, Function := fc, Data := Uint16ToBytes [start, count] ++ rest,
          Spare := spare }) spare 0 4
      = some (Uint16ToBytes [start, count]) := by
  simp [sliceCap, Framer.GetData, Uint16ToBytes]
  omega

theorem request_payload (spare : List Nat) (dev fc start count bc : Nat) (payload : List Nat) :
    sliceFrom (Framer.GetData
        { Device := dev, Function := fc, Data := Uint16ToBytes [start, count] ++ bc :: payload,
          Spare := spare }) 5
      = some payload := by
  simp [sliceFrom, Framer.GetData, Uint16ToBytes]

/-- Function `WriteHoldingRegisters` on an in-range request with a payload of exactly
`2*count` bytes: success, echo of the header, payload spliced into the table
at byte offset `2*start`. -/
theorem writeHoldingRegisters_ok (spare : List Nat) (s : Server)
    (dev fc start count bc : Nat) (payload : List Nat)
    (hs : start < 65536) (hc : count < 65536)
    (hp : payload.length = 2 * count) (hr : 2 * (start + count) ≤ s.HoldingRegisters.length) :
    WriteHoldingRegisters s
        { Device := dev, Function := fc, Data := Uint16ToBytes [start, count] ++ bc :: payload,
          Spare := spare }
      = some (Uint16ToBytes [start, count], .Success,
          { s with HoldingRegisters := s.HoldingRegisters.take (2 * start) ++ payload ++
              s.HoldingRegisters.drop (2 * start + 2 * count) }) := by
  have hn := registerAddressAndNumber_request spare dev fc start count (bc :: payload) hs hc
  have hpl := request_payload spare dev fc start count bc payload
  have hecho := request_echo spare dev fc start count (bc :: payload)
  have hmin : min (s.HoldingRegisters.length - 2 * start) payload.length = 2 * count := by
    omega
  have hcopy : copyInto s.HoldingRegisters (2 * start) s.HoldingRegisters.length payload
      = some (2 * count, s.HoldingRegisters.take (2 * start) ++ payload ++
          s.HoldingRegisters.drop (2 * start + 2 * count)) := by
    unfold copyInto
    rw [if_pos ⟨by omega, Nat.le_refl _⟩]
    simp only [hmin]
    rw [← hp, List.take_length]
  have h1 : ¬ payload.length / 2 ≠ count := by omega
  have h2 : ¬ (start + count) * 2 > s.HoldingRegisters.length := by omega
  unfold WriteHoldingRegisters
  rw [hn]
  simp only [hpl, if_neg h1, if_neg h2, hcopy, hecho]
  rw [if_pos (by omega)]

theorem splice_length (table payload : List Nat) (off n : Nat)
    (hp : payload.length = n) (hr : off + n ≤ table.length) :
    (table.take off ++ payload ++ table.drop (off + n)).length = table.length := by
  simp only [List.length_append, List.length_take, List.length_drop]
  omega

theorem splice_inside (table payload : List Nat) (off n i : Nat)
    (hp : payload.length = n) (hr : off + n ≤ table.length) (hi : i < n) :
    (table.take off ++ payload ++ table.drop (off + n))[off + i]? = payload[i]? := by
  have hl : (table.take off).length = off := by
    rw [List.length_take]; omega
  rw [List.append_assoc, List.getElem?_append_right (by omega), hl,
    Nat.add_sub_cancel_left, List.getElem?_append_left (by omega)]

theorem splice_outside (table payload : List Nat) (off n j : Nat)
    (hp : payload.length = n) (hr : off + n ≤ table.length) (hj : j < off ∨ off + n ≤ j) :
    (table.take off ++ payload ++ table.drop (off + n))[j]? = table[j]? := by
  have hl : (table.take off).length = off := by
    rw [List.length_take]; omega
  rcases hj with hj | hj
  · rw [List.append_assoc, List.getElem?_append_left (by omega), List.getElem?_take_of_lt hj]
  · rw [List.getElem?_append_right (by simp only [List.length_append]; omega),
      List.getElem?_drop]
    simp only [List.length_append, hl, hp]
    congr 1
    omega

theorem splice_read_back (table payload : List Nat) (off n : Nat)
    (hp : payload.length = n) (hr : off + n ≤ table.length) :
    ((table.take off ++ payload ++ table.drop (off + n)).drop off).take n = payload := by
  have hl : (table.take off).length = off := by
    rw [List.length_take]; omega
  rw [List.append_assoc, List.drop_append_of_le_length (by omega),
    List.drop_of_length_le (by omega), List.nil_append,
    List.take_append_of_le_length (by omega), ← hp, List.take_length]

/-- C10: with a payload of exactly `2*count` bytes and `2*(start+count) ≤
len(table)`, `WriteHoldingRegisters` returns `Success` and the first four
request data bytes; afterwards `table[2*start .. 2*start+2*count)` is the
payload verbatim, every other byte of the table and the other tables are
unchanged. A request with `len(payload)/2 ≠ count` returns
`IllegalDataAddress`. -/
theorem write_holding_registers_effect (spare : List Nat) (s : Server) (dev fc start count bc : Nat)
    (payload : List Nat) (hs : start < 65536) (hc : count < 65536) :
    (payload.length = 2 * count → 2 * (start + count) ≤ s.HoldingRegisters.length →
      ∃ regs, WriteHoldingRegisters s
            { Device := dev, Function := fc,
              Data := Uint16ToBytes [start, count] ++ bc :: payload, Spare := spare }
          = some ((Uint16ToBytes [start, count] ++ bc :: payload).take 4, .Success,
              { s with HoldingRegisters := regs }) ∧
        regs.length = s.HoldingRegisters.length ∧
        (∀ i, i < 2 * count → regs[2 * start + i]? = payload[i]?) ∧
        (∀ j, j < 2 * start ∨ 2 * start + 2 * count ≤ j → regs[j]? = s.HoldingRegisters[j]?)) ∧
    (payload.length / 2 ≠ count →
      WriteHoldingRegisters s
          { Device := dev, Function := fc,
            Data := Uint16ToBytes [start, count] ++ bc :: payload, Spare := spare }
        = some ([], .IllegalDataAddress, s)) := by
  constructor
  · intro hp hr
    refine ⟨_, ?_, splice_length _ _ _ _ hp (by omega),
      fun i hi => splice_inside _ _ _ _ i hp (by omega) hi,
      fun j hj => splice_outside _ _ _ _ j hp (by omega) hj⟩
    rw [writeHoldingRegisters_ok spare s dev fc start count bc payload hs hc hp hr]
    simp [Uint16ToBytes]
  · intro hne
    have hn := registerAddressAndNumber_request spare dev fc start count (bc :: payload) hs hc
    have hpl := request_payload spare dev fc start count bc payload
    unfold WriteHoldingRegisters
    rw [hn]
    simp only [hpl, if_pos hne]

/-- Witness for C10: the write scenario with address 1, quantity 2 and payload
`00 03 00 04` on a ten-byte table, and the same request with quantity 3. -/
theorem write_holding_registers_effect_witness :
    (1 < 65536 ∧ 2 < 65536 ∧ ([0, 3, 0, 4] : List Nat).length = 2 * 2 ∧ 2 * (1 + 2) ≤ 10) ∧
    (∃ regs, WriteHoldingRegisters ⟨255, [], [], List.replicate 10 0, [], []⟩
          ⟨255, 16, Uint16ToBytes [1, 2] ++ 4 :: [0, 3, 0, 4], []⟩
        = some ((Uint16ToBytes [1, 2] ++ 4 :: [0, 3, 0, 4]).take 4, .Success,
            { (⟨255, [], [], List.replicate 10 0, [], []⟩ : Server) with
              HoldingRegisters := regs }) ∧
      regs.length = (List.replicate 10 0).length ∧
      (∀ i, i < 2 * 2 → regs[2 * 1 + i]? = ([0, 3, 0, 4] : List Nat)[i]?) ∧
      (∀ j, j < 2 * 1 ∨ 2 * 1 + 2 * 2 ≤ j → regs[j]? = (List.replicate 10 0)[j]?)) ∧
    (([0, 3, 0, 4] : List Nat).length / 2 ≠ 3 ∧
      WriteHoldingRegisters ⟨255, [], [], List.replicate 10 0, [], []⟩
          ⟨255, 16, Uint16ToBytes [1, 3] ++ 4 :: [0, 3, 0, 4], []⟩
        = some ([], .IllegalDataAddress, ⟨255, [], [], List.replicate 10 0, [], []⟩)) :=
  ⟨by decide,
    (write_holding_registers_effect [] ⟨255, [], [], List.replicate 10 0, [], []⟩ 255 16 1 2 4
      [0, 3, 0, 4] (by decide) (by decide)).1 (by decide) (by decide),
    by decide,
    (write_holding_registers_effect [] ⟨255, [], [], List.replicate 10 0, [], []⟩ 255 16 1 3 4
      [0, 3, 0, 4] (by decide) (by decide)).2 (by decide)⟩

/-- C7: read-after-write for registers. For `count = len(values)` 16-bit values
with `2*(start+count) ≤ len(holding registers)`, `WriteHoldingRegisters` with
the values big-endian as payload returns `Success`, and a following
`ReadHoldingRegisters(start, count)` returns `Success` with a response whose
bytes after the byte-count header are exactly the payload bytes written. -/
theorem read_after_write_registers (spare spare1 : List Nat) (s : Server)
    (dev fc dev1 fc1 start bc : Nat)
    (values rest : List Nat)
    (hs : start < 65536) (hc : values.length < 65536)
    (hr : 2 * (start + values.length) ≤ s.HoldingRegisters.length) :
    ∃ echo s1,
      WriteHoldingRegisters s
          { Device := dev, Function := fc,
            Data := Uint16ToBytes [start, values.length] ++ bc :: Uint16ToBytes values, Spare :=
              spare }
        = some (echo, .Success, s1) ∧
      ReadHoldingRegisters s1
          { Device := dev1, Function := fc1,
            Data := Uint16ToBytes [start, values.length] ++ rest, Spare := spare1 }
        = some ((2 * values.length) % 256 :: Uint16ToBytes values, .Success, s1) := by
  have hp := uint16ToBytes_length values
  refine
    ⟨_, _, writeHoldingRegisters_ok spare s dev fc start values.length bc (Uint16ToBytes values)
    hs hc hp hr, ?_⟩
  have hn := registerAddressAndNumber_request spare1 dev1 fc1 start values.length rest hs hc
  have hlen := splice_length s.HoldingRegisters (Uint16ToBytes values) (2 * start)
    (2 * values.length) hp (by omega)
  have hback := splice_read_back s.HoldingRegisters (Uint16ToBytes values) (2 * start)
    (2 * values.length) hp (by omega)
  unfold ReadHoldingRegisters
  rw [hn]
  simp only
  rw [if_neg (by rw [hlen]; omega), sliceRange_eq _ _ _ (by omega) (by rw [hlen]; omega)]
  have e1 : start * 2 = 2 * start := by omega
  have e2 : (start + values.length) * 2 - 2 * start = 2 * values.length := by omega
  rw [e1, e2, hback, Nat.mul_comm values.length 2]

/-- Witness for C7: the values 3 and 4 written at register 1 of a ten-byte
table and read back. -/
theorem read_after_write_registers_witness :
    (1 < 65536 ∧ ([3, 4] : List Nat).length < 65536 ∧
      2 * (1 + ([3, 4] : List Nat).length) ≤ (List.replicate 10 0).length) ∧
    ∃ echo s1,
      WriteHoldingRegisters ⟨255, [], [], List.replicate 10 0, [], []⟩
          ⟨255, 16, Uint16ToBytes [1, ([3, 4] : List Nat).length] ++ 4 :: Uint16ToBytes [3, 4], []⟩
        = some (echo, .Success, s1) ∧
      ReadHoldingRegisters s1
          ⟨255, 3, Uint16ToBytes [1, ([3, 4] : List Nat).length] ++ [], []⟩
        = some ((2 * ([3, 4] : List Nat).length) % 256 :: Uint16ToBytes [3, 4], .Success, s1) :=
  ⟨by decide,
    read_after_write_registers [] [] ⟨255, [], [], List.replicate 10 0, [], []⟩ 255 16 255 3 1 4
      [3, 4] [] (by decide) (by decide) (by decide)⟩

/-- Effect of the inner loop of `WriteMultipleCoils` entered with
`bitCount = 8*i + bitPos < numRegs`: no panic, `bitCount` leaves as
`min (8*i+8) numRegs`, and exactly the coils `register + 8*i + bitPos ..
register + bitCount - 1` are overwritten with the bits of `value`. -/
theorem writeBits_spec (register numRegs i value : Nat) :
    ∀ (remaining bitPos : Nat) (coils : List Nat) (bitCount : Nat),
      bitPos + remaining = 8 → bitCount = 8 * i + bitPos →
      (remaining ≠ 0 → bitCount < numRegs) → register + numRegs ≤ coils.length →
      ∃ r bc, writeBits register numRegs i value remaining bitPos coils bitCount = some (r, bc) ∧
        bc = (if remaining = 0 then bitCount else min (8 * i + 8) numRegs) ∧
        r.length = coils.length ∧
        ∀ p, r.getD p 0 =
          if register + 8 * i + bitPos ≤ p ∧ p < register + bc then
            bitAtPosition value (p - register - 8 * i)
          else coils.getD p 0 := by
  intro remaining
  induction remaining with
  | zero =>
    intro bitPos coils bitCount hb hbc _ _
    refine ⟨coils, bitCount, rfl, by simp, rfl, ?_⟩
    intro p
    rw [if_neg (by omega)]
  | succ n ih =>
    intro bitPos coils bitCount hb hbc hlt hlen
    have hlt1 := hlt (Nat.succ_ne_zero n)
    have hidx : register + i * 8 + bitPos < coils.length := by omega
    unfold writeBits
    simp only [setIndex, hidx, if_true]
    by_cases hdone : bitCount + 1 ≥ numRegs
    · rw [if_pos hdone]
      refine ⟨_, _, rfl, ?_, by simp, ?_⟩
      · rw [if_neg (Nat.succ_ne_zero n)]; omega
      · intro p
        rw [getD_set_eq]
        by_cases hp : register + i * 8 + bitPos = p
        · rw [if_pos ⟨hp, hidx⟩, if_pos ⟨by omega, by omega⟩]
          congr 1; omega
        · rw [if_neg (fun h => hp h.1), if_neg (by omega)]
    · rw [if_neg hdone]
      obtain ⟨r, bc, hr, hbc1, hrl, hget⟩ := ih (bitPos + 1)
        (coils.set (register + i * 8 + bitPos) (bitAtPosition value bitPos)) (bitCount + 1)
        (by omega) (by omega) (fun _ => by omega) (by simpa using hlen)
      have hbc2 : bc = min (8 * i + 8) numRegs := by
        rw [hbc1]
        split
        · omega
        · rfl
      refine ⟨r, bc, hr, ?_, by simpa using hrl, ?_⟩
      · rw [if_neg (Nat.succ_ne_zero n)]; exact hbc2
      · intro p
        rw [hget p, getD_set_eq]
        by_cases hp : register + i * 8 + bitPos = p
        · rw [if_neg (by omega), if_pos ⟨hp, hidx⟩, if_pos ⟨by omega, by omega⟩]
          congr 1; omega
        · by_cases hq : register + 8 * i + (bitPos + 1) ≤ p ∧ p < register + bc
          · rw [if_pos hq, if_pos ⟨by omega, hq.2⟩]
          · rw [if_neg hq, if_neg (fun h => hp h.1), if_neg (by omega)]

/-- Effect of the outer loop of `WriteMultipleCoils` entered at payload index
`i` with `bitCount = 8*i < numRegs` and enough payload bits left: no panic, and
exactly the coils `register + 8*i .. register + numRegs - 1` are overwritten
with the payload bits, LSB-first. -/
theorem writeCoils_spec (register numRegs : Nat) (vals : List Nat) :
    ∀ (i : Nat) (coils : List Nat),
      8 * i < numRegs → numRegs ≤ 8 * (i + vals.length) → register + numRegs ≤ coils.length →
      ∃ r, writeCoils register numRegs vals i coils (8 * i) = some r ∧
        r.length = coils.length ∧
        ∀ p, r.getD p 0 =
          if register + 8 * i ≤ p ∧ p < register + numRegs then
            bitAtPosition (vals.getD ((p - register) / 8 - i) 0) ((p - register) % 8)
          else coils.getD p 0 := by
  induction vals with
  | nil => intro i coils h1 h2 _; simp at h2; omega
  | cons value rest ih =>
    intro i coils h1 h2 hlen
    obtain ⟨c1, bc, hw, hbc, hc1l, hget1⟩ := writeBits_spec register numRegs i value 8 0 coils
      (8 * i) (by omega) (by omega) (fun _ => h1) hlen
    rw [if_neg (by decide)] at hbc
    unfold writeCoils
    rw [hw]
    simp only
    by_cases hdone : bc ≥ numRegs
    · rw [if_pos hdone]
      refine ⟨c1, rfl, hc1l, ?_⟩
      intro p
      rw [hget1 p]
      by_cases hp : register + 8 * i ≤ p ∧ p < register + numRegs
      · rw [if_pos ⟨by omega, by omega⟩, if_pos hp]
        have e1 : (p - register) / 8 - i = 0 := by omega
        have e2 : p - register - 8 * i = (p - register) % 8 := by omega
        rw [e1, e2, List.getD_cons_zero]
      · rw [if_neg (by omega), if_neg hp]
    · rw [if_neg hdone]
      have hbc8 : bc = 8 * (i + 1) := by omega
      simp only [List.length_cons] at h2
      obtain ⟨r, hr, hrl, hget⟩ := ih (i + 1) c1 (by omega) (by omega) (by omega)
      rw [hbc8]
      refine ⟨r, hr, by omega, ?_⟩
      intro p
      rw [hget p, hget1 p]
      by_cases hp : register + 8 * (i + 1) ≤ p ∧ p < register + numRegs
      · rw [if_pos hp, if_pos ⟨by omega, hp.2⟩]
        have e1 : (p - register) / 8 - i = ((p - register) / 8 - (i + 1)) + 1 := by omega
        rw [e1, List.getD_cons_succ]
      · rw [if_neg hp]
        by_cases hq : register + 8 * i ≤ p ∧ p < register + numRegs
        · rw [if_pos ⟨by omega, by omega⟩, if_pos hq]
          have e1 : (p - register) / 8 - i = 0 := by omega
          have e2 : p - register - 8 * i = (p - register) % 8 := by omega
          rw [e1, e2, List.getD_cons_zero]
        · rw [if_neg (by omega), if_neg hq]

theorem bitAtPosition_ne_zero (value pos : Nat) :
    bitAtPosition value pos ≠ 0 ↔ value.testBit pos = true := by
  unfold bitAtPosition
  rw [Nat.and_one_is_mod, Nat.testBit_to_div_mod, Nat.shiftRight_eq_div_pow, decide_eq_true_iff]
  omega

/-- Function `WriteMultipleCoils` on an in-range request whose payload has a bit for
every coil (and is empty when the quantity is 0): success, echo of the header,
and exactly the coils `start .. start+count-1` overwritten with the payload
bits, LSB-first. -/
theorem writeMultipleCoils_ok (spare : List Nat) (s : Server)
    (dev fc start count bc : Nat) (payload : List Nat)
    (hs : start < 65536) (hc : count < 65536) (hr : start + count ≤ s.Coils.length)
    (hp : count ≤ 8 * payload.length) (h0 : count = 0 → payload = []) :
    ∃ coils, WriteMultipleCoils s
          { Device := dev, Function := fc, Data := Uint16ToBytes [start, count] ++ bc :: payload,
            Spare := spare }
        = some (Uint16ToBytes [start, count], .Success, { s with Coils := coils }) ∧
      coils.length = s.Coils.length ∧
      ∀ p, coils.getD p 0 =
        if start ≤ p ∧ p < start + count then
          bitAtPosition (payload.getD ((p - start) / 8) 0) ((p - start) % 8)
        else s.Coils.getD p 0 := by
  have hn := registerAddressAndNumber_request spare dev fc start count (bc :: payload) hs hc
  have hpl := request_payload spare dev fc start count bc payload
  have hecho := request_echo spare dev fc start count (bc :: payload)
  have hrun : ∃ r, writeCoils start count payload 0 s.Coils 0 = some r ∧
      r.length = s.Coils.length ∧
      ∀ p, r.getD p 0 =
        if start ≤ p ∧ p < start + count then
          bitAtPosition (payload.getD ((p - start) / 8) 0) ((p - start) % 8)
        else s.Coils.getD p 0 := by
    by_cases hz : count = 0
    · rw [h0 hz]
      refine ⟨s.Coils, rfl, rfl, ?_⟩
      intro p
      rw [if_neg (by omega)]
    · obtain ⟨r, hr1, hrl, hget⟩ := writeCoils_spec start count payload 0 s.Coils
        (by omega) (by omega) hr
      refine ⟨r, hr1, hrl, ?_⟩
      intro p
      rw [hget p]
      simp only [Nat.mul_zero, Nat.add_zero, Nat.sub_zero]
  obtain ⟨r, hr1, hrl, hget⟩ := hrun
  refine ⟨r, ?_, hrl, hget⟩
  unfold WriteMultipleCoils
  rw [hn]
  simp only [hpl, if_neg (Nat.not_lt.mpr hr), hr1, hecho]

/-- C8: read-after-write for coils. For `start+count ≤ len(coils)` and a
payload of `ceil(count/8)` bytes, `WriteMultipleCoils(start, count, payload)`
returns `Success` and a following `ReadCoils(start, count)` returns `Success`
with a body of as many bytes as the payload, whose bit `j` of byte `k` is the
payload's bit when `8k+j < count` and zero at the positions `≥ count`. -/
theorem read_after_write_coils (spare spare1 : List Nat) (s : Server)
    (dev fc dev1 fc1 start count bc : Nat)
    (payload rest : List Nat)
    (hs : start < 65536) (hc : count < 65536) (hr : start + count ≤ s.Coils.length)
    (hp : payload.length = (count + 7) / 8) :
    ∃ echo s1 body,
      WriteMultipleCoils s
          { Device := dev, Function := fc, Data := Uint16ToBytes [start, count] ++ bc :: payload,
            Spare := spare }
        = some (echo, .Success, s1) ∧
      ReadCoils s1
          { Device := dev1, Function := fc1, Data := Uint16ToBytes [start, count] ++ rest,
            Spare := spare1 }
        = some (((count + 7) / 8) % 256 :: body, .Success, s1) ∧
      body.length = payload.length ∧
      (∀ k j, j < 8 → (body.getD k 0).testBit j =
        (decide (8 * k + j < count) && (payload.getD k 0).testBit j)) ∧
      ∀ b ∈ body, b < 256 := by
  obtain ⟨coils, hw, hcl, hget⟩ := writeMultipleCoils_ok spare s dev fc start count bc payload hs
    hc hr
    (by omega) (fun hz => List.eq_nil_of_length_eq_zero (by omega))
  obtain ⟨body, hb, hbl, hbits, hlt⟩ := readBits_spec coils start count (by omega)
  have hn := registerAddressAndNumber_request spare1 dev1 fc1 start count rest hs hc
  refine ⟨_, _, body, hw, ?_, by omega, ?_, hlt⟩
  · unfold ReadCoils
    rw [hn]
    simp only
    rw [if_neg (by omega), hb]
  · intro k j hj
    rw [hbits k j hj]
    by_cases hq : 8 * k + j < count
    · have e1 : (start + (8 * k + j) - start) / 8 = k := by omega
      have e2 : (start + (8 * k + j) - start) % 8 = j := by omega
      have hcoil := hget (start + (8 * k + j))
      rw [if_pos ⟨by omega, by omega⟩, e1, e2] at hcoil
      rw [hcoil]
      have hiff := bitAtPosition_ne_zero (payload.getD k 0) j
      rw [Bool.eq_iff_iff]
      simp only [decide_eq_true_iff, Bool.and_eq_true, hiff]
    · simp [hq]

/-- Witness for C8: nine coils written at address 1 of a twelve-coil table
with payload `FF 01` and read back. -/
theorem read_after_write_coils_witness :
    (1 < 65536 ∧ 9 < 65536 ∧ 1 + 9 ≤ (List.replicate 12 0).length ∧
      ([255, 1] : List Nat).length = (9 + 7) / 8) ∧
    ∃ echo s1 body,
      WriteMultipleCoils ⟨255, [], List.replicate 12 0, [], [], []⟩
          ⟨255, 15, Uint16ToBytes [1, 9] ++ 2 :: [255, 1], []⟩
        = some (echo, .Success, s1) ∧
      ReadCoils s1 ⟨255, 1, Uint16ToBytes [1, 9] ++ [], []⟩
        = some (((9 + 7) / 8) % 256 :: body, .Success, s1) ∧
      body.length = ([255, 1] : List Nat).length ∧
      (∀ k j, j < 8 → (body.getD k 0).testBit j =
        (decide (8 * k + j < 9) && (([255, 1] : List Nat).getD k 0).testBit j)) ∧
      ∀ b ∈ body, b < 256 :=
  ⟨by decide,
    read_after_write_coils [] [] ⟨255, [], List.replicate 12 0, [], [], []⟩ 255 15 255 1 1 9 2
      [255, 1] [] (by decide) (by decide) (by decide) (by decide)⟩

/-- C9, evaluated on the code: a `WriteMultipleCoils` request with quantity 0
and one payload byte overwrites the coil at the start address (here
`Coils[0]` changes from 0 to 1) although the addressed range is empty, and
panics when the start address is `len(Coils)`, whatever bytes lie within the
capacity of the data after its length. -/
theorem writeMultipleCoils_quantity_zero_writes_coil (spare : List Nat) :
    WriteMultipleCoils ⟨255, [], [0, 0], [], [], []⟩ ⟨255, 15, [0, 0, 0, 0, 1, 1], spare⟩
      = some ([0, 0, 0, 0], .Success, ⟨255, [], [1, 0], [], [], []⟩) ∧
    WriteMultipleCoils ⟨255, [], [0, 0], [], [], []⟩ ⟨255, 15, [0, 2, 0, 0, 1, 1], spare⟩
      = none := by
  have hcap : 4 ≤ 6 + spare.length := by omega
  constructor <;>
    simp [WriteMultipleCoils, RegisterAddressAndNumber, Framer.GetData, bigEndianUint16,
      sliceFrom, sliceCap, writeCoils, writeBits, setIndex, bitAtPosition, hcap]

/-- C11: for `addr < len(coils)`, `WriteSingleCoil` with value `0x0000` sets
`coils[addr]` to 0 and with value `0xFFFF` sets it to 1, in both cases
returning `Success` with the first four request data bytes and changing no
other coil and no other table; any other 16-bit value returns
`IllegalDataValue` and leaves the server unchanged. -/
theorem write_single_coil_effect (spare : List Nat) (s : Server)
    (dev fc addr value : Nat) (rest : List Nat)
    (ha : addr < 65536) (hv : value < 65536) (hr : addr < s.Coils.length) :
    (value = 0 ∨ value = 65535 →
      ∃ coils, WriteSingleCoil s
            { Device := dev, Function := fc, Data := Uint16ToBytes [addr, value] ++ rest,
              Spare := spare }
          = some ((Uint16ToBytes [addr, value] ++ rest).take 4, .Success,
              { s with Coils := coils }) ∧
        coils.length = s.Coils.length ∧
        coils[addr]? = some (if value = 0 then 0 else 1) ∧
        ∀ j, j ≠ addr → coils[j]? = s.Coils[j]?) ∧
    (value ≠ 0 → value ≠ 65535 →
      WriteSingleCoil s
          { Device := dev, Function := fc, Data := Uint16ToBytes [addr, value] ++ rest,
            Spare := spare }
        = some ([], .IllegalDataValue, s)) := by
  have hreq := registerAddressAndValue_request spare dev fc addr value rest ha hv
  have hecho := request_echo spare dev fc addr value rest
  have hnot : ¬ ¬ (s.Coils.length > addr) := fun h => h hr
  constructor
  · intro hval
    refine ⟨s.Coils.set addr (if value = 0 then 0 else 1), ?_, by simp, ?_, ?_⟩
    · unfold WriteSingleCoil
      rw [hreq]
      simp only [if_neg hnot, if_pos hval, setIndex, if_pos hr, hecho]
      simp [Uint16ToBytes]
    · rw [List.getElem?_set_self hr]
    · intro j hj
      rw [List.getElem?_set_ne (Ne.symm hj)]
  · intro h0 h1
    unfold WriteSingleCoil
    rw [hreq]
    simp only [if_neg hnot]
    rw [if_neg (by omega)]

/-- Witness for C11: value `0xFFFF` and value 7 at address 1 of a three-coil
table. -/
theorem write_single_coil_effect_witness :
    (1 < 65536 ∧ 65535 < 65536 ∧ 7 < 65536 ∧ 1 < ([0, 0, 0] : List Nat).length ∧
      (65535 = 0 ∨ 65535 = 65535) ∧ 7 ≠ 0 ∧ 7 ≠ 65535) ∧
    (∃ coils, WriteSingleCoil ⟨255, [], [0, 0, 0], [], [], []⟩
          ⟨255, 5, Uint16ToBytes [1, 65535] ++ [], []⟩
        = some ((Uint16ToBytes [1, 65535] ++ []).take 4, .Success,
            { (⟨255, [], [0, 0, 0], [], [], []⟩ : Server) with Coils := coils }) ∧
      coils.length = ([0, 0, 0] : List Nat).length ∧
      coils[1]? = some (if 65535 = 0 then 0 else 1) ∧
      ∀ j, j ≠ 1 → coils[j]? = ([0, 0, 0] : List Nat)[j]?) ∧
    WriteSingleCoil ⟨255, [], [0, 0, 0], [], [], []⟩ ⟨255, 5, Uint16ToBytes [1, 7] ++ [], []⟩
      = some ([], .IllegalDataValue, ⟨255, [], [0, 0, 0], [], [], []⟩) :=
  ⟨by decide,
    (write_single_coil_effect [] ⟨255, [], [0, 0, 0], [], [], []⟩ 255 5 1 65535 []
      (by decide) (by decide) (by decide)).1 (by decide),
    (write_single_coil_effect [] ⟨255, [], [0, 0, 0], [], [], []⟩ 255 5 1 7 []
      (by decide) (by decide) (by decide)).2 (by decide) (by decide)⟩

/-- C12 fails as stated: a `WriteSingleCoil` request with the value field
`0xFF00` at an address inside the coil table returns `IllegalDataValue` and
leaves the coil at 0. -/
theorem write_single_coil_rejects_ff00 :
    WriteSingleCoil ⟨255, [], [0, 0, 0], [], [], []⟩ ⟨255, 5, [0, 1, 255, 0], []⟩
      = some ([], .IllegalDataValue, ⟨255, [], [0, 0, 0], [], [], []⟩) ∧
    bigEndianUint16 255 0 = 0xFF00 ∧ 1 < ([0, 0, 0] : List Nat).length := by
  decide

/-- C12 as amended: the value that `WriteSingleCoil` accepts as on is `0xFFFF`.
For every `addr < len(coils)`, a request with value field `0xFFFF` returns
`Success` and sets `coils[addr]` to 1, and a request with value field `0xFF00`
returns `IllegalDataValue` and leaves the server unchanged. -/
theorem write_single_coil_on_value (spare : List Nat) (s : Server)
    (dev fc addr : Nat) (rest : List Nat)
    (ha : addr < 65536) (hr : addr < s.Coils.length) :
    (∃ echo coils, WriteSingleCoil s
          { Device := dev, Function := fc, Data := Uint16ToBytes [addr, 0xFFFF] ++ rest,
            Spare := spare }
        = some (echo, .Success, { s with Coils := coils }) ∧ coils[addr]? = some 1) ∧
    WriteSingleCoil s
        { Device := dev, Function := fc, Data := Uint16ToBytes [addr, 0xFF00] ++ rest,
          Spare := spare }
      = some ([], .IllegalDataValue, s) := by
  have hnot : ¬ ¬ (s.Coils.length > addr) := fun h => h hr
  constructor
  · have hreq := registerAddressAndValue_request spare dev fc addr 0xFFFF rest ha (by decide)
    have hecho := request_echo spare dev fc addr 0xFFFF rest
    refine ⟨Uint16ToBytes [addr, 0xFFFF], s.Coils.set addr 1, ?_, List.getElem?_set_self hr⟩
    unfold WriteSingleCoil
    rw [hreq]
    simp only [if_neg hnot, setIndex, if_pos hr, hecho]
    simp
  · have hreq := registerAddressAndValue_request spare dev fc addr 0xFF00 rest ha (by decide)
    unfold WriteSingleCoil
    rw [hreq]
    simp only [if_neg hnot]
    rw [if_neg (by decide)]

/-- Witness for C12 as amended: address 1 of a three-coil table. -/
theorem write_single_coil_on_value_witness :
    (1 < 65536 ∧ 1 < ([0, 0, 0] : List Nat).length) ∧
    (∃ echo coils, WriteSingleCoil ⟨255, [], [0, 0, 0], [], [], []⟩
          ⟨255, 5, Uint16ToBytes [1, 0xFFFF] ++ [], []⟩
        = some (echo, .Success, { (⟨255, [], [0, 0, 0], [], [], []⟩ : Server) with
            Coils := coils }) ∧ coils[1]? = some 1) ∧
    WriteSingleCoil ⟨255, [], [0, 0, 0], [], [], []⟩ ⟨255, 5, Uint16ToBytes [1, 0xFF00] ++ [], []⟩
      = some ([], .IllegalDataValue, ⟨255, [], [0, 0, 0], [], [], []⟩) :=
  ⟨by decide,
    write_single_coil_on_value [] ⟨255, [], [0, 0, 0], [], [], []⟩ 255 5 1 [] (by decide)
      (by decide)⟩

/-- C13: for `2*(addr+1) ≤ len(holding registers)` and a 16-bit value `v`,
`WriteHoldingRegister` returns `Success` and the first four request data
bytes, stores `v` big-endian (high byte at `table[2*addr]`, low byte at
`table[2*addr+1]`) and leaves every other byte of every table unchanged. -/
theorem write_holding_register_effect (spare : List Nat) (s : Server)
    (dev fc addr v : Nat) (rest : List Nat)
    (ha : addr < 65536) (hv : v < 65536) (hr : 2 * (addr + 1) ≤ s.HoldingRegisters.length) :
    ∃ regs, WriteHoldingRegister s
          { Device := dev, Function := fc, Data := Uint16ToBytes [addr, v] ++ rest, Spare := spare }
        = some ((Uint16ToBytes [addr, v] ++ rest).take 4, .Success,
            { s with HoldingRegisters := regs }) ∧
      regs.length = s.HoldingRegisters.length ∧
      regs[2 * addr]? = some (v / 256) ∧
      regs[2 * addr + 1]? = some (v % 256) ∧
      ∀ j, j ≠ 2 * addr → j ≠ 2 * addr + 1 → regs[j]? = s.HoldingRegisters[j]? := by
  have hreq := registerAddressAndValue_request spare dev fc addr v rest ha hv
  have hecho := request_echo spare dev fc addr v rest
  have hhi : (v >>> 8) % 256 = v / 256 := by
    rw [Nat.shiftRight_eq_div_pow]
    exact Nat.mod_eq_of_lt (by omega)
  have hbytes : Uint16ToBytes [v] = [v / 256, v % 256] := by
    simp [Uint16ToBytes, hhi]
  have e0 : addr * 2 = 2 * addr := by omega
  have hcopy : copyInto s.HoldingRegisters (addr * 2) ((addr + 1) * 2) (Uint16ToBytes [v])
      = some (2, s.HoldingRegisters.take (2 * addr) ++ [v / 256, v % 256] ++
          s.HoldingRegisters.drop (2 * addr + 2)) := by
    unfold copyInto
    rw [if_pos ⟨by omega, by omega⟩, hbytes, e0]
    have e1 : min ((addr + 1) * 2 - 2 * addr) ([v / 256, v % 256] : List Nat).length = 2 := by
      simp only [List.length_cons, List.length_nil]; omega
    simp only [e1]
    rfl
  have hlen2 : ([v / 256, v % 256] : List Nat).length = 2 := rfl
  refine ⟨s.HoldingRegisters.take (2 * addr) ++ [v / 256, v % 256] ++
      s.HoldingRegisters.drop (2 * addr + 2), ?_,
    splice_length _ _ _ _ hlen2 (by omega), ?_, ?_, ?_⟩
  · unfold WriteHoldingRegister
    rw [hreq]
    simp only [if_neg (show ¬ (addr + 1) * 2 > s.HoldingRegisters.length by omega), hcopy, hecho]
    simp [Uint16ToBytes]
  · have h := splice_inside s.HoldingRegisters [v / 256, v % 256] (2 * addr) 2 0 hlen2
      (by omega) (by decide)
    simpa using h
  · have h := splice_inside s.HoldingRegisters [v / 256, v % 256] (2 * addr) 2 1 hlen2
      (by omega) (by decide)
    simpa using h
  · intro j h0 h1
    exact splice_outside s.HoldingRegisters [v / 256, v % 256] (2 * addr) 2 j hlen2
      (by omega) (by omega)

/-- Witness for C13: the value 6 written to register 5 of a fourteen-byte
table. -/
theorem write_holding_register_effect_witness :
    (5 < 65536 ∧ 6 < 65536 ∧ 2 * (5 + 1) ≤ (List.replicate 14 0).length) ∧
    ∃ regs, WriteHoldingRegister ⟨255, [], [], List.replicate 14 0, [], []⟩
          ⟨255, 6, Uint16ToBytes [5, 6] ++ [], []⟩
        = some ((Uint16ToBytes [5, 6] ++ []).take 4, .Success,
            { (⟨255, [], [], List.replicate 14 0, [], []⟩ : Server) with
              HoldingRegisters := regs }) ∧
      regs.length = (List.replicate 14 0).length ∧
      regs[2 * 5]? = some (6 / 256) ∧
      regs[2 * 5 + 1]? = some (6 % 256) ∧
      ∀ j, j ≠ 2 * 5 → j ≠ 2 * 5 + 1 → regs[j]? = (List.replicate 14 0)[j]? :=
  ⟨by decide,
    write_holding_register_effect [] ⟨255, [], [], List.replicate 14 0, [], []⟩ 255 6 5 6 []
      (by decide) (by decide) (by decide)⟩

/-- C14: exception framing in `Server.handle`. When the function code of the
request is not in the registry the response is the exception `IllegalFunction`
(code 1) with the server unchanged, and when the handler returns a non-Success
exception `e` the response carries `e`; in both cases the function byte of the
response is `request.function | 0x80` and its data is the single byte
`code(e)`. The codes 7, 11, 12, 17, 20, 21, 22, 23, 24, 43 and 255 are not in
the default registry. -/
theorem handle_exception_framing (function : Registry) (s : Server) (request : Framer) :
    (function request.Function = none →
      handle function s request
        = some ({ Device := request.Device, Function := request.Function ||| 0x80,
                  Data := [Exception.IllegalFunction.code], Spare := [] }, s)) ∧
    (∀ h data e s1, function request.Function = some h → h s request = some (data, e, s1) →
      e ≠ .Success →
      handle function s request
        = some ({ Device := request.Device, Function := request.Function ||| 0x80,
                  Data := [e.code], Spare := [] }, s1)) ∧
    (∀ fc ∈ [7, 11, 12, 17, 20, 21, 22, 23, 24, 43, 255], defaultFunction fc = none) ∧
    Exception.IllegalFunction.code = 1 ∧ Exception.IllegalDataAddress.code = 2 ∧
    Exception.IllegalDataValue.code = 3 := by
  refine ⟨?_, ?_, ?_, rfl, rfl, rfl⟩
  · intro hnone
    simp [handle, Framer.GetFunction, hnone, Framer.SetException, Framer.Copy]
  · intro h data e s1 hsome hrun hne
    simp [handle, Framer.GetFunction, hsome, hrun, hne, Framer.SetException, Framer.Copy,
      Framer.SetData]
  · intro fc hfc
    simp only [List.mem_cons, List.mem_singleton, List.not_mem_nil, or_false] at hfc
    rcases hfc with rfl | rfl | rfl | rfl | rfl | rfl | rfl | rfl | rfl | rfl | rfl <;> rfl

/-- Witness for C14: function code 255 on a new server, and a `ReadCoils`
request beyond the empty coil table. -/
theorem handle_exception_framing_witness :
    (defaultFunction 255 = none ∧ defaultFunction 1 = some ReadCoils ∧
      ReadCoils ⟨255, [], [], [], [], []⟩ ⟨255, 1, [255, 255, 0, 2], []⟩
        = some ([], .IllegalDataAddress, ⟨255, [], [], [], [], []⟩) ∧
      Exception.IllegalDataAddress ≠ Exception.Success) ∧
    handle defaultFunction ⟨255, [], [], [], [], []⟩ ⟨255, 255, [], []⟩
      = some (⟨255, 255 ||| 0x80, [Exception.IllegalFunction.code], []⟩,
          ⟨255, [], [], [], [], []⟩) ∧
    handle defaultFunction ⟨255, [], [], [], [], []⟩ ⟨255, 1, [255, 255, 0, 2], []⟩
      = some (⟨255, 1 ||| 0x80, [Exception.IllegalDataAddress.code], []⟩,
          ⟨255, [], [], [], [], []⟩) :=
  ⟨⟨rfl, rfl, by decide, by decide⟩,
    (handle_exception_framing defaultFunction ⟨255, [], [], [], [], []⟩ ⟨255, 255, [], []⟩).1 rfl,
    (handle_exception_framing defaultFunction ⟨255, [], [], [], [], []⟩
      ⟨255, 1, [255, 255, 0, 2], []⟩).2.1 ReadCoils [] .IllegalDataAddress
      ⟨255, [], [], [], [], []⟩ rfl (by decide) (by decide)⟩

/-- C19: `NewServer id` returns an error, and no server, if and only if
`id = 0`; for every other id it returns a server whose slave id is `id`, whose
four tables are empty, and whose registry holds exactly the function codes
1, 2, 3, 4, 5, 6, 15 and 16, bound to their default handlers. -/
theorem newServer_result (id : Nat) :
    ((∃ msg, NewServer id = .error msg) ↔ id = 0) ∧
    (id ≠ 0 →
      ∃ s function, NewServer id = .ok (s, function) ∧
        s.slaveId = id ∧ s.Coils = [] ∧ s.DiscreteInputs = [] ∧
        s.HoldingRegisters = [] ∧ s.InputRegisters = [] ∧
        (∀ fc, (function fc).isSome = true ↔ fc ∈ [1, 2, 3, 4, 5, 6, 15, 16]) ∧
        function 1 = some ReadCoils ∧ function 2 = some ReadDiscreteInputs ∧
        function 3 = some ReadHoldingRegisters ∧ function 4 = some ReadInputRegisters ∧
        function 5 = some WriteSingleCoil ∧ function 6 = some WriteHoldingRegister ∧
        function 15 = some WriteMultipleCoils ∧ function 16 = some WriteHoldingRegisters) := by
  constructor
  · constructor
    · rintro ⟨msg, h⟩
      by_contra hne
      simp [NewServer, hne] at h
    · intro h
      subst h
      exact ⟨_, rfl⟩
  · intro hne
    refine ⟨⟨id, [], [], [], [], []⟩, defaultFunction, by simp [NewServer, hne],
      rfl, rfl, rfl, rfl, rfl, ?_,
      rfl, rfl, rfl, rfl, rfl, rfl, rfl, rfl⟩
    intro fc
    simp only [defaultFunction, ReadCoils_fc, ReadDiscreteInput_fc, ReadHoldingRegisters_fc,
      ReadInputRegisters_fc, WriteSingleCoil_fc, WriteHoldingRegister_fc,
      WriteMultipleCoils_fc, WriteHoldingRegisters_fc, List.mem_cons, List.mem_singleton,
      List.not_mem_nil, or_false]
    constructor
    · intro h
      by_contra hnot
      simp only [not_or] at hnot
      obtain ⟨h1, h2, h3, h4, h5, h6, h7, h8⟩ := hnot
      simp [h1, h2, h3, h4, h5, h6, h7, h8] at h
    · rintro (rfl | rfl | rfl | rfl | rfl | rfl | rfl | rfl) <;> rfl

/-- Witness for C19: slave id 255. -/
theorem newServer_result_witness :
    255 ≠ 0 ∧
    ∃ s function, NewServer 255 = .ok (s, function) ∧
      s.slaveId = 255 ∧ s.Coils = [] ∧ s.DiscreteInputs = [] ∧
      s.HoldingRegisters = [] ∧ s.InputRegisters = [] ∧
      (∀ fc, (function fc).isSome = true ↔ fc ∈ [1, 2, 3, 4, 5, 6, 15, 16]) ∧
      function 1 = some ReadCoils ∧ function 2 = some ReadDiscreteInputs ∧
      function 3 = some ReadHoldingRegisters ∧ function 4 = some ReadInputRegisters ∧
      function 5 = some WriteSingleCoil ∧ function 6 = some WriteHoldingRegister ∧
      function 15 = some WriteMultipleCoils ∧ function 16 = some WriteHoldingRegisters :=
  ⟨by decide, (newServer_result 255).2 (by decide)⟩

/-- C17, evaluated on the code: the sizer has no case for function code 20
(`ReadFileRecord_fc`); for every header carrying it `getPDUSizeFromHeader`
returns size 0 with the unsupported-function error and `getRTUSizeFromHeader`
returns 3 with that error, while the other nine codes of the set are sized
with a nil error. -/
theorem sizer_rejects_read_file_record (dev : Nat) (rest : List Nat) :
    getPDUSizeFromHeader (ReadFileRecord_fc :: rest) = some (0, some .unsupportedFunction) ∧
    getRTUSizeFromHeader (dev :: ReadFileRecord_fc :: rest)
      = some (3, some .unsupportedFunction) ∧
    ReadFileRecord_fc = 20 ∧
    ∀ fc ∈ [7, 11, 12, 17, 21, 22, 23, 24, 43],
      ∃ x, getPDUSizeFromHeader (fc :: rest) = some (x, none) := by
  have h20 : getPDUSizeFromHeader (ReadFileRecord_fc :: rest)
      = some (0, some .unsupportedFunction) := by
    simp [getPDUSizeFromHeader, getIndex, ReadFileRecord_fc, ReadCoils_fc, ReadDiscreteInput_fc,
      ReadHoldingRegisters_fc, ReadInputRegisters_fc, WriteSingleCoil_fc,
      WriteHoldingRegister_fc, WriteMultipleCoils_fc, WriteHoldingRegisters_fc,
      ReadExceptionStatus_fc, GetCommEventCounter_fc, GetCommEventLog_fc, ReportSlaveId_fc,
      ReadFifoQueue_fc, ReadDeviceIdentification_fc, MaskWriteRegister_fc, WriteFileRecord_fc,
      ReadWriteMultipleRegisters_fc]
  refine ⟨h20, ?_, rfl, ?_⟩
  · simp [getRTUSizeFromHeader, sliceFrom, h20]
  · intro fc hfc
    simp only [List.mem_cons, List.mem_singleton, List.not_mem_nil, or_false] at hfc
    rcases hfc with rfl | rfl | rfl | rfl | rfl | rfl | rfl | rfl | rfl
    · exact ⟨1, rfl⟩
    · exact ⟨1, rfl⟩
    · exact ⟨1, rfl⟩
    · exact ⟨1, rfl⟩
    · cases rest with
      | nil => exact ⟨max_PDU, rfl⟩
      | cons b t => exact ⟨b + 2, rfl⟩
    · exact ⟨7, rfl⟩
    · by_cases hl : (23 :: rest).length < 10
      · refine ⟨max_PDU, ?_⟩
        have h1 : ¬ 9 ≤ rest.length := by simp only [List.length_cons] at hl; omega
        simp [getPDUSizeFromHeader, getIndex, hl, h1, ReadCoils_fc, ReadDiscreteInput_fc,
          ReadHoldingRegisters_fc, ReadInputRegisters_fc, WriteSingleCoil_fc,
          WriteHoldingRegister_fc, WriteMultipleCoils_fc, WriteHoldingRegisters_fc,
          ReadExceptionStatus_fc, GetCommEventCounter_fc, GetCommEventLog_fc, ReportSlaveId_fc,
          ReadFifoQueue_fc, ReadDeviceIdentification_fc, MaskWriteRegister_fc,
          WriteFileRecord_fc, ReadWriteMultipleRegisters_fc]
      · have h9 : 9 < (23 :: rest).length := by omega
        refine ⟨(23 :: rest)[9] + 10, ?_⟩
        have h2 : ¬ rest.length + 1 < 10 := by simp only [List.length_cons] at hl; omega
        simp [getPDUSizeFromHeader, getIndex, hl, h2, ReadCoils_fc, ReadDiscreteInput_fc,
          ReadHoldingRegisters_fc, ReadInputRegisters_fc, WriteSingleCoil_fc,
          WriteHoldingRegister_fc, WriteMultipleCoils_fc, WriteHoldingRegisters_fc,
          ReadExceptionStatus_fc, GetCommEventCounter_fc, GetCommEventLog_fc, ReportSlaveId_fc,
          ReadFifoQueue_fc, ReadDeviceIdentification_fc, MaskWriteRegister_fc,
          WriteFileRecord_fc, ReadWriteMultipleRegisters_fc, List.getElem?_eq_getElem h9]
    · exact ⟨3, rfl⟩
    · exact ⟨4, rfl⟩

theorem bigEndianUint16_eq (hi lo : Nat) :
    bigEndianUint16 hi lo = 256 * (hi % 256) + lo % 256 := by
  unfold bigEndianUint16
  rw [Nat.shiftLeft_eq, Nat.lor_comm]
  have h3 := Nat.mul_add_lt_is_or (show lo % 256 < 2 ^ 8 from Nat.mod_lt _ (by decide)) (hi % 256)
  rw [Nat.mul_comm (hi % 256) (2 ^ 8), ← h3]

theorem mapM_eq_some_map (f : Nat → Option Nat) (g : Nat → Nat) (l : List Nat)
    (h : ∀ i ∈ l, f i = some (g i)) : l.mapM f = some (l.map g) := by
  induction l with
  | nil => rfl
  | cons a t ih =>
    rw [List.mapM_cons, h a (List.mem_cons_self _ _), ih (fun i hi => h i (List.mem_cons_of_mem _ hi))]
    rfl

theorem slice_pair (b : List Nat) (i : Nat) (h : (i + 1) * 2 ≤ b.length) :
    sliceRange b (i * 2) ((i + 1) * 2) = some [b.getD (2 * i) 0, b.getD (2 * i + 1) 0] := by
  rw [sliceRange_eq b _ _ (by omega) h]
  congr 1
  apply List.ext_getElem?
  intro k
  have e : (i + 1) * 2 - i * 2 = 2 := by omega
  rw [e]
  rcases k with _ | _ | k
  · rw [List.getElem?_take_of_lt (by decide), List.getElem?_drop]
    simp only [List.getD_eq_getElem?_getD, Nat.add_zero, Nat.mul_comm i 2]
    rw [List.getElem?_eq_getElem (show 2 * i < b.length by omega)]
    rfl
  · rw [List.getElem?_take_of_lt (by decide), List.getElem?_drop]
    simp only [List.getD_eq_getElem?_getD, Nat.mul_comm i 2]
    rw [List.getElem?_eq_getElem (show 2 * i + (0 + 1) < b.length by omega)]
    rfl
  · rw [List.getElem?_take_eq_none (by omega)]
    rfl

/-- Function `BytesToUint16` never panics: value `i` is the big-endian decoding
of `bytes[2i]` and `bytes[2i+1]`. -/
theorem bytesToUint16_eq (b : List Nat) :
    BytesToUint16 b = some ((List.range (b.length / 2)).map fun i =>
      bigEndianUint16 (b.getD (2 * i) 0) (b.getD (2 * i + 1) 0)) := by
  unfold BytesToUint16
  apply mapM_eq_some_map
  intro i hi
  rw [List.mem_range] at hi
  rw [slice_pair b i (by omega)]

theorem uint16ToBytes_cons (v : Nat) (vs : List Nat) :
    Uint16ToBytes (v :: vs) = (v >>> 8) % 256 :: v % 256 :: Uint16ToBytes vs := by
  simp [Uint16ToBytes]

theorem uint16ToBytes_getD (vs : List Nat) : ∀ i, i < vs.length →
    (Uint16ToBytes vs).getD (2 * i) 0 = (vs.getD i 0 >>> 8) % 256 ∧
    (Uint16ToBytes vs).getD (2 * i + 1) 0 = vs.getD i 0 % 256 := by
  induction vs with
  | nil => intro i hi; simp at hi
  | cons v t ih =>
    intro i hi
    rw [uint16ToBytes_cons]
    cases i with
    | zero => exact ⟨rfl, rfl⟩
    | succ j =>
      have hj : j < t.length := by simpa using hi
      have e1 : 2 * (j + 1) = (2 * j) + 1 + 1 := by omega
      rw [e1]
      simp only [List.getD_cons_succ]
      exact ih j hj

/-- C18: endian round trip. `Uint16ToBytes vs` has `2*len(vs)` bytes with value
`i` encoded high byte first at `2i` and `2i+1`; for 16-bit values
`BytesToUint16 (Uint16ToBytes vs) = vs`; and `BytesToUint16 b` has
`len(b) div 2` values, value `i` being `256*b[2i] + b[2i+1]`. -/
theorem endian_round_trip (vs b : List Nat) :
    (Uint16ToBytes vs).length = 2 * vs.length ∧
    (∀ i, i < vs.length →
      (Uint16ToBytes vs)[2 * i]? = some ((vs.getD i 0 / 256) % 256) ∧
      (Uint16ToBytes vs)[2 * i + 1]? = some (vs.getD i 0 % 256)) ∧
    ((∀ v ∈ vs, v < 65536) → BytesToUint16 (Uint16ToBytes vs) = some vs) ∧
    ((∀ x ∈ b, x < 256) →
      ∃ r, BytesToUint16 b = some r ∧ r.length = b.length / 2 ∧
        ∀ i, i < b.length / 2 → r[i]? = some (256 * b.getD (2 * i) 0 + b.getD (2 * i + 1) 0)) := by
  have hlen := uint16ToBytes_length vs
  refine ⟨hlen, ?_, ?_, ?_⟩
  · intro i hi
    obtain ⟨h0, h1⟩ := uint16ToBytes_getD vs i hi
    rw [Nat.shiftRight_eq_div_pow] at h0
    have l0 : 2 * i < (Uint16ToBytes vs).length := by omega
    have l1 : 2 * i + 1 < (Uint16ToBytes vs).length := by omega
    rw [List.getD_eq_getElem?_getD, List.getElem?_eq_getElem l0] at h0
    rw [List.getD_eq_getElem?_getD, List.getElem?_eq_getElem l1] at h1
    rw [List.getElem?_eq_getElem l0, List.getElem?_eq_getElem l1]
    simp only [Option.getD_some] at h0 h1
    exact ⟨congrArg some h0, congrArg some h1⟩
  · intro hv
    rw [bytesToUint16_eq, hlen]
    congr 1
    apply List.ext_getElem
    · simp
    · intro i h1 h2
      have hi : i < vs.length := h2
      obtain ⟨h0, h1'⟩ := uint16ToBytes_getD vs i hi
      simp only [List.getElem_map, List.getElem_range, h0, h1']
      have hgd : vs.getD i 0 = vs[i] := by
        rw [List.getD_eq_getElem?_getD, List.getElem?_eq_getElem hi]; rfl
      rw [hgd]
      exact bigEndianUint16_bytes _ (hv _ (List.getElem_mem hi))
  · intro hb
    refine ⟨_, bytesToUint16_eq b, by simp, ?_⟩
    intro i hi
    have hgd : ∀ k, b.getD k 0 < 256 := by
      intro k
      by_cases hk : k < b.length
      · rw [List.getD_eq_getElem?_getD, List.getElem?_eq_getElem hk]
        exact hb _ (List.getElem_mem hk)
      · rw [List.getD_eq_getElem?_getD, List.getElem?_eq_none (by omega)]
        decide
    rw [List.getElem?_map, List.getElem?_range hi]
    simp only [Option.map_some']
    rw [bigEndianUint16_eq, Nat.mod_eq_of_lt (hgd _), Nat.mod_eq_of_lt (hgd _)]

/-- Witness for C18: the values and bytes of the conversion tests. -/
theorem endian_round_trip_witness :
    ((∀ v ∈ ([1, 2, 3] : List Nat), v < 65536) ∧ ∀ x ∈ ([1, 2, 3, 4] : List Nat), x < 256) ∧
    BytesToUint16 (Uint16ToBytes [1, 2, 3]) = some [1, 2, 3] ∧
    ∃ r, BytesToUint16 [1, 2, 3, 4] = some r ∧ r.length = ([1, 2, 3, 4] : List Nat).length / 2 ∧
      ∀ i, i < ([1, 2, 3, 4] : List Nat).length / 2 →
        r[i]? = some (256 * ([1, 2, 3, 4] : List Nat).getD (2 * i) 0 +
          ([1, 2, 3, 4] : List Nat).getD (2 * i + 1) 0) :=
  ⟨by decide,
    (endian_round_trip [1, 2, 3] [1, 2, 3, 4]).2.2.1 (by decide),
    (endian_round_trip [1, 2, 3] [1, 2, 3, 4]).2.2.2 (by decide)⟩

/-- Closed form of `getRTUSizeFromHeader` on a header of at least two bytes. -/
theorem getRTUSizeFromHeader_cons (d fc : Nat) (rest : List Nat) :
    getRTUSizeFromHeader (d :: fc :: rest) =
      if fc = 1 ∨ fc = 2 ∨ fc = 3 ∨ fc = 4 ∨ fc = 5 ∨ fc = 6 then some (8, none)
      else if fc = 15 ∨ fc = 16 then
        if 5 ≤ rest.length then some (rest.getD 4 0 + 9, none) else some (256, none)
      else if fc = 7 ∨ fc = 11 ∨ fc = 12 ∨ fc = 17 then some (4, none)
      else if fc = 24 then some (6, none)
      else if fc = 43 then some (7, none)
      else if fc = 22 then some (10, none)
      else if fc = 21 then
        if 1 ≤ rest.length then some (rest.getD 0 0 + 5, none) else some (256, none)
      else if fc = 23 then
        if 9 ≤ rest.length then some (rest.getD 8 0 + 13, none) else some (256, none)
      else some (3, some .unsupportedFunction) := by
  have hsl : sliceFrom (d :: fc :: rest) 1 = some (fc :: rest) := by
    simp [sliceFrom]
  have hlen : ¬ (d :: fc :: rest).length < 2 := by simp
  unfold getRTUSizeFromHeader
  rw [if_neg hlen, hsl]
  unfold getPDUSizeFromHeader
  simp only [getIndex, List.get?_cons_zero, ReadCoils_fc, ReadDiscreteInput_fc,
    ReadHoldingRegisters_fc, ReadInputRegisters_fc, WriteSingleCoil_fc, WriteHoldingRegister_fc,
    WriteMultipleCoils_fc, WriteHoldingRegisters_fc, ReadExceptionStatus_fc,
    GetCommEventCounter_fc, GetCommEventLog_fc, ReportSlaveId_fc, ReadFifoQueue_fc,
    ReadDeviceIdentification_fc, MaskWriteRegister_fc, WriteFileRecord_fc,
    ReadWriteMultipleRegisters_fc, max_PDU]
  by_cases h1 : fc = 1 ∨ fc = 2 ∨ fc = 3 ∨ fc = 4 ∨ fc = 5 ∨ fc = 6
  · simp only [if_pos h1]
  simp only [if_neg h1]
  by_cases h2 : fc = 15 ∨ fc = 16
  · simp only [if_pos h2]
    by_cases h5 : 5 ≤ rest.length
    · have hl : (fc :: rest).length > 5 := by simp only [List.length_cons]; omega
      have hg : (fc :: rest).get? 5 = some (rest.getD 4 0) := by
        rw [List.get?_eq_getElem?, List.getElem?_cons_succ, List.getD_eq_getElem?_getD,
          List.getElem?_eq_getElem (show 4 < rest.length by omega)]
        rfl
      simp only [if_pos hl, if_pos h5, hg]
    · have hl : ¬ (fc :: rest).length > 5 := by simp only [List.length_cons]; omega
      simp only [if_neg hl, if_neg h5]
  simp only [if_neg h2]
  by_cases h3 : fc = 7 ∨ fc = 11 ∨ fc = 12 ∨ fc = 17
  · simp only [if_pos h3]
  simp only [if_neg h3]
  by_cases h4 : fc = 24
  · simp only [if_pos h4]
  simp only [if_neg h4]
  by_cases h6 : fc = 43
  · simp only [if_pos h6]
  simp only [if_neg h6]
  by_cases h7 : fc = 22
  · simp only [if_pos h7]
  simp only [if_neg h7]
  by_cases h8 : fc = 21
  · simp only [if_pos h8]
    by_cases h5 : 1 ≤ rest.length
    · have hl : ¬ (fc :: rest).length < 2 := by simp only [List.length_cons]; omega
      have hg : (fc :: rest).get? 1 = some (rest.getD 0 0) := by
        rw [List.get?_eq_getElem?, List.getElem?_cons_succ, List.getD_eq_getElem?_getD,
          List.getElem?_eq_getElem (show 0 < rest.length by omega)]
        rfl
      simp only [if_neg hl, if_pos h5, hg]
    · have hl : (fc :: rest).length < 2 := by simp only [List.length_cons]; omega
      simp only [if_pos hl, if_neg h5]
  simp only [if_neg h8]
  by_cases h9 : fc = 23
  · simp only [if_pos h9]
    by_cases h5 : 9 ≤ rest.length
    · have hl : ¬ (fc :: rest).length < 10 := by simp only [List.length_cons]; omega
      have hg : (fc :: rest).get? 9 = some (rest.getD 8 0) := by
        rw [List.get?_eq_getElem?, List.getElem?_cons_succ, List.getD_eq_getElem?_getD,
          List.getElem?_eq_getElem (show 8 < rest.length by omega)]
        rfl
      simp only [if_neg hl, if_pos h5, hg]
    · have hl : (fc :: rest).length < 10 := by simp only [List.length_cons]; omega
      simp only [if_pos hl, if_neg h5]
  simp only [if_neg h9]

theorem getRTUSizeFromHeader_short (p : List Nat) (h : p.length < 2) :
    getRTUSizeFromHeader p = some (253, none) := by
  unfold getRTUSizeFromHeader
  rw [if_pos h]
  rfl

theorem variable_size_prefix (i c : Nat) (p2 t : List Nat) (hi : i + 3 ≤ 11) :
    ∃ e E,
      (if i + 1 ≤ p2.length then some (p2.getD i 0 + c, (none : Option Error))
        else some (256, none)) = some (e, none) ∧
      (if i + 1 ≤ (p2 ++ t).length then some ((p2 ++ t).getD i 0 + c, (none : Option Error))
        else some (256, none)) = some (E, none) ∧
      (e = E ∨ (253 ≤ e ∧ p2.length + 2 ≤ 10)) := by
  by_cases h : i + 1 ≤ p2.length
  · have h2 : i + 1 ≤ (p2 ++ t).length := by rw [List.length_append]; omega
    have hg : (p2 ++ t).getD i 0 = p2.getD i 0 := by
      rw [List.getD_eq_getElem?_getD, List.getD_eq_getElem?_getD,
        List.getElem?_append_left (by omega)]
    refine ⟨_, _, if_pos h, if_pos h2, Or.inl ?_⟩
    rw [hg]
  · by_cases h2 : i + 1 ≤ (p2 ++ t).length
    · exact ⟨_, _, if_neg h, if_pos h2, Or.inr ⟨by omega, by omega⟩⟩
    · exact ⟨_, _, if_neg h, if_neg h2, Or.inl rfl⟩

/-- The size computed from a prefix of a buffer with a known function code is
the size computed from the whole buffer, unless the prefix has at most ten
bytes and is sized at least `max_PDU`. -/
theorem sizer_prefix (d fc : Nat) (p2 t : List Nat) (hk : knownFunction fc) :
    ∃ e E, getRTUSizeFromHeader (d :: fc :: p2) = some (e, none) ∧
      getRTUSizeFromHeader (d :: fc :: (p2 ++ t)) = some (E, none) ∧
      (e = E ∨ (253 ≤ e ∧ p2.length + 2 ≤ 10)) := by
  rw [getRTUSizeFromHeader_cons, getRTUSizeFromHeader_cons]
  simp only [knownFunction, List.mem_cons, List.mem_singleton, List.not_mem_nil, or_false] at hk
  rcases hk with rfl | rfl | rfl | rfl | rfl | rfl | rfl | rfl | rfl | rfl | rfl | rfl | rfl |
    rfl | rfl | rfl | rfl
  · exact ⟨8, 8, rfl, rfl, Or.inl rfl⟩
  · exact ⟨8, 8, rfl, rfl, Or.inl rfl⟩
  · exact ⟨8, 8, rfl, rfl, Or.inl rfl⟩
  · exact ⟨8, 8, rfl, rfl, Or.inl rfl⟩
  · exact ⟨8, 8, rfl, rfl, Or.inl rfl⟩
  · exact ⟨8, 8, rfl, rfl, Or.inl rfl⟩
  · exact variable_size_prefix 4 9 p2 t (by decide)
  · exact variable_size_prefix 4 9 p2 t (by decide)
  · exact ⟨4, 4, rfl, rfl, Or.inl rfl⟩
  · exact ⟨4, 4, rfl, rfl, Or.inl rfl⟩
  · exact ⟨4, 4, rfl, rfl, Or.inl rfl⟩
  · exact ⟨4, 4, rfl, rfl, Or.inl rfl⟩
  · exact ⟨6, 6, rfl, rfl, Or.inl rfl⟩
  · exact ⟨7, 7, rfl, rfl, Or.inl rfl⟩
  · exact ⟨10, 10, rfl, rfl, Or.inl rfl⟩
  · exact variable_size_prefix 0 5 p2 t (by decide)
  · exact variable_size_prefix 8 13 p2 t (by decide)

/-- Prefix form of `sizer_prefix` for a buffer `d :: fc :: rest0` of size `E`. -/
theorem prefix_size (d fc : Nat) (rest0 : List Nat) (E : Nat) (hk : knownFunction fc)
    (hE : getRTUSizeFromHeader (d :: fc :: rest0) = some (E, none)) (p t : List Nat)
    (hp : p ++ t = d :: fc :: rest0) :
    ∃ e, getRTUSizeFromHeader p = some (e, none) ∧ (e = E ∨ (253 ≤ e ∧ p.length ≤ 10)) := by
  match p, hp with
  | [], _ => exact ⟨253, getRTUSizeFromHeader_short _ (by decide), Or.inr ⟨by decide, by decide⟩⟩
  | [a], _ =>
    exact ⟨253, getRTUSizeFromHeader_short _ (by simp), Or.inr ⟨by decide, by simp⟩⟩
  | a :: b :: p2, hp =>
    simp only [List.cons_append, List.cons.injEq] at hp
    obtain ⟨rfl, rfl, rfl⟩ := hp
    obtain ⟨e, E1, he, hE1, hor⟩ := sizer_prefix a b p2 t hk
    rw [hE1] at hE
    simp only [Option.some.injEq, Prod.mk.injEq, and_true] at hE
    subst hE
    refine ⟨e, he, ?_⟩
    rcases hor with h | ⟨h1, h2⟩
    · exact Or.inl h
    · exact Or.inr ⟨h1, by simp only [List.length_cons]; omega⟩

theorem findLoop_spec (x : Nat) : ∀ (data : List Nat) (k : Nat),
    (∃ m, findLoop x data k = (k + m, none) ∧ m < data.length ∧
      data.drop m = data.dropWhile (fun b => b != x)) ∨
    (∃ e, findLoop x data k = (0, some e) ∧ data.dropWhile (fun b => b != x) = []) := by
  intro data
  induction data with
  | nil => intro k; exact Or.inr ⟨_, rfl, rfl⟩
  | cons a t ih =>
    intro k
    by_cases ha : a = x
    · refine Or.inl ⟨0, ?_, by simp, ?_⟩
      · simp [findLoop, ha]
      · simp [List.dropWhile_cons, ha]
    · rcases ih (k + 1) with ⟨m, h1, h2, h3⟩ | ⟨e, h1, h2⟩
      · refine Or.inl ⟨m + 1, ?_, by simpa using h2, ?_⟩
        · simp only [findLoop, if_neg ha, h1]
          congr 1; omega
        · simp [List.dropWhile_cons, ha, h3]
      · refine Or.inr ⟨e, ?_, ?_⟩
        · simp only [findLoop, if_neg ha, h1]
        · simp [List.dropWhile_cons, ha, h2]

theorem server_clear_last (s : Server) (h : s.last = []) : { s with last := [] } = s := by
  cases s
  simp only at h
  subst h
  rfl

/-- The first part of `readRequests` puts the seed at the start of `req`. -/
theorem seedRequest_spec (s : Server) (req : List Nat)
    (hseed : (seedOf s).length ≤ req.length) :
    seedRequest s req = some (seedOf s ++ req.drop (seedOf s).length, (seedOf s).length,
      { s with last := [] }) := by
  unfold seedRequest
  by_cases hl : s.last.length ≠ 0
  · rw [if_pos hl]
    have hfind : find s.slaveId s.last = findLoop s.slaveId s.last 0 := by
      unfold find
      rw [if_neg hl]
    rw [hfind]
    rcases findLoop_spec s.slaveId s.last 0 with ⟨m, h1, h2, h3⟩ | ⟨e, h1, h2⟩
    · rw [h1]
      have hsl : sliceFrom s.last (0 + m) = some (seedOf s) := by
        unfold sliceFrom seedOf
        rw [if_pos (by omega), Nat.zero_add, h3]
      have hcp : copyInto req 0 req.length (seedOf s)
          = some ((seedOf s).length, seedOf s ++ req.drop (seedOf s).length) := by
        unfold copyInto
        rw [if_pos ⟨Nat.zero_le _, Nat.le_refl _⟩]
        have hmin : min (req.length - 0) (seedOf s).length = (seedOf s).length := by omega
        simp only [hmin, List.take_zero, List.nil_append, List.take_length, Nat.zero_add]
      simp only [hsl, hcp]
    · rw [h1]
      have hs : seedOf s = [] := h2
      simp only [hs, List.length_nil, List.drop_zero, List.nil_append]
  · rw [if_neg hl]
    have hnil : s.last = [] := List.eq_nil_of_length_eq_zero (by omega)
    have hs : seedOf s = [] := by unfold seedOf; rw [hnil]; rfl
    simp only [hs, List.length_nil, List.drop_zero, List.nil_append, server_clear_last s hnil]

/-- Leaving the loop of `readRequests`: with `expected ≤ read` the first
`expected` bytes of `req[:read]` are returned and the bytes after them become
`last`. -/
theorem readLoop_exit (s1 : Server) (reader : Reader) (req : List Nat) (read expected : Nat)
    (hlast : s1.last = []) (hread : read ≤ req.length) (hnot : ¬ read < expected)
    (fuel : Nat) :
    readLoop (fuel + 1) s1 reader req read expected
      = .returned ((req.take read).take expected) expected none
          { s1 with last := (req.take read).drop expected } reader := by
  unfold readLoop
  rw [if_neg hnot]
  by_cases hgt : read > expected
  · rw [if_pos hgt]
    have h1 : sliceRange req expected read = some ((req.take read).drop expected) := by
      unfold sliceRange
      rw [if_pos ⟨by omega, hread⟩]
    have h2 : sliceRange req 0 expected = some ((req.take read).take expected) := by
      unfold sliceRange
      rw [if_pos ⟨Nat.zero_le _, by omega⟩, List.drop_zero, List.take_take,
        Nat.min_eq_left (by omega)]
    simp only [h1, h2]
  · rw [if_neg hgt]
    have he : expected = read := by omega
    subst he
    have h2 : sliceRange req 0 expected = some (req.take expected) := by
      unfold sliceRange
      rw [if_pos ⟨Nat.zero_le _, hread⟩, List.drop_zero]
    have h3 : (req.take expected).drop expected = [] := by
      apply List.drop_of_length_le
      rw [List.length_take]; omega
    simp only [h2, h3, List.take_take, Nat.min_self, server_clear_last s1 hlast]

/-- One turn of the loop of `readRequests` in which the reader delivers
`delivered` without error. -/
theorem readLoop_step (s1 : Server) (reader reader1 : Reader) (req delivered : List Nat)
    (read expected e1 fuel : Nat) (x : Option Error)
    (hlt : read < expected) (hread : read ≤ req.length)
    (hRead : reader.Read (req.length - read) = (delivered, none, reader1))
    (hdl : delivered.length ≤ req.length - read)
    (hsz : getRTUSizeFromHeader (req.take read ++ delivered) = some (e1, x)) :
    readLoop (fuel + 1) s1 reader req read expected
      = readLoop fuel s1 reader1
          (req.take read ++ delivered ++ req.drop (read + delivered.length))
          (read + delivered.length) e1 := by
  have hsl : sliceFrom req read = some (req.drop read) := by
    unfold sliceFrom
    rw [if_pos hread]
  have hcp : copyInto req read req.length delivered
      = some (delivered.length,
          req.take read ++ delivered ++ req.drop (read + delivered.length)) := by
    unfold copyInto
    rw [if_pos ⟨hread, Nat.le_refl _⟩]
    have hmin : min (req.length - read) delivered.length = delivered.length := by omega
    simp only [hmin, List.take_length]
  have hlt1 : (req.take read).length = read := by
    rw [List.length_take]; omega
  have hfill : sliceRange (req.take read ++ delivered ++ req.drop (read + delivered.length)) 0
      (read + delivered.length) = some (req.take read ++ delivered) := by
    unfold sliceRange
    rw [if_pos ⟨Nat.zero_le _, by
      simp only [List.length_append, List.length_drop, hlt1]; omega⟩, List.drop_zero]
    rw [List.take_append_of_le_length (by simp only [List.length_append, hlt1]; omega),
      List.take_of_length_le (by simp only [List.length_append, hlt1]; omega)]
  conv_lhs => unfold readLoop
  rw [if_pos hlt]
  simp only [hsl, List.length_drop, hRead, hcp, hfill, hsz]

theorem streamOf_data (chunk : List Nat) (rest : Reader) :
    streamOf (.data chunk :: rest) = chunk ++ streamOf rest := rfl

/-- The loop of `readRequests` on a reader that delivers bytes without error:
for a buffer `d :: fc :: rest0` with a known function code whose size `E` fits
both the buffer at hand and the working buffer, the loop returns the first `E`
bytes and keeps the other consumed bytes in `last`. -/
theorem readLoop_splits (s1 : Server) (d fc : Nat) (rest0 : List Nat) (E : Nat)
    (hlast : s1.last = []) (hk : knownFunction fc)
    (hE : getRTUSizeFromHeader (d :: fc :: rest0) = some (E, none))
    (hE1 : E ≤ (d :: fc :: rest0).length) (hE2 : E ≤ 259) :
    ∀ (reader : Reader) (req : List Nat) (read expected fuel : Nat),
      reader.all ReadEvent.isData = true → req.length = 259 → read ≤ 259 →
      req.take read ++ streamOf reader = d :: fc :: rest0 →
      getRTUSizeFromHeader (req.take read) = some (expected, none) →
      reader.length + 1 ≤ fuel →
      ∃ consumed reader',
        readLoop fuel s1 reader req read expected
          = .returned ((d :: fc :: rest0).take E) E none
              { s1 with last := (req.take read ++ consumed).drop E } reader' ∧
        reader'.all ReadEvent.isData = true ∧
        streamOf reader = consumed ++ streamOf reader' ∧
        E ≤ (req.take read ++ consumed).length ∧
        reader'.length ≤ reader.length := by
  intro reader
  induction reader with
  | nil =>
    intro req read expected fuel _ hreq hread hbuf hsz hfuel
    have hp : req.take read = d :: fc :: rest0 := by simpa [streamOf] using hbuf
    have hpl : (req.take read).length = read := by rw [List.length_take]; omega
    have hexp : expected = E := by
      rw [hp, hE] at hsz
      simp only [Option.some.injEq, Prod.mk.injEq, and_true] at hsz
      exact hsz.symm
    subst hexp
    obtain ⟨f, rfl⟩ : ∃ f, fuel = f + 1 := ⟨fuel - 1, by omega⟩
    refine ⟨[], [], ?_, rfl, rfl, ?_, Nat.le_refl _⟩
    · rw [readLoop_exit s1 [] req read expected hlast (by omega) (by rw [← hpl, hp]; omega) f,
        List.append_nil, hp]
    · rw [List.append_nil, hp]; exact hE1
  | cons ev rest ih =>
    intro req read expected fuel hdata hreq hread hbuf hsz hfuel
    obtain ⟨chunk, rfl⟩ : ∃ chunk, ev = .data chunk := by
      cases ev with
      | data c => exact ⟨c, rfl⟩
      | error e => simp [ReadEvent.isData] at hdata
    have hrest : rest.all ReadEvent.isData = true := by
      simp only [List.all_cons, Bool.and_eq_true] at hdata
      exact hdata.2
    have hpl : (req.take read).length = read := by rw [List.length_take]; omega
    obtain ⟨f, rfl⟩ : ∃ f, fuel = f + 1 := ⟨fuel - 1, by simp only [List.length_cons] at hfuel; omega⟩
    simp only [List.length_cons] at hfuel
    rw [streamOf_data] at hbuf
    by_cases hlt : read < expected
    · by_cases hfit : chunk.length ≤ req.length - read
      · -- the whole chunk is stored
        have hRead : Reader.Read (.data chunk :: rest) (req.length - read)
            = (chunk, none, rest) := by
          simp only [Reader.Read, if_pos hfit]
        obtain ⟨e1, hsz1, _⟩ := prefix_size d fc rest0 E hk hE (req.take read ++ chunk)
          (streamOf rest) (by rw [List.append_assoc]; exact hbuf)
        have hstep := readLoop_step s1 _ rest req chunk read expected e1 f none hlt (by omega)
          hRead hfit hsz1
        have hlen1 : (req.take read ++ chunk ++ req.drop (read + chunk.length)).length = 259 := by
          simp only [List.length_append, List.length_drop, hpl]; omega
        have htake1 : (req.take read ++ chunk ++ req.drop (read + chunk.length)).take
            (read + chunk.length) = req.take read ++ chunk := by
          rw [List.take_append_of_le_length (by simp only [List.length_append, hpl]; omega),
            List.take_of_length_le (by simp only [List.length_append, hpl]; omega)]
        obtain ⟨consumed, reader', hrun, hd', hs', hE', hl'⟩ := ih
          (req.take read ++ chunk ++ req.drop (read + chunk.length)) (read + chunk.length) e1 f
          hrest hlen1 (by omega) (by rw [htake1, List.append_assoc]; exact hbuf)
          (by rw [htake1]; exact hsz1) (by omega)
        rw [htake1] at hrun hE'
        refine ⟨chunk ++ consumed, reader', ?_, hd', ?_, ?_, by
          simp only [List.length_cons]; omega⟩
        · rw [hstep, hrun, List.append_assoc]
        · rw [streamOf_data, hs', List.append_assoc]
        · rw [← List.append_assoc]; exact hE'
      · -- the chunk is longer than the room left in the buffer
        have hRead : Reader.Read (.data chunk :: rest) (req.length - read)
            = (chunk.take (req.length - read), none,
                .data (chunk.drop (req.length - read)) :: rest) := by
          simp only [Reader.Read, if_neg hfit]
        have hdl : (chunk.take (req.length - read)).length = req.length - read := by
          rw [List.length_take]; omega
        have hsplit : req.take read ++ chunk.take (req.length - read) ++
            (chunk.drop (req.length - read) ++ streamOf rest) = d :: fc :: rest0 := by
          rw [← hbuf, List.append_assoc, ← List.append_assoc (chunk.take _),
            List.take_append_drop]
        obtain ⟨e1, hsz1, hor⟩ := prefix_size d fc rest0 E hk hE
          (req.take read ++ chunk.take (req.length - read)) _ hsplit
        have he1 : e1 = E := by
          rcases hor with h | ⟨_, h⟩
          · exact h
          · simp only [List.length_append, hpl, hdl] at h; omega
        subst he1
        have hstep := readLoop_step s1 _ _ req (chunk.take (req.length - read)) read expected
          e1 f none hlt (by omega) hRead (by omega) hsz1
        rw [hdl] at hstep
        have hfull : read + (req.length - read) = req.length := by omega
        rw [hfull, List.drop_length, List.append_nil] at hstep
        obtain ⟨g, rfl⟩ : ∃ g, f = g + 1 := ⟨f - 1, by omega⟩
        have hlen1 : (req.take read ++ chunk.take (req.length - read)).length = req.length := by
          simp only [List.length_append, hpl, hdl]; omega
        have hexit := readLoop_exit s1 (.data (chunk.drop (req.length - read)) :: rest)
          (req.take read ++ chunk.take (req.length - read)) req.length e1 hlast
          (by omega) (by omega) g
        have htk : (req.take read ++ chunk.take (req.length - read)).take req.length
            = req.take read ++ chunk.take (req.length - read) :=
          List.take_of_length_le (Nat.le_of_eq hlen1)
        rw [htk] at hexit
        refine ⟨chunk.take (req.length - read), .data (chunk.drop (req.length - read)) :: rest,
          ?_, ?_, ?_, by rw [hlen1]; omega, Nat.le_refl _⟩
        · rw [hstep, hexit]
          congr 1
          have hge : e1 ≤ (req.take read ++ chunk.take (req.length - read)).length := by
            rw [hlen1]; omega
          rw [← hsplit, List.take_append_of_le_length hge]
        · simpa [ReadEvent.isData] using hrest
        · rw [streamOf_data, streamOf_data, ← List.append_assoc, List.take_append_drop]
    · -- enough bytes are in the buffer already
      obtain ⟨e0, hsz0, hor⟩ := prefix_size d fc rest0 E hk hE (req.take read)
        (chunk ++ streamOf rest) hbuf
      rw [hsz] at hsz0
      simp only [Option.some.injEq, Prod.mk.injEq, and_true] at hsz0
      subst hsz0
      have hexp : expected = E := by
        rcases hor with h | ⟨h1, h2⟩
        · exact h
        · rw [hpl] at h2; omega
      subst hexp
      refine ⟨[], .data chunk :: rest, ?_, hdata, rfl, by
        rw [List.append_nil, hpl]; omega, Nat.le_refl _⟩
      rw [readLoop_exit s1 _ req read expected hlast (by omega) hlt f, List.append_nil]
      congr 1
      rw [← hbuf, List.take_append_of_le_length (by rw [hpl]; omega)]

theorem server_last_last (s : Server) (l : List Nat) :
    { ({ s with last := [] } : Server) with last := l } = { s with last := l } := rfl

/-- Function `readRequests` on a reader that delivers bytes without error: when
the bytes `seed ++ stream` start with a header of a known function code whose
size `E` fits the bytes at hand and the working buffer, the first `E` bytes
are returned and the other consumed bytes are kept in `last`. -/
theorem readRequests_split (s : Server) (reader : Reader) (d fc : Nat) (rest0 : List Nat)
    (E fuel : Nat)
    (hdata : reader.all ReadEvent.isData = true)
    (hseed : (seedOf s).length ≤ 259)
    (hbuf : seedOf s ++ streamOf reader = d :: fc :: rest0)
    (hk : knownFunction fc)
    (hE : getRTUSizeFromHeader (d :: fc :: rest0) = some (E, none))
    (hE1 : E ≤ (d :: fc :: rest0).length) (hE2 : E ≤ 259)
    (hfuel : reader.length + 1 ≤ fuel) :
    ∃ consumed reader',
      readRequests fuel s reader
        = .returned ((d :: fc :: rest0).take E) E none
            { s with last := (seedOf s ++ consumed).drop E } reader' ∧
      reader'.all ReadEvent.isData = true ∧
      streamOf reader = consumed ++ streamOf reader' ∧
      E ≤ (seedOf s ++ consumed).length ∧
      reader'.length ≤ reader.length := by
  have hreq0 : (List.replicate (max_ADU_RTU + 3) 0).length = 259 := by
    rw [List.length_replicate]; rfl
  have hseedreq := seedRequest_spec s (List.replicate (max_ADU_RTU + 3) 0) (by omega)
  have hlen1 : (seedOf s ++ (List.replicate (max_ADU_RTU + 3) 0).drop (seedOf s).length).length
      = 259 := by
    rw [List.length_append, List.length_drop, hreq0]; omega
  have htake : (seedOf s ++ (List.replicate (max_ADU_RTU + 3) 0).drop (seedOf s).length).take
      (seedOf s).length = seedOf s := by
    rw [List.take_append_of_le_length (Nat.le_refl _), List.take_length]
  have hslice : sliceRange
      (seedOf s ++ (List.replicate (max_ADU_RTU + 3) 0).drop (seedOf s).length) 0
      (seedOf s).length = some (seedOf s) := by
    unfold sliceRange
    rw [if_pos ⟨Nat.zero_le _, by omega⟩, List.drop_zero, htake]
  obtain ⟨e0, hsz0, _⟩ := prefix_size d fc rest0 E hk hE (seedOf s) (streamOf reader) hbuf
  obtain ⟨consumed, reader', hrun, hd, hs, hEl, hl⟩ :=
    readLoop_splits { s with last := [] } d fc rest0 E rfl hk hE hE1 hE2 reader
      (seedOf s ++ (List.replicate (max_ADU_RTU + 3) 0).drop (seedOf s).length)
      (seedOf s).length e0 fuel hdata hlen1 hseed (by rw [htake]; exact hbuf)
      (by rw [htake]; exact hsz0) hfuel
  rw [htake] at hrun hEl
  refine ⟨consumed, reader', ?_, hd, hs, hEl, hl⟩
  unfold readRequests
  simp only [hseedreq, hslice, hsz0]
  rw [hrun]

/-- C16 as amended: frame splitting in `readRequests`. Let the seed be the
suffix of `last` from the first occurrence of the slave id, at most 259 bytes
long, and let the reader deliver chunks without error. If `seed ++ stream`
starts with a header of a function code known to the sizer whose RTU size `E`
is at most 259 and at most the number of bytes at hand, then `readRequests`
returns with nil error exactly the first `E` bytes of `seed ++ stream`, returns
`n = E`, and leaves in `last` exactly the consumed bytes after position `E`, so
that `result ++ last = seed ++ consumed`, however the reader chunks the
stream. -/
theorem read_requests_frame_splitting (s : Server) (reader : Reader) (d fc : Nat)
    (rest0 : List Nat) (E fuel : Nat)
    (hdata : reader.all ReadEvent.isData = true)
    (hseed : (seedOf s).length ≤ max_ADU_RTU + 3)
    (hbuf : seedOf s ++ streamOf reader = d :: fc :: rest0)
    (hk : knownFunction fc)
    (hE : getRTUSizeFromHeader (d :: fc :: rest0) = some (E, none))
    (hE1 : E ≤ (d :: fc :: rest0).length) (hE2 : E ≤ max_ADU_RTU + 3)
    (hfuel : reader.length + 1 ≤ fuel) :
    ∃ last1 consumed reader',
      readRequests fuel s reader
        = .returned ((seedOf s ++ streamOf reader).take E) E none
            { s with last := last1 } reader' ∧
      ((seedOf s ++ streamOf reader).take E).length = E ∧
      (seedOf s ++ streamOf reader).take E ++ last1 = seedOf s ++ consumed ∧
      streamOf reader = consumed ++ streamOf reader' := by
  obtain ⟨consumed, reader', hrun, _, hs, hEl, _⟩ :=
    readRequests_split s reader d fc rest0 E fuel hdata hseed hbuf hk hE hE1 hE2 hfuel
  refine ⟨(seedOf s ++ consumed).drop E, consumed, reader', ?_, ?_, ?_, hs⟩
  · rw [hbuf]; exact hrun
  · rw [hbuf, List.length_take]; omega
  · have hpre : (seedOf s ++ streamOf reader).take E = (seedOf s ++ consumed).take E := by
      rw [hs, ← List.append_assoc, List.take_append_of_le_length hEl]
    rw [hpre, List.take_append_drop]

/-- Witness for C16 as amended: `last = [255]` and a reader that delivers
`03 00 0C 00 02 7F 80` for slave id 255. -/
theorem read_requests_frame_splitting_witness :
    (([ReadEvent.data [3, 0, 12, 0, 2, 127, 128]] : Reader).all ReadEvent.isData = true ∧
      (seedOf ⟨255, [], [], [], [], [255]⟩).length ≤ max_ADU_RTU + 3 ∧
      seedOf ⟨255, [], [], [], [], [255]⟩ ++ streamOf [.data [3, 0, 12, 0, 2, 127, 128]]
        = 255 :: 3 :: [0, 12, 0, 2, 127, 128] ∧
      knownFunction 3 ∧
      getRTUSizeFromHeader (255 :: 3 :: [0, 12, 0, 2, 127, 128]) = some (8, none) ∧
      8 ≤ (255 :: 3 :: [0, 12, 0, 2, 127, 128]).length ∧ 8 ≤ max_ADU_RTU + 3 ∧
      ([ReadEvent.data [3, 0, 12, 0, 2, 127, 128]] : Reader).length + 1 ≤ 2) ∧
    ∃ last1 consumed reader',
      readRequests 2 ⟨255, [], [], [], [], [255]⟩ [.data [3, 0, 12, 0, 2, 127, 128]]
        = .returned ((seedOf ⟨255, [], [], [], [], [255]⟩ ++
              streamOf [.data [3, 0, 12, 0, 2, 127, 128]]).take 8) 8 none
            { (⟨255, [], [], [], [], [255]⟩ : Server) with last := last1 } reader' ∧
      ((seedOf ⟨255, [], [], [], [], [255]⟩ ++
          streamOf [.data [3, 0, 12, 0, 2, 127, 128]]).take 8).length = 8 ∧
      (seedOf ⟨255, [], [], [], [], [255]⟩ ++
          streamOf [.data [3, 0, 12, 0, 2, 127, 128]]).take 8 ++ last1
        = seedOf ⟨255, [], [], [], [], [255]⟩ ++ consumed ∧
      streamOf [.data [3, 0, 12, 0, 2, 127, 128]] = consumed ++ streamOf reader' :=
  ⟨by decide,
    read_requests_frame_splitting ⟨255, [], [], [], [], [255]⟩
      [.data [3, 0, 12, 0, 2, 127, 128]] 255 3 [0, 12, 0, 2, 127, 128] 8 2
      (by decide) (by decide) (by decide) (by decide) (by decide) (by decide) (by decide)
      (by decide)⟩

/-- With the working buffer full, `expected` beyond its length and bytes still
pending in the reader, the loop of `readRequests` never ends: every further
`Read` is handed an empty slice and stores nothing. -/
theorem readLoop_stuck (s1 : Server) (c : Nat) (cs : List Nat) (rest : Reader) (req : List Nat)
    (expected : Nat) (x : Option Error)
    (hsz : getRTUSizeFromHeader req = some (expected, x)) (hlt : req.length < expected) :
    ∀ fuel, readLoop fuel s1 (.data (c :: cs) :: rest) req req.length expected = .outOfFuel := by
  intro fuel
  induction fuel with
  | zero => rfl
  | succ f ih =>
    have hRead : Reader.Read (.data (c :: cs) :: rest) (req.length - req.length)
        = ([], none, .data (c :: cs) :: rest) := by
      simp [Reader.Read]
    have hstep := readLoop_step s1 _ _ req [] req.length expected expected f x hlt
      (Nat.le_refl _) hRead (by simp) (by simpa using hsz)
    simp only [List.take_length, List.append_nil, List.length_nil, Nat.add_zero,
      List.drop_length] at hstep
    rw [hstep, ih]

/-- A chunk that starts with a function-16 header with byte count 255 is sized
264, more than the working buffer holds: `readRequests` fills the buffer and
then never returns. -/
theorem readRequests_oversized (s : Server) (dev a b c e : Nat) (payload : List Nat)
    (hlast : s.last = []) (hp : 253 ≤ payload.length) :
    ∀ fuel, readRequests fuel s [.data (dev :: 16 :: a :: b :: c :: e :: 255 :: payload)]
      = .outOfFuel := by
  intro fuel
  have hreq0 : (List.replicate (max_ADU_RTU + 3) 0).length = 259 := by
    rw [List.length_replicate]; rfl
  have hs : seedOf s = [] := by unfold seedOf; rw [hlast]; rfl
  have hseedreq := seedRequest_spec s (List.replicate (max_ADU_RTU + 3) 0) (by rw [hs]; simp)
  rw [hs] at hseedreq
  simp only [List.length_nil, List.drop_zero, List.nil_append, server_clear_last s hlast]
    at hseedreq
  have hslice : sliceRange (List.replicate (max_ADU_RTU + 3) 0) 0 0 = some [] := by
    simp [sliceRange]
  have hsz0 : getRTUSizeFromHeader [] = some (253, none) :=
    getRTUSizeFromHeader_short [] (by decide)
  unfold readRequests
  simp only [hseedreq, hslice, hsz0]
  cases fuel with
  | zero => rfl
  | succ f =>
    have htk : (dev :: 16 :: a :: b :: c :: e :: 255 :: payload).take 259
        = dev :: 16 :: a :: b :: c :: e :: 255 :: payload.take 252 := by
      simp [List.take_succ_cons]
    have hRead : Reader.Read [.data (dev :: 16 :: a :: b :: c :: e :: 255 :: payload)]
        ((List.replicate (max_ADU_RTU + 3) 0).length - 0)
        = (dev :: 16 :: a :: b :: c :: e :: 255 :: payload.take 252, none,
            [.data ((dev :: 16 :: a :: b :: c :: e :: 255 :: payload).drop 259)]) := by
      have hnf : ¬ (dev :: 16 :: a :: b :: c :: e :: 255 :: payload).length ≤ 259 := by
        simp only [List.length_cons]; omega
      simp only [Reader.Read, hreq0, Nat.sub_zero, if_neg hnf, htk]
    have hdl : (dev :: 16 :: a :: b :: c :: e :: 255 :: payload.take 252).length = 259 := by
      simp only [List.length_cons, List.length_take]; omega
    have hsz1 : getRTUSizeFromHeader ((List.replicate (max_ADU_RTU + 3) 0).take 0 ++
        dev :: 16 :: a :: b :: c :: e :: 255 :: payload.take 252) = some (264, none) := by
      rw [List.take_zero, List.nil_append, getRTUSizeFromHeader_cons]
      simp
    have hstep := readLoop_step s _ _ (List.replicate (max_ADU_RTU + 3) 0) _ 0 253 264 f none
      (by decide) (Nat.zero_le _) hRead (by rw [hdl, hreq0]) hsz1
    rw [hstep, hdl, List.take_zero, List.nil_append]
    have hdrop : (List.replicate (max_ADU_RTU + 3) 0).drop (0 + 259) = [] :=
      List.drop_of_length_le (by rw [hreq0])
    rw [hdrop, List.append_nil]
    obtain ⟨y, ys, hy⟩ : ∃ y ys, (dev :: 16 :: a :: b :: c :: e :: 255 :: payload).drop 259
        = y :: ys := by
      cases hd : (dev :: 16 :: a :: b :: c :: e :: 255 :: payload).drop 259 with
      | nil =>
        have := congrArg List.length hd
        simp only [List.length_drop, List.length_cons, List.length_nil] at this
        omega
      | cons y ys => exact ⟨y, ys, rfl⟩
    rw [hy]
    have hfull := readLoop_stuck s y ys []
      (dev :: 16 :: a :: b :: c :: e :: 255 :: payload.take 252) 264 none
      (by rw [getRTUSizeFromHeader_cons]; simp) (by rw [hdl]; decide) f
    rw [hdl] at hfull
    exact hfull

set_option maxRecDepth 100000 in
/-- C16 fails as stated: a function-16 header with byte count 255 is sized
`E = 264`, more than the working buffer of 259 bytes, and `readRequests` never
returns although the reader delivers 307 bytes without error; and a seed of
300 bytes is cut to 259 bytes, so that result and `last` together hold fewer
bytes than the seed. -/
theorem read_requests_frame_beyond_buffer :
    (∀ fuel, readRequests fuel ⟨255, [], [], [], [], []⟩
        [.data (255 :: 16 :: 0 :: 0 :: 0 :: 125 :: 255 :: List.replicate 300 0)] = .outOfFuel) ∧
    knownFunction 16 ∧
    getRTUSizeFromHeader (255 :: 16 :: 0 :: 0 :: 0 :: 125 :: 255 :: List.replicate 300 0)
      = some (264, none) ∧
    264 ≤ (255 :: 16 :: 0 :: 0 :: 0 :: 125 :: 255 :: List.replicate 300 0).length ∧
    readRequests 1 ⟨255, [], [], [], [], 255 :: 3 :: List.replicate 298 0⟩ []
      = .returned [255, 3, 0, 0, 0, 0, 0, 0] 8 none
          ⟨255, [], [], [], [], List.replicate 251 0⟩ [] ∧
    seedOf ⟨255, [], [], [], [], 255 :: 3 :: List.replicate 298 0⟩
      = 255 :: 3 :: List.replicate 298 0 ∧
    ([255, 3, 0, 0, 0, 0, 0, 0] ++ List.replicate 251 0).length
      < (255 :: 3 :: List.replicate 298 0).length := by
  refine ⟨?_, by decide, by decide, by decide, by decide, by decide, by decide⟩
  exact readRequests_oversized _ 255 0 0 0 125 (List.replicate 300 0) rfl
    (by rw [List.length_replicate]; decide)

theorem server_same_last (s : Server) : { s with last := s.last ++ [] } = s := by
  cases s
  simp

/-- Function `readRequests` with empty `last` on a reader that has no bytes
left: every `Read` stores nothing until the reader answers `io.EOF`, which is
returned with no frame. -/
theorem readLoop_exhausted (s : Server) : ∀ (reader : Reader) (req : List Nat) (fuel : Nat),
    reader.all ReadEvent.isData = true → streamOf reader = [] → reader.length + 1 ≤ fuel →
    readLoop fuel s reader req 0 253 = .returned [] 0 (some .eof) s [] := by
  intro reader
  induction reader with
  | nil =>
    intro req fuel _ _ hfuel
    obtain ⟨f, rfl⟩ : ∃ f, fuel = f + 1 := ⟨fuel - 1, by omega⟩
    unfold readLoop
    rw [if_pos (by decide)]
    simp [sliceFrom, Reader.Read, copyInto, sliceRange, server_same_last]
  | cons ev rest ih =>
    intro req fuel hdata hstream hfuel
    obtain ⟨chunk, rfl⟩ : ∃ chunk, ev = .data chunk := by
      cases ev with
      | data c => exact ⟨c, rfl⟩
      | error e => simp [ReadEvent.isData] at hdata
    have hrest : rest.all ReadEvent.isData = true := by
      simp only [List.all_cons, Bool.and_eq_true] at hdata
      exact hdata.2
    rw [streamOf_data, List.append_eq_nil] at hstream
    obtain ⟨rfl, hs⟩ := hstream
    simp only [List.length_cons] at hfuel
    obtain ⟨f, rfl⟩ : ∃ f, fuel = f + 1 := ⟨fuel - 1, by omega⟩
    have hRead : Reader.Read (.data [] :: rest) (req.length - 0) = ([], none, rest) := by
      simp [Reader.Read]
    have hstep := readLoop_step s _ rest req [] 0 253 253 f none (by decide) (Nat.zero_le _)
      hRead (by simp) (by simpa using getRTUSizeFromHeader_short [] (by decide))
    simp only [List.take_zero, List.nil_append, List.length_nil, Nat.add_zero,
      List.drop_zero] at hstep
    rw [hstep]
    exact ih req f hrest hs (by omega)

theorem readRequests_exhausted (s : Server) (reader : Reader) (fuel : Nat)
    (hlast : s.last = []) (hdata : reader.all ReadEvent.isData = true)
    (hstream : streamOf reader = []) (hfuel : reader.length + 1 ≤ fuel) :
    readRequests fuel s reader = .returned [] 0 (some .eof) s [] := by
  have hs : seedOf s = [] := by unfold seedOf; rw [hlast]; rfl
  have hseedreq := seedRequest_spec s (List.replicate (max_ADU_RTU + 3) 0) (by rw [hs]; simp)
  rw [hs] at hseedreq
  simp only [List.length_nil, List.drop_zero, List.nil_append, server_clear_last s hlast]
    at hseedreq
  have hslice : sliceRange (List.replicate (max_ADU_RTU + 3) 0) 0 0 = some [] := by
    simp [sliceRange]
  have hsz0 : getRTUSizeFromHeader [] = some (253, none) :=
    getRTUSizeFromHeader_short [] (by decide)
  unfold readRequests
  simp only [hseedreq, hslice, hsz0]
  exact readLoop_exhausted s reader _ fuel hdata hstream hfuel

/-- A frame whose length is the size computed from its own header keeps that
size when more bytes follow it. -/
theorem frame_size_stable (d fc : Nat) (r t : List Nat) (hk : knownFunction fc)
    (hF : getRTUSizeFromHeader (d :: fc :: r) = some ((d :: fc :: r).length, none)) :
    getRTUSizeFromHeader (d :: fc :: (r ++ t)) = some ((d :: fc :: r).length, none) := by
  obtain ⟨e, E, he, hE, hor⟩ := sizer_prefix d fc r t hk
  rw [he] at hF
  simp only [Option.some.injEq, Prod.mk.injEq, and_true] at hF
  rcases hor with h | ⟨h1, h2⟩
  · rw [hE, ← h, hF]
  · simp only [List.length_cons] at hF
    omega

theorem seedOf_prefix (s : Server) (l : List Nat) (fc : Nat) (r t : List Nat)
    (h : l ++ t = s.slaveId :: fc :: r) :
    seedOf { s with last := l } = l := by
  unfold seedOf
  cases l with
  | nil => rfl
  | cons y ys =>
    simp only [List.cons_append, List.cons.injEq] at h
    obtain ⟨rfl, _⟩ := h
    simp [List.dropWhile_cons]

/-- C15 as amended: for every slave id and every byte stream `F1 ++ F2` without
other bytes before or between the frames, where `F1` and `F2` start with the
slave id, carry a function code known to the sizer, have the length the sizer
computes from their header and are at most 259 bytes long, repeatedly calling
`readRequests` on a reader that delivers the stream without error, in any
chunking and starting from an empty `last`, returns `F1` and then `F2` with nil
error; after that nothing is left and the next call returns `io.EOF`. -/
theorem read_requests_consecutive_frames (s : Server) (reader : Reader) (fc1 fc2 : Nat)
    (r1 r2 : List Nat) (fuel : Nat)
    (hlast : s.last = []) (hdata : reader.all ReadEvent.isData = true)
    (hk1 : knownFunction fc1) (hk2 : knownFunction fc2)
    (hF1 : getRTUSizeFromHeader (s.slaveId :: fc1 :: r1)
      = some ((s.slaveId :: fc1 :: r1).length, none))
    (hF2 : getRTUSizeFromHeader (s.slaveId :: fc2 :: r2)
      = some ((s.slaveId :: fc2 :: r2).length, none))
    (hL1 : (s.slaveId :: fc1 :: r1).length ≤ max_ADU_RTU + 3)
    (hL2 : (s.slaveId :: fc2 :: r2).length ≤ max_ADU_RTU + 3)
    (hstream : streamOf reader = (s.slaveId :: fc1 :: r1) ++ (s.slaveId :: fc2 :: r2))
    (hfuel : reader.length + 1 ≤ fuel) :
    ∃ s1 reader1 s2 reader2,
      readRequests fuel s reader
        = .returned (s.slaveId :: fc1 :: r1) (s.slaveId :: fc1 :: r1).length none s1 reader1 ∧
      readRequests fuel s1 reader1
        = .returned (s.slaveId :: fc2 :: r2) (s.slaveId :: fc2 :: r2).length none s2 reader2 ∧
      readRequests fuel s2 reader2 = .returned [] 0 (some .eof) s2 [] := by
  have hs0 : seedOf s = [] := by unfold seedOf; rw [hlast]; rfl
  -- first call
  have hbuf1 : seedOf s ++ streamOf reader
      = s.slaveId :: fc1 :: (r1 ++ (s.slaveId :: fc2 :: r2)) := by
    rw [hs0, hstream]; rfl
  obtain ⟨c1, reader1, hrun1, hd1, hst1, hE1, hl1⟩ :=
    readRequests_split s reader s.slaveId fc1 (r1 ++ (s.slaveId :: fc2 :: r2))
      (s.slaveId :: fc1 :: r1).length fuel hdata (by rw [hs0]; simp) hbuf1 hk1
      (frame_size_stable _ _ _ _ hk1 hF1)
      (by simp only [List.length_cons, List.length_append]; omega) hL1 hfuel
  rw [hs0, List.nil_append] at hrun1 hE1
  have htake1 : (s.slaveId :: fc1 :: (r1 ++ (s.slaveId :: fc2 :: r2))).take
      (s.slaveId :: fc1 :: r1).length = s.slaveId :: fc1 :: r1 := by
    have : s.slaveId :: fc1 :: (r1 ++ (s.slaveId :: fc2 :: r2))
        = (s.slaveId :: fc1 :: r1) ++ (s.slaveId :: fc2 :: r2) := rfl
    rw [this, List.take_append_of_le_length (Nat.le_refl _), List.take_length]
  rw [htake1] at hrun1
  -- what the first call leaves
  have hc1 : c1.take (s.slaveId :: fc1 :: r1).length = s.slaveId :: fc1 :: r1 := by
    have h := congrArg (List.take (s.slaveId :: fc1 :: r1).length) hstream
    rw [hst1, List.take_append_of_le_length hE1,
      List.take_append_of_le_length (Nat.le_refl _), List.take_length] at h
    exact h
  have hrest1 : c1.drop (s.slaveId :: fc1 :: r1).length ++ streamOf reader1
      = s.slaveId :: fc2 :: r2 := by
    have h := congrArg (List.drop (s.slaveId :: fc1 :: r1).length) hstream
    rw [hst1, List.drop_append_of_le_length hE1, List.drop_left] at h
    exact h
  -- second call
  have hseed2 := seedOf_prefix s (c1.drop (s.slaveId :: fc1 :: r1).length) fc2 r2
    (streamOf reader1) hrest1
  have hlen2 : (c1.drop (s.slaveId :: fc1 :: r1).length).length
      ≤ (s.slaveId :: fc2 :: r2).length := by
    rw [← hrest1, List.length_append]; omega
  have hL2' : (s.slaveId :: fc2 :: r2).length ≤ 259 := hL2
  obtain ⟨c2, reader2, hrun2, hd2, hst2, hE2, hl2⟩ :=
    readRequests_split { s with last := c1.drop (s.slaveId :: fc1 :: r1).length } reader1
      s.slaveId fc2 r2 (s.slaveId :: fc2 :: r2).length fuel hd1
      (by rw [hseed2]; omega) (by rw [hseed2]; exact hrest1) hk2 hF2 (Nat.le_refl _) hL2
      (by omega)
  rw [hseed2, List.take_length] at hrun2
  rw [hseed2] at hE2
  have hall : c1.drop (s.slaveId :: fc1 :: r1).length ++ c2 ++ streamOf reader2
      = s.slaveId :: fc2 :: r2 := by
    rw [List.append_assoc, ← hst2]; exact hrest1
  have hlenall := congrArg List.length hall
  rw [List.length_append] at hlenall
  have hstream2 : streamOf reader2 = [] := List.eq_nil_of_length_eq_zero (by omega)
  have hlast2 : (c1.drop (s.slaveId :: fc1 :: r1).length ++ c2).drop
      (s.slaveId :: fc2 :: r2).length = [] := List.drop_of_length_le (by omega)
  rw [hlast2] at hrun2
  refine ⟨_, reader1, _, reader2, hrun1, hrun2, ?_⟩
  exact readRequests_exhausted _ reader2 fuel rfl hd2 hstream2 (by omega)

/-- Witness for C15 as amended: two read-holding-registers frames for slave id
255, delivered in three chunks. -/
theorem read_requests_consecutive_frames_witness :
    ((⟨255, [], [], [], [], []⟩ : Server).last = [] ∧
      ([ReadEvent.data [255, 3, 0], .data [12, 0, 2, 127, 128, 255, 3],
          .data [0, 13, 0, 1, 5, 6]] : Reader).all ReadEvent.isData = true ∧
      knownFunction 3 ∧
      getRTUSizeFromHeader (255 :: 3 :: [0, 12, 0, 2, 127, 128])
        = some ((255 :: 3 :: [0, 12, 0, 2, 127, 128]).length, none) ∧
      getRTUSizeFromHeader (255 :: 3 :: [0, 13, 0, 1, 5, 6])
        = some ((255 :: 3 :: [0, 13, 0, 1, 5, 6]).length, none) ∧
      (255 :: 3 :: [0, 12, 0, 2, 127, 128]).length ≤ max_ADU_RTU + 3 ∧
      (255 :: 3 :: [0, 13, 0, 1, 5, 6]).length ≤ max_ADU_RTU + 3 ∧
      streamOf [.data [255, 3, 0], .data [12, 0, 2, 127, 128, 255, 3], .data [0, 13, 0, 1, 5, 6]]
        = (255 :: 3 :: [0, 12, 0, 2, 127, 128]) ++ (255 :: 3 :: [0, 13, 0, 1, 5, 6])) ∧
    ∃ s1 reader1 s2 reader2,
      readRequests 4 ⟨255, [], [], [], [], []⟩
          [.data [255, 3, 0], .data [12, 0, 2, 127, 128, 255, 3], .data [0, 13, 0, 1, 5, 6]]
        = .returned (255 :: 3 :: [0, 12, 0, 2, 127, 128])
            (255 :: 3 :: [0, 12, 0, 2, 127, 128]).length none s1 reader1 ∧
      readRequests 4 s1 reader1
        = .returned (255 :: 3 :: [0, 13, 0, 1, 5, 6])
            (255 :: 3 :: [0, 13, 0, 1, 5, 6]).length none s2 reader2 ∧
      readRequests 4 s2 reader2 = .returned [] 0 (some .eof) s2 [] :=
  ⟨by decide,
    read_requests_consecutive_frames ⟨255, [], [], [], [], []⟩
      [.data [255, 3, 0], .data [12, 0, 2, 127, 128, 255, 3], .data [0, 13, 0, 1, 5, 6]]
      3 3 [0, 12, 0, 2, 127, 128] [0, 13, 0, 1, 5, 6] 4 rfl (by decide) (by decide) (by decide)
      (by decide) (by decide) (by decide) (by decide) (by decide) (by decide)⟩

set_option maxRecDepth 100000 in
/-- C15 fails as stated. With the bytes `01 03` before two frames `F` for slave
id 255, the first call returns the eight bytes `01 03 FF 03 00 0C 00 02` with
nil error and the second returns `F`: the first frame is never returned. With
`01 03` between the frames, arriving in a second chunk, the calls return `F`
and then `01 03 FF 03 00 0C 00 02`, and the third call returns `io.EOF`: the
second frame is never returned. And a first frame of 264 bytes, the size the
sizer computes from its function-16 header, is never returned at all: the call
does not end. -/
theorem read_requests_garbage_is_framed :
    readRequests 2 ⟨255, [], [], [], [], []⟩
        [.data ([1, 3] ++ [255, 3, 0, 12, 0, 2, 127, 128] ++ [255, 3, 0, 12, 0, 2, 127, 128])]
      = .returned [1, 3, 255, 3, 0, 12, 0, 2] 8 none
          ⟨255, [], [], [], [], [127, 128, 255, 3, 0, 12, 0, 2, 127, 128]⟩ [] ∧
    readRequests 2 ⟨255, [], [], [], [], [127, 128, 255, 3, 0, 12, 0, 2, 127, 128]⟩ []
      = .returned [255, 3, 0, 12, 0, 2, 127, 128] 8 none ⟨255, [], [], [], [], []⟩ [] ∧
    readRequests 2 ⟨255, [], [], [], [], []⟩ []
      = .returned [] 0 (some .eof) ⟨255, [], [], [], [], []⟩ [] ∧
    readRequests 3 ⟨255, [], [], [], [], []⟩
        [.data [255, 3, 0, 12, 0, 2, 127, 128],
          .data ([1, 3] ++ [255, 3, 0, 12, 0, 2, 127, 128])]
      = .returned [255, 3, 0, 12, 0, 2, 127, 128] 8 none ⟨255, [], [], [], [], []⟩
          [.data ([1, 3] ++ [255, 3, 0, 12, 0, 2, 127, 128])] ∧
    readRequests 3 ⟨255, [], [], [], [], []⟩
        [.data ([1, 3] ++ [255, 3, 0, 12, 0, 2, 127, 128])]
      = .returned [1, 3, 255, 3, 0, 12, 0, 2] 8 none ⟨255, [], [], [], [], [127, 128]⟩ [] ∧
    readRequests 3 ⟨255, [], [], [], [], [127, 128]⟩ []
      = .returned [] 0 (some .eof) ⟨255, [], [], [], [], []⟩ [] ∧
    (∀ fuel, readRequests fuel ⟨255, [], [], [], [], []⟩
        [.data (255 :: 16 :: 0 :: 0 :: 0 :: 125 :: 255 ::
          (List.replicate 257 0 ++ [255, 3, 0, 12, 0, 2, 127, 128]))] = .outOfFuel) ∧
    getRTUSizeFromHeader (255 :: 16 :: 0 :: 0 :: 0 :: 125 :: 255 :: List.replicate 257 0)
      = some ((255 :: 16 :: 0 :: 0 :: 0 :: 125 :: 255 :: List.replicate 257 0).length, none) ∧
    (255 :: 16 :: 0 :: 0 :: 0 :: 125 :: 255 :: List.replicate 257 0).length = 264 := by
  refine ⟨by decide, by decide, by decide, by decide, by decide, by decide, ?_, by decide,
    by decide⟩
  exact readRequests_oversized _ 255 0 0 0 125
    (List.replicate 257 0 ++ [255, 3, 0, 12, 0, 2, 127, 128]) rfl
    (by rw [List.length_append, List.length_replicate]; decide)

theorem referenceRTUSize_cons (d fc : Nat) (rest : List Nat) :
    referenceRTUSize (d :: fc :: rest) =
      if fc = 1 ∨ fc = 2 ∨ fc = 3 ∨ fc = 4 ∨ fc = 5 ∨ fc = 6 then .ok 8
      else if fc = 7 ∨ fc = 11 ∨ fc = 12 ∨ fc = 17 then .ok 4
      else if fc = 24 then .ok 6
      else if fc = 43 then .ok 7
      else if fc = 22 then .ok 10
      else if fc = 15 ∨ fc = 16 then
        .ok (3 + if 5 ≤ rest.length then rest.getD 4 0 + 6 else 253)
      else if fc = 21 then
        .ok (3 + if 1 ≤ rest.length then rest.getD 0 0 + 2 else 253)
      else if fc = 23 then
        .ok (3 + if 9 ≤ rest.length then rest.getD 8 0 + 10 else 253)
      else .error .unsupportedFunction := by
  have hlen : ¬ (d :: fc :: rest).length < 2 := by simp
  have h5 : ((fc :: rest).length > 5) = (5 ≤ rest.length) := by
    simp only [List.length_cons, eq_iff_iff]; omega
  have h2 : ((fc :: rest).length ≥ 2) = (1 ≤ rest.length) := by
    simp only [List.length_cons, eq_iff_iff]; omega
  have h10 : ((fc :: rest).length ≥ 10) = (9 ≤ rest.length) := by
    simp only [List.length_cons, eq_iff_iff]; omega
  unfold referenceRTUSize
  rw [if_neg hlen]
  simp only [List.drop_succ_cons, List.drop_zero, List.getD_cons_succ, List.getD_cons_zero,
    h5, h2, h10]

/-- C21: `getRTUSizeFromHeader` equals the reference sizing function: where the
reference gives a size the code returns that size with a nil error, and where
the reference gives the unsupported-function error the code returns that error
(with the size 3). -/
theorem getRTUSizeFromHeader_eq_reference (header : List Nat) :
    getRTUSizeFromHeader header =
      match referenceRTUSize header with
      | .ok n => some (n, none)
      | .error e => some (3, some e) := by
  match header with
  | [] => rfl
  | [a] => rfl
  | d :: fc :: rest =>
    rw [getRTUSizeFromHeader_cons, referenceRTUSize_cons]
    by_cases h1 : fc = 1 ∨ fc = 2 ∨ fc = 3 ∨ fc = 4 ∨ fc = 5 ∨ fc = 6
    · simp only [if_pos h1]
    by_cases h2 : fc = 15 ∨ fc = 16
    · have a3 : ¬ (fc = 7 ∨ fc = 11 ∨ fc = 12 ∨ fc = 17) := by omega
      have a4 : ¬ fc = 24 := by omega
      have a5 : ¬ fc = 43 := by omega
      have a6 : ¬ fc = 22 := by omega
      simp only [if_neg h1, if_pos h2, if_neg a3, if_neg a4, if_neg a5, if_neg a6]
      by_cases hl : 5 ≤ rest.length
      · simp only [if_pos hl]
        congr 2; omega
      · simp only [if_neg hl]
    by_cases h3 : fc = 7 ∨ fc = 11 ∨ fc = 12 ∨ fc = 17
    · simp only [if_neg h1, if_neg h2, if_pos h3]
    by_cases h4 : fc = 24
    · simp only [if_neg h1, if_neg h2, if_neg h3, if_pos h4]
    by_cases h5 : fc = 43
    · simp only [if_neg h1, if_neg h2, if_neg h3, if_neg h4, if_pos h5]
    by_cases h6 : fc = 22
    · simp only [if_neg h1, if_neg h2, if_neg h3, if_neg h4, if_neg h5, if_pos h6]
    by_cases h7 : fc = 21
    · simp only [if_neg h1, if_neg h2, if_neg h3, if_neg h4, if_neg h5, if_neg h6, if_pos h7]
      by_cases hl : 1 ≤ rest.length
      · simp only [if_pos hl]
        congr 2; omega
      · simp only [if_neg hl]
    by_cases h8 : fc = 23
    · simp only [if_neg h1, if_neg h2, if_neg h3, if_neg h4, if_neg h5, if_neg h6, if_neg h7,
        if_pos h8]
      by_cases hl : 9 ≤ rest.length
      · simp only [if_pos hl]
        congr 2; omega
      · simp only [if_neg hl]
    simp only [if_neg h1, if_neg h2, if_neg h3, if_neg h4, if_neg h5, if_neg h6, if_neg h7,
      if_neg h8]

theorem sizer_unknown (d fc : Nat) (rest : List Nat) (hk : ¬ knownFunction fc) :
    getRTUSizeFromHeader (d :: fc :: rest) = some (3, some .unsupportedFunction) := by
  simp only [knownFunction, List.mem_cons, List.mem_singleton, List.not_mem_nil, or_false,
    not_or] at hk
  rw [getRTUSizeFromHeader_cons, if_neg (by omega), if_neg (by omega), if_neg (by omega),
    if_neg (by omega), if_neg (by omega), if_neg (by omega), if_neg (by omega),
    if_neg (by omega)]

/-- Function `readRequests` when the seed taken from `last` has an unknown
function byte: the unsupported-function error is returned without a read, and
`last` becomes `req[n:read]` for the index `n` that `find` returns on
`req[1:read]`, or stays empty when the slave id is not found there. -/
theorem readRequests_unsupported (s : Server) (reader : Reader) (fuel d fc : Nat)
    (rest : List Nat) (hseed : seedOf s = d :: fc :: rest) (hlen : (seedOf s).length ≤ 259)
    (hk : ¬ knownFunction fc) :
    readRequests fuel s reader =
      .returned [] (seedOf s).length (some .unsupportedFunction)
        { s with last := if (find s.slaveId (fc :: rest)).2 = none
            then (seedOf s).drop (find s.slaveId (fc :: rest)).1 else [] } reader := by
  have hreq0 : (List.replicate (max_ADU_RTU + 3) 0).length = 259 := by
    rw [List.length_replicate]; rfl
  have hseedreq := seedRequest_spec s (List.replicate (max_ADU_RTU + 3) 0) (by omega)
  have hlen1 : (seedOf s ++ (List.replicate (max_ADU_RTU + 3) 0).drop (seedOf s).length).length
      = 259 := by
    rw [List.length_append, List.length_drop, hreq0]; omega
  have htake : (seedOf s ++ (List.replicate (max_ADU_RTU + 3) 0).drop (seedOf s).length).take
      (seedOf s).length = seedOf s := by
    rw [List.take_append_of_le_length (Nat.le_refl _), List.take_length]
  have hsl : ∀ n, n ≤ (seedOf s).length → sliceRange
      (seedOf s ++ (List.replicate (max_ADU_RTU + 3) 0).drop (seedOf s).length) n
      (seedOf s).length = some ((seedOf s).drop n) := by
    intro n hn
    unfold sliceRange
    rw [if_pos ⟨hn, by omega⟩, htake]
  have hl2 : (seedOf s).length = rest.length + 2 := by rw [hseed]; rfl
  have hsz : getRTUSizeFromHeader (seedOf s) = some (3, some .unsupportedFunction) := by
    rw [hseed]; exact sizer_unknown d fc rest hk
  have htail : (seedOf s).drop 1 = fc :: rest := by rw [hseed]; rfl
  have hfind : find s.slaveId (fc :: rest) = findLoop s.slaveId (fc :: rest) 0 := by
    unfold find
    rw [if_neg (by simp)]
  unfold readRequests
  simp only [hseedreq, hsl 0 (Nat.zero_le _), List.drop_zero, hsz, hsl 1 (by omega), htail]
  rcases findLoop_spec s.slaveId (fc :: rest) 0 with ⟨m, h1, h2, _⟩ | ⟨e, h1, _⟩
  · rw [hfind, h1]
    simp only [List.length_cons] at h2
    simp only [hsl (0 + m) (by omega), if_true]
  · rw [hfind, h1]
    simp

set_option maxRecDepth 100000 in
/-- C22, evaluated on the code: for slave id 255 and an empty `last`, a reader
that delivers `FF 24 63 01` has the unknown function byte `0x24` after the
device byte, yet `readRequests` returns the three bytes `FF 24 63` as a frame
with nil error. When the same bytes are carried over in `last` the
unsupported-function error is returned and no frame. -/
theorem read_requests_unknown_function_from_reader :
    readRequests 2 ⟨255, [], [], [], [], []⟩ [.data [255, 36, 99, 1]]
      = .returned [255, 36, 99] 3 none ⟨255, [], [], [], [], [1]⟩ [] ∧
    ¬ knownFunction 36 ∧
    ∀ fuel reader, readRequests fuel ⟨255, [], [], [], [], [255, 36, 99, 1]⟩ reader
      = .returned [] 4 (some .unsupportedFunction) ⟨255, [], [], [], [], []⟩ reader := by
  refine ⟨by decide, by decide, ?_⟩
  intro fuel reader
  exact readRequests_unsupported ⟨255, [], [], [], [], [255, 36, 99, 1]⟩ reader fuel 255 36
    [99, 1] (by decide) (by decide) (by decide)

/-- C23, evaluated on the code: for slave id 255 and the buffer
`FF 24 63 FF 03 00 0C 00 02 7F 80`, whose first slave id at a position `≥ 1` is
at position 3, the unsupported-function error is returned with
`last = 63 FF 03 00 0C 00 02 7F 80`: `last` is the suffix from position 2, and
`last[0]` is not the slave id. -/
theorem read_requests_residual_starts_before_slave_id :
    ∀ fuel reader,
      readRequests fuel ⟨255, [], [], [], [], [255, 36, 99, 255, 3, 0, 12, 0, 2, 127, 128]⟩ reader
        = .returned [] 11 (some .unsupportedFunction)
            ⟨255, [], [], [], [], [99, 255, 3, 0, 12, 0, 2, 127, 128]⟩ reader := by
  intro fuel reader
  exact readRequests_unsupported
    ⟨255, [], [], [], [], [255, 36, 99, 255, 3, 0, 12, 0, 2, 127, 128]⟩ reader fuel 255 36
    [99, 255, 3, 0, 12, 0, 2, 127, 128] (by decide) (by decide) (by decide)

/-- C24, evaluated on the code: a function-16 header with byte count 255 is
sized 264 and a function-23 header with byte count 255 is sized 268, both more
than the 259 bytes of the working buffer; on the first, `readRequests` fills
the buffer and its loop never ends. -/
theorem sizer_exceeds_working_buffer :
    getRTUSizeFromHeader [255, 16, 0, 0, 0, 125, 255] = some (264, none) ∧
    getRTUSizeFromHeader [255, 23, 0, 0, 0, 1, 0, 0, 0, 125, 255] = some (268, none) ∧
    max_ADU_RTU + 3 = 259 ∧
    ∀ fuel, readRequests fuel ⟨255, [], [], [], [], []⟩
        [.data (255 :: 16 :: 0 :: 0 :: 0 :: 125 :: 255 :: List.replicate 253 0)] = .outOfFuel := by
  refine ⟨by decide, by decide, by decide, ?_⟩
  exact readRequests_oversized _ 255 0 0 0 125 (List.replicate 253 0) rfl
    (by rw [List.length_replicate])

/-- C27, evaluated on the code: for slave id 255 and `last = FF FF 03 00` the
call returns the unsupported-function error and leaves `last` and the reader
exactly as they were, for every reader: the residual `last` is as long as the
buffer examined, and repeated calls return the same error forever without
consuming input. -/
theorem read_requests_error_without_progress :
    ∀ fuel reader,
      readRequests fuel ⟨255, [], [], [], [], [255, 255, 3, 0]⟩ reader
        = .returned [] 4 (some .unsupportedFunction) ⟨255, [], [], [], [], [255, 255, 3, 0]⟩
            reader := by
  intro fuel reader
  exact readRequests_unsupported ⟨255, [], [], [], [], [255, 255, 3, 0]⟩ reader fuel 255 255
    [3, 0] (by decide) (by decide) (by decide)

theorem bitAtPosition_canonical (value pos : Nat) :
    bitAtPosition value pos = 0 ∨ bitAtPosition value pos = 1 := by
  unfold bitAtPosition
  rw [Nat.and_one_is_mod]
  omega

theorem set_canonical (coils : List Nat) (i v : Nat) (hv : v = 0 ∨ v = 1)
    (hc : ∀ b ∈ coils, b = 0 ∨ b = 1) : ∀ b ∈ coils.set i v, b = 0 ∨ b = 1 := by
  intro b hb
  rcases List.mem_or_eq_of_mem_set hb with h | h
  · exact hc b h
  · rw [h]; exact hv

/-- Every run of the inner loop of `WriteMultipleCoils` that does not panic
keeps the length of the coil table and keeps its bytes in `{0, 1}`. -/
theorem writeBits_inv (register numRegs i value : Nat) :
    ∀ (remaining bitPos : Nat) (coils : List Nat) (bitCount : Nat) (r : List Nat) (bc : Nat),
      writeBits register numRegs i value remaining bitPos coils bitCount = some (r, bc) →
      r.length = coils.length ∧
      ((∀ b ∈ coils, b = 0 ∨ b = 1) → ∀ b ∈ r, b = 0 ∨ b = 1) := by
  intro remaining
  induction remaining with
  | zero =>
    intro bitPos coils bitCount r bc h
    simp only [writeBits, Option.some.injEq, Prod.mk.injEq] at h
    obtain ⟨rfl, _⟩ := h
    exact ⟨rfl, fun hc => hc⟩
  | succ n ih =>
    intro bitPos coils bitCount r bc h
    unfold writeBits at h
    by_cases hidx : register + i * 8 + bitPos < coils.length
    · simp only [setIndex, if_pos hidx] at h
      by_cases hdone : bitCount + 1 ≥ numRegs
      · rw [if_pos hdone] at h
        simp only [Option.some.injEq, Prod.mk.injEq] at h
        obtain ⟨rfl, _⟩ := h
        exact ⟨by simp, set_canonical _ _ _ (bitAtPosition_canonical _ _)⟩
      · rw [if_neg hdone] at h
        obtain ⟨h1, h2⟩ := ih _ _ _ _ _ h
        refine ⟨by simpa using h1, fun hc => h2 ?_⟩
        exact set_canonical _ _ _ (bitAtPosition_canonical _ _) hc
    · simp [setIndex, if_neg hidx] at h

/-- Every run of the outer loop of `WriteMultipleCoils` that does not panic
keeps the length of the coil table and keeps its bytes in `{0, 1}`. -/
theorem writeCoils_inv (register numRegs : Nat) (vals : List Nat) :
    ∀ (i : Nat) (coils : List Nat) (bitCount : Nat) (r : List Nat),
      writeCoils register numRegs vals i coils bitCount = some r →
      r.length = coils.length ∧
      ((∀ b ∈ coils, b = 0 ∨ b = 1) → ∀ b ∈ r, b = 0 ∨ b = 1) := by
  induction vals with
  | nil =>
    intro i coils bitCount r h
    simp only [writeCoils, Option.some.injEq] at h
    subst h
    exact ⟨rfl, fun hc => hc⟩
  | cons value rest ih =>
    intro i coils bitCount r h
    unfold writeCoils at h
    cases hw : writeBits register numRegs i value 8 0 coils bitCount with
    | none => simp [hw] at h
    | some p =>
      obtain ⟨c1, bc1⟩ := p
      obtain ⟨h1, h2⟩ := writeBits_inv register numRegs i value 8 0 coils bitCount c1 bc1 hw
      simp only [hw] at h
      by_cases hdone : bc1 ≥ numRegs
      · rw [if_pos hdone] at h
        simp only [Option.some.injEq] at h
        subst h
        exact ⟨h1, h2⟩
      · rw [if_neg hdone] at h
        obtain ⟨h3, h4⟩ := ih _ _ _ _ h
        exact ⟨by omega, fun hc => h4 (h2 hc)⟩

theorem copyInto_length (table : List Nat) (off hi : Nat) (src : List Nat) (n : Nat)
    (t1 : List Nat) (h : copyInto table off hi src = some (n, t1)) :
    t1.length = table.length := by
  unfold copyInto at h
  by_cases hc : off ≤ hi ∧ hi ≤ table.length
  · rw [if_pos hc] at h
    simp only [Option.some.injEq, Prod.mk.injEq] at h
    obtain ⟨hn, rfl⟩ := h
    simp only [List.length_append, List.length_take, List.length_drop]
    omega
  · simp [if_neg hc] at h

theorem readCoils_server (s : Server) (frame : Framer) (resp : List Nat) (e : Exception)
    (s1 : Server) (h : ReadCoils s frame = some (resp, e, s1)) : s1 = s := by
  unfold ReadCoils at h
  repeat' split at h
  all_goals simp_all

theorem readDiscreteInputs_server (s : Server) (frame : Framer) (resp : List Nat)
    (e : Exception) (s1 : Server) (h : ReadDiscreteInputs s frame = some (resp, e, s1)) :
    s1 = s := by
  unfold ReadDiscreteInputs at h
  repeat' split at h
  all_goals simp_all

theorem readHoldingRegisters_server (s : Server) (frame : Framer) (resp : List Nat)
    (e : Exception) (s1 : Server) (h : ReadHoldingRegisters s frame = some (resp, e, s1)) :
    s1 = s := by
  unfold ReadHoldingRegisters at h
  repeat' split at h
  all_goals simp_all

theorem readInputRegisters_server (s : Server) (frame : Framer) (resp : List Nat)
    (e : Exception) (s1 : Server) (h : ReadInputRegisters s frame = some (resp, e, s1)) :
    s1 = s := by
  unfold ReadInputRegisters at h
  repeat' split at h
  all_goals simp_all

/-- What `WriteSingleCoil` can do to the server: only `Coils` changes, its
length stays, and its bytes stay in `{0, 1}`. -/
theorem writeSingleCoil_server (s : Server) (frame : Framer) (resp : List Nat) (e : Exception)
    (s1 : Server) (h : WriteSingleCoil s frame = some (resp, e, s1)) :
    s1 = { s with Coils := s1.Coils } ∧ s1.Coils.length = s.Coils.length ∧
    ((∀ b ∈ s.Coils, b = 0 ∨ b = 1) → ∀ b ∈ s1.Coils, b = 0 ∨ b = 1) := by
  unfold WriteSingleCoil at h
  cases hreq : RegisterAddressAndValue frame with
  | none => simp [hreq] at h
  | some p =>
    obtain ⟨register, value⟩ := p
    simp only [hreq] at h
    by_cases hr : ¬ (s.Coils.length > register)
    · rw [if_pos hr] at h
      simp only [Option.some.injEq, Prod.mk.injEq] at h
      obtain ⟨_, _, rfl⟩ := h
      exact ⟨rfl, rfl, fun hc => hc⟩
    · rw [if_neg hr] at h
      by_cases hv : value = 0 ∨ value = 65535
      · rw [if_pos hv] at h
        have hidx : register < s.Coils.length := by omega
        simp only [setIndex, if_pos hidx] at h
        cases hecho : sliceCap frame.GetData frame.Spare 0 4 with
        | none => simp [hecho] at h
        | some echo =>
          simp only [hecho, Option.some.injEq, Prod.mk.injEq] at h
          obtain ⟨_, _, rfl⟩ := h
          refine ⟨rfl, by simp, fun hc => set_canonical _ _ _ ?_ hc⟩
          split
          · exact Or.inl rfl
          · exact Or.inr rfl
      · rw [if_neg hv] at h
        simp only [Option.some.injEq, Prod.mk.injEq] at h
        obtain ⟨_, _, rfl⟩ := h
        exact ⟨rfl, rfl, fun hc => hc⟩

/-- What `WriteMultipleCoils` can do to the server: only `Coils` changes, its
length stays, and its bytes stay in `{0, 1}`. -/
theorem writeMultipleCoils_server (s : Server) (frame : Framer) (resp : List Nat)
    (e : Exception) (s1 : Server) (h : WriteMultipleCoils s frame = some (resp, e, s1)) :
    s1 = { s with Coils := s1.Coils } ∧ s1.Coils.length = s.Coils.length ∧
    ((∀ b ∈ s.Coils, b = 0 ∨ b = 1) → ∀ b ∈ s1.Coils, b = 0 ∨ b = 1) := by
  unfold WriteMultipleCoils at h
  cases hreq : RegisterAddressAndNumber frame with
  | none => simp [hreq] at h
  | some p =>
    obtain ⟨register, numRegs, endRegister⟩ := p
    simp only [hreq] at h
    cases hval : sliceFrom frame.GetData 5 with
    | none => simp [hval] at h
    | some valueBytes =>
      simp only [hval] at h
      by_cases hr : endRegister > s.Coils.length
      · rw [if_pos hr] at h
        simp only [Option.some.injEq, Prod.mk.injEq] at h
        obtain ⟨_, _, rfl⟩ := h
        exact ⟨rfl, rfl, fun hc => hc⟩
      · rw [if_neg hr] at h
        cases hw : writeCoils register numRegs valueBytes 0 s.Coils 0 with
        | none => simp [hw] at h
        | some coils =>
          obtain ⟨h1, h2⟩ := writeCoils_inv register numRegs valueBytes 0 s.Coils 0 coils hw
          simp only [hw] at h
          cases hecho : sliceCap frame.GetData frame.Spare 0 4 with
          | none => simp [hecho] at h
          | some echo =>
            simp only [hecho, Option.some.injEq, Prod.mk.injEq] at h
            obtain ⟨_, _, rfl⟩ := h
            exact ⟨rfl, h1, h2⟩

/-- What `WriteHoldingRegister` can do to the server: only `HoldingRegisters`
changes and its length stays. -/
theorem writeHoldingRegister_server (s : Server) (frame : Framer) (resp : List Nat)
    (e : Exception) (s1 : Server) (h : WriteHoldingRegister s frame = some (resp, e, s1)) :
    s1 = { s with HoldingRegisters := s1.HoldingRegisters } ∧
    s1.HoldingRegisters.length = s.HoldingRegisters.length := by
  unfold WriteHoldingRegister at h
  cases hreq : RegisterAddressAndValue frame with
  | none => simp [hreq] at h
  | some p =>
    obtain ⟨register, value⟩ := p
    simp only [hreq] at h
    by_cases hr : (register + 1) * 2 > s.HoldingRegisters.length
    · rw [if_pos hr] at h
      simp only [Option.some.injEq, Prod.mk.injEq] at h
      obtain ⟨_, _, rfl⟩ := h
      exact ⟨rfl, rfl⟩
    · rw [if_neg hr] at h
      cases hcp : copyInto s.HoldingRegisters (register * 2) ((register + 1) * 2)
          (Uint16ToBytes [value]) with
      | none => simp [hcp] at h
      | some q =>
        obtain ⟨n, regs⟩ := q
        have hl := copyInto_length _ _ _ _ _ _ hcp
        simp only [hcp] at h
        cases hecho : sliceCap frame.GetData frame.Spare 0 4 with
        | none => simp [hecho] at h
        | some echo =>
          simp only [hecho, Option.some.injEq, Prod.mk.injEq] at h
          obtain ⟨_, _, rfl⟩ := h
          exact ⟨rfl, hl⟩

/-- What `WriteHoldingRegisters` can do to the server: only `HoldingRegisters`
changes and its length stays. -/
theorem writeHoldingRegisters_server (s : Server) (frame : Framer) (resp : List Nat)
    (e : Exception) (s1 : Server) (h : WriteHoldingRegisters s frame = some (resp, e, s1)) :
    s1 = { s with HoldingRegisters := s1.HoldingRegisters } ∧
    s1.HoldingRegisters.length = s.HoldingRegisters.length := by
  unfold WriteHoldingRegisters at h
  cases hreq : RegisterAddressAndNumber frame with
  | none => simp [hreq] at h
  | some p =>
    obtain ⟨register, numRegs, endRegister⟩ := p
    simp only [hreq] at h
    cases hval : sliceFrom frame.GetData 5 with
    | none => simp [hval] at h
    | some valueBytes =>
      simp only [hval] at h
      by_cases h1 : valueBytes.length / 2 ≠ numRegs
      · rw [if_pos h1] at h
        simp only [Option.some.injEq, Prod.mk.injEq] at h
        obtain ⟨_, _, rfl⟩ := h
        exact ⟨rfl, rfl⟩
      · rw [if_neg h1] at h
        by_cases h2 : endRegister * 2 > s.HoldingRegisters.length
        · rw [if_pos h2] at h
          simp only [Option.some.injEq, Prod.mk.injEq] at h
          obtain ⟨_, _, rfl⟩ := h
          exact ⟨rfl, rfl⟩
        · rw [if_neg h2] at h
          cases hcp : copyInto s.HoldingRegisters (2 * register) s.HoldingRegisters.length
              valueBytes with
          | none => simp [hcp] at h
          | some q =>
            obtain ⟨n, regs⟩ := q
            have hl := copyInto_length _ _ _ _ _ _ hcp
            simp only [hcp] at h
            by_cases h3 : n = numRegs * 2
            · rw [if_pos h3] at h
              cases hecho : sliceCap frame.GetData frame.Spare 0 4 with
              | none => simp [hecho] at h
              | some echo =>
                simp only [hecho, Option.some.injEq, Prod.mk.injEq] at h
                obtain ⟨_, _, rfl⟩ := h
                exact ⟨rfl, hl⟩
            · rw [if_neg h3] at h
              simp only [Option.some.injEq, Prod.mk.injEq] at h
              obtain ⟨_, _, rfl⟩ := h
              exact ⟨rfl, hl⟩

theorem sliceCap_within (xs spare : List Nat) (lo hi : Nat) (h : hi ≤ xs.length) :
    sliceCap xs spare lo hi = sliceRange xs lo hi := by
  unfold sliceCap sliceRange
  by_cases hlo : lo ≤ hi
  · rw [if_pos ⟨hlo, by omega⟩, if_pos ⟨hlo, h⟩, List.take_append_of_le_length h]
  · rw [if_neg (fun hh => hlo hh.1), if_neg (fun hh => hlo hh.1)]

theorem sliceCap_nil (xs : List Nat) (lo hi : Nat) :
    sliceCap xs [] lo hi = sliceRange xs lo hi := by
  simp [sliceCap, sliceRange]

theorem registerAddressAndNumber_none (frame : Framer) :
    RegisterAddressAndNumber frame = none ↔ frame.Data.length + frame.Spare.length < 4 := by
  unfold RegisterAddressAndNumber Framer.GetData
  rw [← List.length_append]
  generalize frame.Data ++ frame.Spare = l
  rcases l with _ | ⟨a, _ | ⟨b, _ | ⟨c, _ | ⟨d, t⟩⟩⟩⟩ <;> simp

theorem registerAddressAndNumber_end (frame : Framer) (register numRegs endRegister : Nat)
    (h : RegisterAddressAndNumber frame = some (register, numRegs, endRegister)) :
    endRegister = register + numRegs := by
  unfold RegisterAddressAndNumber at h
  split at h
  · simp only [Option.some.injEq, Prod.mk.injEq] at h
    obtain ⟨rfl, rfl, rfl⟩ := h
    rfl
  · cases h

theorem registerAddressAndValue_none (frame : Framer) :
    RegisterAddressAndValue frame = none ↔ frame.Data.length + frame.Spare.length < 4 := by
  unfold RegisterAddressAndValue Framer.GetData
  rw [← List.length_append]
  generalize frame.Data ++ frame.Spare = l
  rcases l with _ | ⟨a, _ | ⟨b, _ | ⟨c, _ | ⟨d, t⟩⟩⟩⟩ <;> simp

theorem sliceCap_echo (frame : Framer) (h : 4 ≤ frame.Data.length + frame.Spare.length) :
    sliceCap frame.GetData frame.Spare 0 4 = some ((frame.Data ++ frame.Spare).take 4) := by
  simp [sliceCap, Framer.GetData, h]

/-- The read loop of `ReadCoils` and `ReadDiscreteInputs` does not panic on a
range within the table. -/
theorem readBits_returns (table : List Nat) (register numRegs : Nat)
    (h : register + numRegs ≤ table.length) :
    ∃ data, readBits table register numRegs (register + numRegs) = some data := by
  obtain ⟨body, hb, -⟩ := readBits_spec table register numRegs h
  exact ⟨_, hb⟩

theorem readCoils_none (s : Server) (frame : Framer) :
    ReadCoils s frame = none ↔ frame.Data.length + frame.Spare.length < 4 := by
  rw [← registerAddressAndNumber_none]
  unfold ReadCoils
  cases hreq : RegisterAddressAndNumber frame with
  | none => simp
  | some p =>
    obtain ⟨register, numRegs, endRegister⟩ := p
    obtain rfl := registerAddressAndNumber_end frame _ _ _ hreq
    simp only
    by_cases hr : register + numRegs > s.Coils.length
    · simp [if_pos hr]
    · obtain ⟨data, hd⟩ := readBits_returns s.Coils register numRegs (by omega)
      simp [if_neg hr, hd]

theorem readDiscreteInputs_none (s : Server) (frame : Framer) :
    ReadDiscreteInputs s frame = none ↔ frame.Data.length + frame.Spare.length < 4 := by
  rw [← registerAddressAndNumber_none]
  unfold ReadDiscreteInputs
  cases hreq : RegisterAddressAndNumber frame with
  | none => simp
  | some p =>
    obtain ⟨register, numRegs, endRegister⟩ := p
    obtain rfl := registerAddressAndNumber_end frame _ _ _ hreq
    simp only
    by_cases hr : register + numRegs > s.DiscreteInputs.length
    · simp [if_pos hr]
    · obtain ⟨data, hd⟩ := readBits_returns s.DiscreteInputs register numRegs (by omega)
      simp [if_neg hr, hd]

theorem readHoldingRegisters_none (s : Server) (frame : Framer) :
    ReadHoldingRegisters s frame = none ↔ frame.Data.length + frame.Spare.length < 4 := by
  rw [← registerAddressAndNumber_none]
  unfold ReadHoldingRegisters
  cases hreq : RegisterAddressAndNumber frame with
  | none => simp
  | some p =>
    obtain ⟨register, numRegs, endRegister⟩ := p
    obtain rfl := registerAddressAndNumber_end frame _ _ _ hreq
    simp only
    by_cases hr : (register + numRegs) * 2 > s.HoldingRegisters.length
    · simp [if_pos hr]
    · rw [if_neg hr, sliceRange_eq _ _ _ (by omega) (by omega)]
      simp

theorem readInputRegisters_none (s : Server) (frame : Framer) :
    ReadInputRegisters s frame = none ↔ frame.Data.length + frame.Spare.length < 4 := by
  rw [← registerAddressAndNumber_none]
  unfold ReadInputRegisters
  cases hreq : RegisterAddressAndNumber frame with
  | none => simp
  | some p =>
    obtain ⟨register, numRegs, endRegister⟩ := p
    obtain rfl := registerAddressAndNumber_end frame _ _ _ hreq
    simp only
    by_cases hr : (register + numRegs) * 2 > s.InputRegisters.length
    · simp [if_pos hr]
    · rw [if_neg hr, sliceRange_eq _ _ _ (by omega) (by omega)]
      simp

theorem writeSingleCoil_none (s : Server) (frame : Framer) :
    WriteSingleCoil s frame = none ↔ frame.Data.length + frame.Spare.length < 4 := by
  by_cases hcap : frame.Data.length + frame.Spare.length < 4
  · have h := (registerAddressAndValue_none frame).mpr hcap
    simp [WriteSingleCoil, h, hcap]
  · have hecho := sliceCap_echo frame (by omega)
    have hne : RegisterAddressAndValue frame ≠ none :=
      fun h => hcap ((registerAddressAndValue_none frame).mp h)
    unfold WriteSingleCoil
    cases hreq : RegisterAddressAndValue frame with
    | none => exact absurd hreq hne
    | some p =>
      obtain ⟨register, value⟩ := p
      simp only
      by_cases hr : ¬ (s.Coils.length > register)
      · rw [if_pos hr]
        simp [hcap]
      · rw [if_neg hr]
        by_cases hv : value = 0 ∨ value = 65535
        · have hidx : register < s.Coils.length := by omega
          simp [if_pos hv, setIndex, hidx, hecho, hcap]
        · simp [if_neg hv, hcap]

theorem writeHoldingRegister_none (s : Server) (frame : Framer) :
    WriteHoldingRegister s frame = none ↔ frame.Data.length + frame.Spare.length < 4 := by
  by_cases hcap : frame.Data.length + frame.Spare.length < 4
  · have h := (registerAddressAndValue_none frame).mpr hcap
    simp [WriteHoldingRegister, h, hcap]
  · have hecho := sliceCap_echo frame (by omega)
    have hne : RegisterAddressAndValue frame ≠ none :=
      fun h => hcap ((registerAddressAndValue_none frame).mp h)
    unfold WriteHoldingRegister
    cases hreq : RegisterAddressAndValue frame with
    | none => exact absurd hreq hne
    | some p =>
      obtain ⟨register, value⟩ := p
      simp only
      by_cases hr : (register + 1) * 2 > s.HoldingRegisters.length
      · simp [if_pos hr, hcap]
      · have hb : register * 2 ≤ (register + 1) * 2 ∧
            (register + 1) * 2 ≤ s.HoldingRegisters.length := by omega
        simp [if_neg hr, copyInto, hb, hecho, hcap]

/-- The write loop of `WriteMultipleCoils` does not panic when the quantity is
at least 1 and the range lies within the table, whatever the length of the
payload. -/
theorem writeCoils_returns (register numRegs : Nat) (vals : List Nat) :
    ∀ (i : Nat) (coils : List Nat),
      8 * i < numRegs → register + numRegs ≤ coils.length →
      ∃ r, writeCoils register numRegs vals i coils (8 * i) = some r := by
  induction vals with
  | nil => intro i coils _ _; exact ⟨coils, rfl⟩
  | cons value rest ih =>
    intro i coils h1 hlen
    obtain ⟨c1, bc, hw, hbc, hc1l, -⟩ := writeBits_spec register numRegs i value 8 0 coils
      (8 * i) (by omega) (by omega) (fun _ => h1) hlen
    rw [if_neg (by decide)] at hbc
    unfold writeCoils
    rw [hw]
    simp only
    by_cases hdone : bc ≥ numRegs
    · rw [if_pos hdone]
      exact ⟨c1, rfl⟩
    · rw [if_neg hdone]
      have hbc8 : bc = 8 * (i + 1) := by omega
      rw [hbc8]
      exact ih (i + 1) c1 (by omega) (by omega)

/-- The write loop of `WriteMultipleCoils` with quantity 0 and a non-empty
payload stores one bit at `Coils[register]`: it panics exactly when `register`
is not an index of the table. -/
theorem writeCoils_zero (register value : Nat) (rest coils : List Nat) :
    writeCoils register 0 (value :: rest) 0 coils 0 = none ↔ ¬ register < coils.length := by
  unfold writeCoils writeBits
  by_cases h : register < coils.length
  · simp [setIndex, h]
  · simp [setIndex, h]

theorem writeHoldingRegisters_none (s : Server) (frame : Framer) :
    WriteHoldingRegisters s frame = none ↔ frame.Data.length < 5 := by
  by_cases hlen : frame.Data.length < 5
  · have hsl : sliceFrom frame.GetData 5 = none := by
      simp [sliceFrom, Framer.GetData, hlen]
    unfold WriteHoldingRegisters
    cases hreq : RegisterAddressAndNumber frame with
    | none => simp [hlen]
    | some p => simp [hsl, hlen]
  · have hsl : sliceFrom frame.GetData 5 = some (frame.Data.drop 5) := by
      simp [sliceFrom, Framer.GetData]
      omega
    have hecho := sliceCap_echo frame (by omega)
    have hne : RegisterAddressAndNumber frame ≠ none := fun h => by
      have := (registerAddressAndNumber_none frame).mp h
      omega
    unfold WriteHoldingRegisters
    cases hreq : RegisterAddressAndNumber frame with
    | none => exact absurd hreq hne
    | some p =>
      obtain ⟨register, numRegs, endRegister⟩ := p
      obtain rfl := registerAddressAndNumber_end frame _ _ _ hreq
      simp only [hsl]
      by_cases h1 : (frame.Data.drop 5).length / 2 ≠ numRegs
      · rw [if_pos h1]
        simp [hlen]
      · rw [if_neg h1]
        by_cases h2 : (register + numRegs) * 2 > s.HoldingRegisters.length
        · rw [if_pos h2]
          simp [hlen]
        · rw [if_neg h2]
          have hb : 2 * register ≤ s.HoldingRegisters.length ∧
              s.HoldingRegisters.length ≤ s.HoldingRegisters.length := by omega
          simp only [copyInto, if_pos hb, hecho]
          split <;> simp [hlen]

theorem writeMultipleCoils_none (s : Server) (frame : Framer) :
    WriteMultipleCoils s frame = none ↔
      frame.Data.length < 5 ∨
      (5 < frame.Data.length ∧
        RegisterAddressAndNumber frame = some (s.Coils.length, 0, s.Coils.length)) := by
  by_cases hlen : frame.Data.length < 5
  · have hsl : sliceFrom frame.GetData 5 = none := by
      simp [sliceFrom, Framer.GetData, hlen]
    unfold WriteMultipleCoils
    cases hreq : RegisterAddressAndNumber frame with
    | none => simp [hlen]
    | some p => simp [hsl, hlen]
  · have hsl : sliceFrom frame.GetData 5 = some (frame.Data.drop 5) := by
      simp [sliceFrom, Framer.GetData]
      omega
    have hecho := sliceCap_echo frame (by omega)
    have hne : RegisterAddressAndNumber frame ≠ none := fun h => by
      have := (registerAddressAndNumber_none frame).mp h
      omega
    unfold WriteMultipleCoils
    cases hreq : RegisterAddressAndNumber frame with
    | none => exact absurd hreq hne
    | some p =>
      obtain ⟨register, numRegs, endRegister⟩ := p
      obtain rfl := registerAddressAndNumber_end frame _ _ _ hreq
      simp only [hsl]
      by_cases hr : register + numRegs > s.Coils.length
      · rw [if_pos hr]
        constructor
        · intro h; cases h
        · rintro (h | ⟨_, h⟩)
          · exact absurd h hlen
          · simp only [Option.some.injEq, Prod.mk.injEq] at h
            omega
      · rw [if_neg hr]
        by_cases hz : numRegs = 0
        · subst hz
          cases hv : frame.Data.drop 5 with
          | nil =>
            have hl5 : ¬ 5 < frame.Data.length := by
              have := congrArg List.length hv
              simp at this
              omega
            simp only [writeCoils, hecho]
            constructor
            · intro h; cases h
            · rintro (h | ⟨h, _⟩)
              · exact absurd h hlen
              · exact absurd h hl5
          | cons value rest =>
            have hl5 : 5 < frame.Data.length := by
              have := congrArg List.length hv
              simp at this
              omega
            by_cases hidx : register < s.Coils.length
            · have hw : ∃ r, writeCoils register 0 (value :: rest) 0 s.Coils 0 = some r := by
                cases hh : writeCoils register 0 (value :: rest) 0 s.Coils 0 with
                | none => exact absurd hidx ((writeCoils_zero register value rest s.Coils).mp hh)
                | some r => exact ⟨r, rfl⟩
              obtain ⟨r, hw⟩ := hw
              simp only [hw, hecho]
              constructor
              · intro h; cases h
              · rintro (h | ⟨_, h⟩)
                · exact absurd h hlen
                · simp only [Option.some.injEq, Prod.mk.injEq] at h
                  omega
            · have hw := (writeCoils_zero register value rest s.Coils).mpr hidx
              simp only [hw]
              constructor
              · intro _
                refine Or.inr ⟨hl5, ?_⟩
                have : register = s.Coils.length := by omega
                rw [this, Nat.add_zero]
              · intro _; trivial
        · obtain ⟨r, hw⟩ := writeCoils_returns register numRegs (frame.Data.drop 5) 0 s.Coils
            (by omega) (by omega)
          simp only [Nat.mul_zero] at hw
          simp only [hw, hecho]
          constructor
          · intro h; cases h
          · rintro (h | ⟨_, h⟩)
            · exact absurd h hlen
            · simp only [Option.some.injEq, Prod.mk.injEq] at h
              omega

/-- C25: coil canonical-value invariant. The bit that `WriteMultipleCoils`
stores is 0 or 1. For every server and every request frame, with data of any
length and any bytes within its capacity, a call of a default handler panics
only as follows: handlers 1 to 6 exactly when fewer than four bytes lie
within the capacity of the data, `WriteHoldingRegisters` exactly when the
data has fewer than five bytes, `WriteMultipleCoils` exactly when the data has
fewer than five bytes or the quantity is 0 at address `len(Coils)` with a
non-empty payload. On every other request the call returns, and if every byte
of `Coils` is 0 or 1 before the call, every byte of `Coils` is 0 or 1 after
it. -/
theorem coil_values_stay_canonical (s : Server) (frame : Framer) :
    (∀ value pos, bitAtPosition value pos = 0 ∨ bitAtPosition value pos = 1) ∧
    (∀ h ∈ [ReadCoils, ReadDiscreteInputs, ReadHoldingRegisters, ReadInputRegisters,
        WriteSingleCoil, WriteHoldingRegister],
      (h s frame = none ↔ frame.Data.length + frame.Spare.length < 4)) ∧
    (WriteHoldingRegisters s frame = none ↔ frame.Data.length < 5) ∧
    (WriteMultipleCoils s frame = none ↔
      frame.Data.length < 5 ∨
      (5 < frame.Data.length ∧
        RegisterAddressAndNumber frame = some (s.Coils.length, 0, s.Coils.length))) ∧
    ∀ h ∈ [ReadCoils, ReadDiscreteInputs, ReadHoldingRegisters, ReadInputRegisters,
        WriteSingleCoil, WriteHoldingRegister, WriteMultipleCoils, WriteHoldingRegisters],
      (∀ b ∈ s.Coils, b = 0 ∨ b = 1) →
      ∀ (resp : List Nat) (e : Exception) (s1 : Server), h s frame = some (resp, e, s1) →
      ∀ b ∈ s1.Coils, b = 0 ∨ b = 1 := by
  refine ⟨bitAtPosition_canonical, ?_, writeHoldingRegisters_none s frame,
    writeMultipleCoils_none s frame, ?_⟩
  · intro h hmem
    simp only [List.mem_cons, List.mem_singleton, List.not_mem_nil, or_false] at hmem
    rcases hmem with rfl | rfl | rfl | rfl | rfl | rfl
    · exact readCoils_none s frame
    · exact readDiscreteInputs_none s frame
    · exact readHoldingRegisters_none s frame
    · exact readInputRegisters_none s frame
    · exact writeSingleCoil_none s frame
    · exact writeHoldingRegister_none s frame
  · intro h hmem hc resp e s1 hrun
    simp only [List.mem_cons, List.mem_singleton, List.not_mem_nil, or_false] at hmem
    rcases hmem with rfl | rfl | rfl | rfl | rfl | rfl | rfl | rfl
    · rw [readCoils_server s frame resp e s1 hrun]; exact hc
    · rw [readDiscreteInputs_server s frame resp e s1 hrun]; exact hc
    · rw [readHoldingRegisters_server s frame resp e s1 hrun]; exact hc
    · rw [readInputRegisters_server s frame resp e s1 hrun]; exact hc
    · exact (writeSingleCoil_server s frame resp e s1 hrun).2.2 hc
    · have h1 := congrArg Server.Coils (writeHoldingRegister_server s frame resp e s1 hrun).1
      simp only at h1
      rw [h1]; exact hc
    · exact (writeMultipleCoils_server s frame resp e s1 hrun).2.2 hc
    · have h1 := congrArg Server.Coils (writeHoldingRegisters_server s frame resp e s1 hrun).1
      simp only [] at h1
      rw [h1]; exact hc

set_option maxRecDepth 100000 in
/-- Witness for C25: a `WriteSingleCoil` request with the three data bytes
`00 00 00`, cut from a packet of 512 zero bytes, on a table of three coils:
the fourth byte is read from the packet, the call returns and clears coil 0.
With it `WriteMultipleCoils` with payload `FF` for three coils at address 1 of
a five-coil table. -/
theorem coil_values_stay_canonical_witness :
    ((WriteSingleCoil ∈ [ReadCoils, ReadDiscreteInputs, ReadHoldingRegisters,
          ReadInputRegisters, WriteSingleCoil, WriteHoldingRegister, WriteMultipleCoils,
          WriteHoldingRegisters] ∧
        (∀ b ∈ ([1, 0, 1] : List Nat), b = 0 ∨ b = 1) ∧
        WriteSingleCoil ⟨255, [], [1, 0, 1], [], [], []⟩
            ⟨255, 5, [0, 0, 0], List.replicate 501 0⟩
          = some ([0, 0, 0, 0], .Success, ⟨255, [], [0, 0, 1], [], [], []⟩)) ∧
      ∀ b ∈ ([0, 0, 1] : List Nat), b = 0 ∨ b = 1) ∧
    ((WriteMultipleCoils ∈ [ReadCoils, ReadDiscreteInputs, ReadHoldingRegisters,
          ReadInputRegisters, WriteSingleCoil, WriteHoldingRegister, WriteMultipleCoils,
          WriteHoldingRegisters] ∧
        (∀ b ∈ ([0, 1, 0, 0, 1] : List Nat), b = 0 ∨ b = 1) ∧
        WriteMultipleCoils ⟨255, [], [0, 1, 0, 0, 1], [], [], []⟩
            ⟨255, 15, [0, 1, 0, 3, 1, 255], []⟩
          = some ([0, 1, 0, 3], .Success, ⟨255, [], [0, 1, 1, 1, 1], [], [], []⟩)) ∧
      ∀ b ∈ ([0, 1, 1, 1, 1] : List Nat), b = 0 ∨ b = 1) :=
  ⟨⟨⟨by simp, by decide, by decide⟩,
      (coil_values_stay_canonical ⟨255, [], [1, 0, 1], [], [], []⟩
        ⟨255, 5, [0, 0, 0], List.replicate 501 0⟩).2.2.2.2 WriteSingleCoil (by simp)
        (by decide) [0, 0, 0, 0] .Success ⟨255, [], [0, 0, 1], [], [], []⟩ (by decide)⟩,
    ⟨⟨by simp, by decide, by decide⟩,
      (coil_values_stay_canonical ⟨255, [], [0, 1, 0, 0, 1], [], [], []⟩
        ⟨255, 15, [0, 1, 0, 3, 1, 255], []⟩).2.2.2.2 WriteMultipleCoils (by simp)
        (by decide) [0, 1, 0, 3] .Success ⟨255, [], [0, 1, 1, 1, 1], [], [], []⟩
        (by decide)⟩⟩

/-- C26: each default handler changes at most its own table and never the
length of a table. For every server and every request frame, with data of any
length and any bytes within its capacity, a call of a default handler panics
only as follows: handlers 1 to 6 exactly when fewer than four bytes lie
within the capacity of the data, `WriteHoldingRegisters` exactly when the
data has fewer than five bytes, `WriteMultipleCoils` exactly when the data has
fewer than five bytes or the quantity is 0 at address `len(Coils)` with a
non-empty payload. On every other request the call returns, and then the four
read handlers leave the server as it was; `WriteSingleCoil` and
`WriteMultipleCoils` keep the length of `Coils` and leave the other three
tables as they were; `WriteHoldingRegister` and `WriteHoldingRegisters` keep
the length of `HoldingRegisters` and leave the other three tables as they
were. -/
theorem handlers_frame_effect (s : Server) (frame : Framer) :
    (∀ h ∈ [ReadCoils, ReadDiscreteInputs, ReadHoldingRegisters, ReadInputRegisters,
        WriteSingleCoil, WriteHoldingRegister],
      (h s frame = none ↔ frame.Data.length + frame.Spare.length < 4)) ∧
    (WriteHoldingRegisters s frame = none ↔ frame.Data.length < 5) ∧
    (WriteMultipleCoils s frame = none ↔
      frame.Data.length < 5 ∨
      (5 < frame.Data.length ∧
        RegisterAddressAndNumber frame = some (s.Coils.length, 0, s.Coils.length))) ∧
    (∀ h ∈ [ReadCoils, ReadDiscreteInputs, ReadHoldingRegisters, ReadInputRegisters],
      ∀ (resp : List Nat) (e : Exception) (s1 : Server),
        h s frame = some (resp, e, s1) → s1 = s) ∧
    (∀ h ∈ [WriteSingleCoil, WriteMultipleCoils],
      ∀ (resp : List Nat) (e : Exception) (s1 : Server), h s frame = some (resp, e, s1) →
        s1.Coils.length = s.Coils.length ∧ s1.DiscreteInputs = s.DiscreteInputs ∧
        s1.HoldingRegisters = s.HoldingRegisters ∧ s1.InputRegisters = s.InputRegisters) ∧
    (∀ h ∈ [WriteHoldingRegister, WriteHoldingRegisters],
      ∀ (resp : List Nat) (e : Exception) (s1 : Server), h s frame = some (resp, e, s1) →
        s1.HoldingRegisters.length = s.HoldingRegisters.length ∧ s1.Coils = s.Coils ∧
        s1.DiscreteInputs = s.DiscreteInputs ∧ s1.InputRegisters = s.InputRegisters) := by
  refine ⟨?_, writeHoldingRegisters_none s frame, writeMultipleCoils_none s frame, ?_, ?_, ?_⟩
  · intro h hmem
    simp only [List.mem_cons, List.mem_singleton, List.not_mem_nil, or_false] at hmem
    rcases hmem with rfl | rfl | rfl | rfl | rfl | rfl
    · exact readCoils_none s frame
    · exact readDiscreteInputs_none s frame
    · exact readHoldingRegisters_none s frame
    · exact readInputRegisters_none s frame
    · exact writeSingleCoil_none s frame
    · exact writeHoldingRegister_none s frame
  · intro h hmem resp e s1 hrun
    simp only [List.mem_cons, List.mem_singleton, List.not_mem_nil, or_false] at hmem
    rcases hmem with rfl | rfl | rfl | rfl
    · exact readCoils_server s frame resp e s1 hrun
    · exact readDiscreteInputs_server s frame resp e s1 hrun
    · exact readHoldingRegisters_server s frame resp e s1 hrun
    · exact readInputRegisters_server s frame resp e s1 hrun
  · intro h hmem resp e s1 hrun
    simp only [List.mem_cons, List.mem_singleton, List.not_mem_nil, or_false] at hmem
    have key : s1 = { s with Coils := s1.Coils } ∧ s1.Coils.length = s.Coils.length := by
      rcases hmem with rfl | rfl
      · exact ⟨(writeSingleCoil_server s frame resp e s1 hrun).1,
          (writeSingleCoil_server s frame resp e s1 hrun).2.1⟩
      · exact ⟨(writeMultipleCoils_server s frame resp e s1 hrun).1,
          (writeMultipleCoils_server s frame resp e s1 hrun).2.1⟩
    have hd := congrArg Server.DiscreteInputs key.1
    have hh := congrArg Server.HoldingRegisters key.1
    have hi := congrArg Server.InputRegisters key.1
    exact ⟨key.2, hd, hh, hi⟩
  · intro h hmem resp e s1 hrun
    simp only [List.mem_cons, List.mem_singleton, List.not_mem_nil, or_false] at hmem
    have key : s1 = { s with HoldingRegisters := s1.HoldingRegisters } ∧
        s1.HoldingRegisters.length = s.HoldingRegisters.length := by
      rcases hmem with rfl | rfl
      · exact writeHoldingRegister_server s frame resp e s1 hrun
      · exact writeHoldingRegisters_server s frame resp e s1 hrun
    have hc := congrArg Server.Coils key.1
    have hd := congrArg Server.DiscreteInputs key.1
    have hi := congrArg Server.InputRegisters key.1
    exact ⟨key.2, hc, hd, hi⟩

set_option maxRecDepth 100000 in
/-- Witness for C26, on a server with four tables of four bytes: a `ReadCoils`
request with the two data bytes `00 00` and a `WriteHoldingRegister` request
with the three data bytes `00 01 07`, each cut from a packet of 512 bytes whose
remaining bytes are `00 04` or `09` followed by zeros, a `WriteSingleCoil`
request of four bytes, and a `WriteHoldingRegisters` request with a payload of
three bytes. -/
theorem handlers_frame_effect_witness :
    (ReadCoils ⟨255, [1, 0, 1, 0], [0, 1, 0, 1], [1, 2, 3, 4], [5, 6, 7, 8], []⟩
          ⟨255, 1, [0, 0], 0 :: 4 :: List.replicate 500 0⟩
        = some ([1, 10], .Success,
            ⟨255, [1, 0, 1, 0], [0, 1, 0, 1], [1, 2, 3, 4], [5, 6, 7, 8], []⟩) ∧
      WriteHoldingRegister
          ⟨255, [1, 0, 1, 0], [0, 1, 0, 1], [1, 2, 3, 4], [5, 6, 7, 8], []⟩
          ⟨255, 6, [0, 1, 7], 9 :: List.replicate 500 0⟩
        = some ([0, 1, 7, 9], .Success,
            ⟨255, [1, 0, 1, 0], [0, 1, 0, 1], [1, 2, 7, 9], [5, 6, 7, 8], []⟩) ∧
      WriteSingleCoil ⟨255, [1, 0, 1, 0], [0, 1, 0, 1], [1, 2, 3, 4], [5, 6, 7, 8], []⟩
          ⟨255, 5, [0, 0, 255, 255], []⟩
        = some ([0, 0, 255, 255], .Success,
            ⟨255, [1, 0, 1, 0], [1, 1, 0, 1], [1, 2, 3, 4], [5, 6, 7, 8], []⟩) ∧
      WriteHoldingRegisters ⟨255, [1, 0, 1, 0], [0, 1, 0, 1], [1, 2, 3, 4], [5, 6, 7, 8], []⟩
          ⟨255, 16, [0, 0, 0, 1, 3, 9, 9, 9], []⟩
        = some ([], .IllegalDataAddress,
            ⟨255, [1, 0, 1, 0], [0, 1, 0, 1], [9, 9, 9, 4], [5, 6, 7, 8], []⟩)) ∧
    (⟨255, [1, 0, 1, 0], [0, 1, 0, 1], [1, 2, 3, 4], [5, 6, 7, 8], []⟩ : Server)
      = ⟨255, [1, 0, 1, 0], [0, 1, 0, 1], [1, 2, 3, 4], [5, 6, 7, 8], []⟩ ∧
    (([1, 2, 7, 9] : List Nat).length = ([1, 2, 3, 4] : List Nat).length ∧
      ([0, 1, 0, 1] : List Nat) = [0, 1, 0, 1] ∧ ([1, 0, 1, 0] : List Nat) = [1, 0, 1, 0] ∧
      ([5, 6, 7, 8] : List Nat) = [5, 6, 7, 8]) ∧
    (([1, 1, 0, 1] : List Nat).length = ([0, 1, 0, 1] : List Nat).length ∧
      ([1, 0, 1, 0] : List Nat) = [1, 0, 1, 0] ∧ ([1, 2, 3, 4] : List Nat) = [1, 2, 3, 4] ∧
      ([5, 6, 7, 8] : List Nat) = [5, 6, 7, 8]) ∧
    (([9, 9, 9, 4] : List Nat).length = ([1, 2, 3, 4] : List Nat).length ∧
      ([0, 1, 0, 1] : List Nat) = [0, 1, 0, 1] ∧ ([1, 0, 1, 0] : List Nat) = [1, 0, 1, 0] ∧
      ([5, 6, 7, 8] : List Nat) = [5, 6, 7, 8]) :=
  ⟨by decide,
    (handlers_frame_effect ⟨255, [1, 0, 1, 0], [0, 1, 0, 1], [1, 2, 3, 4], [5, 6, 7, 8], []⟩
      ⟨255, 1, [0, 0], 0 :: 4 :: List.replicate 500 0⟩).2.2.2.1 ReadCoils (by simp)
      [1, 10] .Success ⟨255, [1, 0, 1, 0], [0, 1, 0, 1], [1, 2, 3, 4], [5, 6, 7, 8], []⟩
      (by decide),
    (handlers_frame_effect ⟨255, [1, 0, 1, 0], [0, 1, 0, 1], [1, 2, 3, 4], [5, 6, 7, 8], []⟩
      ⟨255, 6, [0, 1, 7], 9 :: List.replicate 500 0⟩).2.2.2.2.2 WriteHoldingRegister (by simp)
      [0, 1, 7, 9] .Success ⟨255, [1, 0, 1, 0], [0, 1, 0, 1], [1, 2, 7, 9], [5, 6, 7, 8], []⟩
      (by decide),
    (handlers_frame_effect ⟨255, [1, 0, 1, 0], [0, 1, 0, 1], [1, 2, 3, 4], [5, 6, 7, 8], []⟩
      ⟨255, 5, [0, 0, 255, 255], []⟩).2.2.2.2.1 WriteSingleCoil (by simp)
      [0, 0, 255, 255] .Success
      ⟨255, [1, 0, 1, 0], [1, 1, 0, 1], [1, 2, 3, 4], [5, 6, 7, 8], []⟩ (by decide),
    (handlers_frame_effect ⟨255, [1, 0, 1, 0], [0, 1, 0, 1], [1, 2, 3, 4], [5, 6, 7, 8], []⟩
      ⟨255, 16, [0, 0, 0, 1, 3, 9, 9, 9], []⟩).2.2.2.2.2 WriteHoldingRegisters (by simp)
      [] .IllegalDataAddress
      ⟨255, [1, 0, 1, 0], [0, 1, 0, 1], [9, 9, 9, 4], [5, 6, 7, 8], []⟩ (by decide)⟩

end mbserver
